import Mathlib

/-!
# cstorpoolauto: keyed-list merge (`k8s/k8s.go`) and storage-set planner
(`controller/clusterplan/reconciler.go`)

A shallow embedding of the two Go source files.

* Go maps with string keys are kept as the list of their entries (`GoMap`).
  Reading, writing and `range` are the only operations the sources use.
* Go leaves the order of a `range` over a map unspecified.  Every function
  that ranges over a map takes a `RangeOrder`: for every `range` statement of
  the sources (`Site`) it fixes the order in which the keys are visited, and
  it must visit every key exactly once.  Statements that hold "for every
  iteration order" quantify over the `RangeOrder`.
* `interface{}` values are the `Value` tree; a `map[string]string` stored in
  an `interface{}` is a value of its own (`Value.strMap`), different from a
  `map[string]interface{}` (`Value.map`), as in Go.
* A Go function returning `(T, error)` returns `Except Failure T`; a `Failure`
  is a returned `error` or a run-time panic.
* The helpers of the Kubernetes library that the sources call are part of the
  embedding, with the deep copies they take: a deep copy panics on a value
  that is not a JSON value, such as a `map[string]string`.
-/

namespace CStorPoolAuto

/-! ## Go maps -/

/-- A Go `map[string]V`, as the list of its entries.  Maps built with
`GoMap.set` from the empty map hold every key once. -/
abbrev GoMap (V : Type) := List (String × V)

namespace GoMap

variable {V : Type}

/-- The keys of the map. -/
def keys (m : GoMap V) : List String := m.map Prod.fst

/-- The values of the map. -/
def values (m : GoMap V) : List V := m.map Prod.snd

/-- Two-valued read `v, ok := m[key]`. -/
def get? : GoMap V → String → Option V
  | [], _ => none
  | (k, v) :: rest, key => if k = key then some v else get? rest key

/-- One-valued read `m[key]`: the zero value of `V` when the key is absent. -/
def getD (m : GoMap V) (key : String) (zero : V) : V := (get? m key).getD zero

/-- Write `m[key] = v`. -/
def set : GoMap V → String → V → GoMap V
  | [], key, v => [(key, v)]
  | (k, w) :: rest, key, v =>
    if k = key then (k, v) :: rest else (k, w) :: set rest key v

end GoMap

/-! ## Iteration order of `range` over a map -/

/-- The `range` statements over maps in the two source files. -/
inductive Site where
  /-- Site `for k, v := range new`, k8s.go:54. -/
  | mergeNew
  /-- Site `for k, v := range itemMap`, k8s.go:72, for the item at index `i`. -/
  | mergeItem (i : Nat)
  /-- Site `for observedNode := range planner.ObservedStorageSets`, reconciler.go:287. -/
  | observed
  /-- Site `for removeNode := range planner.IsRemove`, reconciler.go:295. -/
  | remove
  /-- Site `for createNode := range planner.IsCreate`, reconciler.go:296, inside the
  iteration of the outer loop for `removeNode`. -/
  | create (removeNode : String)
  /-- Site `for uid, isnoop := range p.IsNoop`, reconciler.go:325. -/
  | planNoop
  /-- Site `for uid, iscreate := range p.IsCreate`, reconciler.go:337. -/
  | planCreate
  /-- Site `for uid, isremove := range p.IsRemove`, reconciler.go:377. -/
  | planRemove
  /-- Site `for oldNode, newNode := range p.Updates`, reconciler.go:393. -/
  | planUpdate
  deriving DecidableEq

/-- One resolution of Go's unspecified map iteration order: at every site the
keys of the map are visited in the order `visit` gives, each exactly once. -/
structure RangeOrder where
  visit : Site → List String → List String
  perm : ∀ s ks, (visit s ks).Perm ks

namespace RangeOrder

/-- Every map is visited in the order its keys were first written. -/
def insertion : RangeOrder := ⟨fun _ ks => ks, fun _ _ => List.Perm.refl _⟩

/-- Every map is visited in the opposite order. -/
def reversed : RangeOrder := ⟨fun _ ks => ks.reverse, fun _ ks => List.reverse_perm ks⟩

/-- The key `k`, when present, is visited first at every site. -/
def first (k : String) : RangeOrder :=
  ⟨fun _ ks => if k ∈ ks then k :: ks.erase k else ks, fun _ ks => by
    by_cases h : k ∈ ks
    · simpa [h] using (List.perm_cons_erase h).symm
    · simp [h]⟩

end RangeOrder

/-- The entries `range` yields over `m` at site `s`. -/
def GoMap.range {V : Type} (ρ : RangeOrder) (s : Site) (m : GoMap V) : List (String × V) :=
  (ρ.visit s (GoMap.keys m)).filterMap fun k => (GoMap.get? m k).map fun v => (k, v)

/-! ## `interface{}` values and unstructured objects -/

/-- The dynamic values the sources store in an `interface{}`. -/
inductive Value where
  | null
  | bool (b : Bool)
  /-- A Go `int64`, the type of a decoded JSON integer. -/
  | int (n : Int)
  | str (s : String)
  /-- A value of a named, non-JSON Go type (`types.UID`, a quantity, ...),
  kept by type name and text. -/
  | named (goType : String) (text : String)
  /-- A Go `map[string]string`. -/
  | strMap (m : List (String × String))
  /-- A Go `[]interface{}`. -/
  | slice (items : List Value)
  /-- A Go `map[string]interface{}`. -/
  | map (fields : List (String × Value))

/-- The text `%T` prints for a value. -/
def Value.goType : Value → String
  | .null => "<nil>"
  | .bool _ => "bool"
  | .int _ => "int64"
  | .str _ => "string"
  | .named t _ => t
  | .strMap _ => "map[string]string"
  | .slice _ => "[]interface {}"
  | .map _ => "map[string]interface {}"

/-- An `unstructured.Unstructured`: its `Object` field. -/
structure Unstructured where
  Object : GoMap Value

/-- How a call fails: with a returned `error`, or with a run-time panic. -/
inductive Failure where
  | error (msg : String)
  | panic (msg : String)
  deriving DecidableEq

/-! ## Helpers of `k8s.io/apimachinery`

The packages `runtime` and `unstructured` are imported by the sources and are
not part of the repository.  The helpers follow the library: a path is
followed through `map[string]interface{}` levels; a missing key is "not
found" (`none`); a level or a final value of the wrong dynamic type is an
error.  The library deep-copies the list `NestedSlice` returns, the value
`SetNestedField` and `SetNestedSlice` write, and the object in `DeepCopy`;
the copy panics on a value that is not a JSON value, a `map[string]string`
among them. -/

mutual
/-- Library `runtime.DeepCopyJSONValue`: the copy of a JSON value (nil, bool,
number, string, `[]interface{}` and `map[string]interface{}` of JSON values)
and the panic `cannot deep copy %T` on a value of any other dynamic type.
The entries of a map are copied in the order they are held; the library
ranges over the map, which decides only which of several values that cannot
be copied the panic names. -/
def DeepCopyJSONValue : Value → Except Failure Value
  | .null => .ok .null
  | .bool b => .ok (.bool b)
  | .int n => .ok (.int n)
  | .str s => .ok (.str s)
  | .slice items =>
    match deepCopyItems items with
    | .error e => .error e
    | .ok clone => .ok (.slice clone)
  | .map fields =>
    match deepCopyFields fields with
    | .error e => .error e
    | .ok clone => .ok (.map clone)
  | .named t x => .error (.panic ("cannot deep copy " ++ (Value.named t x).goType))
  | .strMap m => .error (.panic ("cannot deep copy " ++ (Value.strMap m).goType))
/-- The loop of `DeepCopyJSONValue` over the items of a `[]interface{}`. -/
def deepCopyItems : List Value → Except Failure (List Value)
  | [] => .ok []
  | v :: rest =>
    match DeepCopyJSONValue v with
    | .error e => .error e
    | .ok c =>
      match deepCopyItems rest with
      | .error e => .error e
      | .ok clone => .ok (c :: clone)
/-- The loop of `DeepCopyJSONValue` over the entries of a
`map[string]interface{}`; on the `Object` of an unstructured object it is
library `runtime.DeepCopyJSON`. -/
def deepCopyFields : List (String × Value) → Except Failure (List (String × Value))
  | [] => .ok []
  | (k, v) :: rest =>
    match DeepCopyJSONValue v with
    | .error e => .error e
    | .ok c =>
      match deepCopyFields rest with
      | .error e => .error e
      | .ok clone => .ok ((k, c) :: clone)
end

/-- Library `Unstructured.DeepCopy` of an object that is not nil: the object
whose `Object` is the deep copy of this one's. -/
def Unstructured.DeepCopy (u : Unstructured) : Except Failure Unstructured :=
  match deepCopyFields u.Object with
  | .error e => .error e
  | .ok object => .ok ⟨object⟩

/-- Library `unstructured.NestedFieldNoCopy` applied to the value `val`. -/
def nestedField : Value → List String → Except Failure (Option Value)
  | val, [] => .ok (some val)
  | .null, _ :: _ => .ok none
  | .map m, field :: rest =>
    match GoMap.get? m field with
    | some v => nestedField v rest
    | none => .ok none
  | val, field :: _ =>
    .error (.error (field ++ " accessor error: value is of the type " ++ val.goType
      ++ ", expected map[string]interface{}"))

/-- Library `unstructured.NestedFieldNoCopy`. -/
def NestedFieldNoCopy (obj : GoMap Value) (fields : List String) :
    Except Failure (Option Value) :=
  nestedField (.map obj) fields

/-- Library `unstructured.NestedString`. -/
def NestedString (obj : GoMap Value) (fields : List String) : Except Failure (Option String) :=
  match NestedFieldNoCopy obj fields with
  | .error e => .error e
  | .ok none => .ok none
  | .ok (some (.str s)) => .ok (some s)
  | .ok (some v) =>
    .error (.error ("accessor error: value is of the type " ++ v.goType ++ ", expected string"))

/-- Library `unstructured.NestedSlice`: the deep copy of the `[]interface{}`
found at the path. -/
def NestedSlice (obj : GoMap Value) (fields : List String) :
    Except Failure (Option (List Value)) :=
  match NestedFieldNoCopy obj fields with
  | .error e => .error e
  | .ok none => .ok none
  | .ok (some (.slice items)) =>
    match deepCopyItems items with
    | .error e => .error e
    | .ok clone => .ok (some clone)
  | .ok (some v) =>
    .error (.error ("accessor error: value is of the type " ++ v.goType
      ++ ", expected []interface{}"))

/-- Library `setNestedFieldNoCopy`: missing levels are created, a level that is
present and is not a `map[string]interface{}` is an error.  The library
slices `fields[:len(fields)-1]`, which panics for an empty path.  A failing
call returns before it has written anything. -/
def setNestedFieldNoCopy (obj : GoMap Value) (value : Value) :
    List String → Except Failure (GoMap Value)
  | [] => .error (.panic "slice bounds out of range")
  | [field] => .ok (GoMap.set obj field value)
  | field :: rest =>
    match GoMap.get? obj field with
    | some (.map inner) =>
      match setNestedFieldNoCopy inner value rest with
      | .ok inner1 => .ok (GoMap.set obj field (.map inner1))
      | .error e => .error e
    | some _ =>
      .error (.error ("value cannot be set because " ++ field
        ++ " is not a map[string]interface{}"))
    | none =>
      match setNestedFieldNoCopy [] value rest with
      | .ok inner1 => .ok (GoMap.set obj field (.map inner1))
      | .error e => .error e

/-- Library `unstructured.SetNestedField`:
`setNestedFieldNoCopy(obj, runtime.DeepCopyJSONValue(value), fields...)`; the
object after the write.  The copy is taken first, so a value that cannot be
copied panics before anything is written. -/
def SetNestedField (obj : GoMap Value) (value : Value) (fields : List String) :
    Except Failure (GoMap Value) :=
  match DeepCopyJSONValue value with
  | .error e => .error e
  | .ok clone => setNestedFieldNoCopy obj clone fields

/-- Library `unstructured.SetNestedSlice`: `SetNestedField` of the slice. -/
def SetNestedSlice (obj : GoMap Value) (value : List Value) (fields : List String) :
    Except Failure (GoMap Value) :=
  SetNestedField obj (.slice value) fields

/-! ## `k8s/k8s.go` -/

/-- Source `GetNestedSlice`, k8s.go:35-41: the slice at the field path; the nil
slice when nothing is found. -/
def GetNestedSlice (obj : Unstructured) (fields : List String) : Except Failure (List Value) :=
  match NestedSlice obj.Object fields with
  | .error e => .error e
  | .ok none => .ok []
  | .ok (some nestedSlice) => .ok nestedSlice

/-- The test `k == "uid" || k == "id" || k == "name"`, k8s.go:59. -/
def isIndexKey (k : String) : Bool := k == "uid" || k == "id" || k == "name"

/-- Source `MergeNestedSlice`, k8s.go:52-64: `indexKey` and `indexValue` after
the loop over `new`, which stops at the first of the three keys it meets;
both stay the empty string when it meets none. -/
def indexOf (ρ : RangeOrder) (new : GoMap String) : String × String :=
  match (GoMap.range ρ .mergeNew new).find? (fun kv => isIndexKey kv.1) with
  | some kv => kv
  | none => ("", "")

/-- Source `MergeNestedSlice`, k8s.go:72-78: whether the loop over `itemMap`
sets `found`. -/
def itemMatches (ρ : RangeOrder) (i : Nat) (itemMap : GoMap String)
    (indexKey indexValue : String) : Bool :=
  (GoMap.range ρ (.mergeItem i) itemMap).any fun kv => kv.1 == indexKey && kv.2 == indexValue

/-- Source `MergeNestedSlice`, k8s.go:65-82: the scan of the existing items
from index `i` on.  It ends with `foundAt` at the first match, with no index
when the items run out, and with the type error at the first item met that
is not a `map[string]string`. -/
def scanFrom (ρ : RangeOrder) (indexKey indexValue : String) :
    List Value → Nat → Except Failure (Option Nat)
  | [], _ => .ok none
  | .strMap itemMap :: rest, i =>
    if itemMatches ρ i itemMap indexKey indexValue then .ok (some i)
    else scanFrom ρ indexKey indexValue rest (i + 1)
  | item :: _, _ =>
    .error (.error ("Invalid nested slice: Want map[string]string: Got " ++ item.goType))

/-- Source `MergeNestedSlice`, k8s.go:47-91. -/
def MergeNestedSlice (ρ : RangeOrder) (obj : Unstructured) (new : GoMap String)
    (fields : List String) : Except Failure (List Value) :=
  match GetNestedSlice obj fields with
  | .error err => .error err
  | .ok nestedSlice =>
    match scanFrom ρ (indexOf ρ new).1 (indexOf ρ new).2 nestedSlice 0 with
    | .error err => .error err
    | .ok (some foundAt) => .ok (nestedSlice.set foundAt (.strMap new))
    | .ok none => .ok (nestedSlice ++ [.strMap new])

/-- Source `MergeAndSetNestedSlice`, k8s.go:95-105: the merged slice and the
object after the write. -/
def MergeAndSetNestedSlice (ρ : RangeOrder) (obj : Unstructured) (new : GoMap String)
    (fields : List String) : Except Failure (List Value × Unstructured) :=
  match MergeNestedSlice ρ obj new fields with
  | .error err => .error err
  | .ok updatedSlice =>
    match SetNestedSlice obj.Object updatedSlice fields with
    | .error err => .error err
    | .ok object => .ok (updatedSlice, ⟨object⟩)

/-- Source `MergeStatusConditions`, k8s.go:111-113. -/
def MergeStatusConditions (ρ : RangeOrder) (obj : Unstructured) (newCondition : GoMap String) :
    Except Failure (List Value) :=
  MergeNestedSlice ρ obj newCondition ["status", "conditions"]

/-- Source `MergeAndSetStatusConditions`, k8s.go:119-121. -/
def MergeAndSetStatusConditions (ρ : RangeOrder) (obj : Unstructured)
    (newCondition : GoMap String) : Except Failure (List Value × Unstructured) :=
  MergeAndSetNestedSlice ρ obj newCondition ["status", "conditions"]

/-! ### Readings of `MergeNestedSlice` -/

/-- A record as it is held in an object decoded from JSON: a
`map[string]interface{}` whose values are strings. -/
def recordAsJSON (m : GoMap String) : Value :=
  .map (m.map fun kv => (kv.1, Value.str kv.2))

/-- The field path holds no list entry: nothing is found there, or the empty
list. -/
def NoEntries (obj : Unstructured) (fields : List String) : Prop :=
  NestedFieldNoCopy obj.Object fields = .ok none
    ∨ NestedFieldNoCopy obj.Object fields = .ok (some (.slice []))

/-- The string a list entry holds for the key `k`, read from a
`map[string]string` or from a `map[string]interface{}`. -/
def recordKey (k : String) : Value → Option String
  | .strMap m => GoMap.get? m k
  | .map m =>
    match GoMap.get? m k with
    | some (.str w) => some w
    | _ => none
  | _ => none

/-- No two entries of the list hold the key `k` with the same value. -/
def UniqueKey (k : String) (items : List Value) : Prop :=
  items.Pairwise fun a b => ∀ w, recordKey k a = some w → recordKey k b ≠ some w

/-- The identity key the spec describes (§4.2): the first key present in the
fixed priority order `uid`, `id`, `name`, with its value; empty strings when
none is present.  It is compared with `indexOf`, the loop of the source. -/
def priorityIndex (new : GoMap String) : String × String :=
  match GoMap.get? new "uid" with
  | some v => ("uid", v)
  | none =>
    match GoMap.get? new "id" with
    | some v => ("id", v)
    | none =>
      match GoMap.get? new "name" with
      | some v => ("name", v)
      | none => ("", "")

/-! ## `controller/clusterplan/reconciler.go`: the storage-set planner -/

/-- Modelled from the spec: the element type of `plan.Spec.Nodes` is declared in
package `types`, outside the sources.  The planner reads `UID` and `Name`
(spec §3, NodeRef: `uid`, `name`). -/
structure Node where
  UID : String
  Name : String

/-- Modelled from the spec: `types.CStorClusterPlan` is declared outside the
sources.  These are the parts the planner reads: `GetNamespace()`, `GetUID()`
and `Spec.Nodes` (spec §4.1, the ordered desired node list). -/
structure CStorClusterPlan where
  Namespace : String
  UID : Value
  Nodes : List Node

/-- Modelled from the spec: `types.CStorClusterConfig` is declared outside the
sources.  These are the fields of `Spec.DiskConfig` that `create` copies
(spec §4.1: "opaque pass-through fields, no computation"). -/
structure CStorClusterConfig where
  MinCapacity : Value
  MinCount : Value
  CSIAttacherName : Value
  StorageClassName : Value

/-- Source `StorageSetPlanner`, reconciler.go:220-234.  A `*unstructured.Unstructured`
read from `ObservedStorageSetObjs` is an `Option Unstructured`, `none` being
the nil pointer of an absent key. -/
structure StorageSetPlanner where
  ClusterPlan : CStorClusterPlan
  ObservedStorageSetObjs : GoMap Unstructured
  ObservedStorageSets : GoMap Bool
  IsCreate : GoMap Bool
  IsRemove : GoMap Bool
  IsNoop : GoMap Bool
  PlannedNodeNames : GoMap String
  Updates : GoMap String

/-- The accessors `GetNamespace()` and `GetName()` of an unstructured object:
the string at the path, the empty string when there is none. -/
def getNestedString (obj : Unstructured) (fields : List String) : String :=
  match NestedString obj.Object fields with
  | .ok (some s) => s
  | _ => ""

/-- The text `namespace name` the error messages of the planner print. -/
def storageSetLabel (storageSet : Unstructured) : String :=
  getNestedString storageSet ["metadata", "namespace"] ++ " "
    ++ getNestedString storageSet ["metadata", "name"]

/-- The wrapped message of `errors.Wrapf(err, ...)`. -/
def wrapf (e : Failure) (msg : String) : Failure :=
  match e with
  | .error inner => .error (msg ++ ": " ++ inner)
  | .panic inner => .panic inner

/-- Source `NewStorageSetPlanner`, reconciler.go:252-272: the loop over the
observed storage sets. -/
def observeAll (planner : StorageSetPlanner) :
    List Unstructured → Except Failure StorageSetPlanner
  | [] => .ok planner
  | storageSet :: rest =>
    match NestedString storageSet.Object ["spec", "node", "uid"] with
    | .error err =>
      .error (wrapf err ("Failed to get spec.node.uid: StorageSet " ++ storageSetLabel storageSet))
    | .ok none =>
      .error (.error ("Invalid StorageSet " ++ storageSetLabel storageSet
        ++ ": Missing spec.node.uid"))
    | .ok (some uid) =>
      observeAll
        { planner with
          ObservedStorageSets := GoMap.set planner.ObservedStorageSets uid true
          ObservedStorageSetObjs := GoMap.set planner.ObservedStorageSetObjs uid storageSet }
        rest

/-- Source `NewStorageSetPlanner`, reconciler.go:273-284: the body of the loop
over the planned nodes. -/
def bucketNode (planner : StorageSetPlanner) (plannedNode : Node) : StorageSetPlanner :=
  let planner1 :=
    { planner with
      PlannedNodeNames := GoMap.set planner.PlannedNodeNames plannedNode.UID plannedNode.Name }
  if GoMap.getD planner1.ObservedStorageSets plannedNode.UID false then
    { planner1 with IsNoop := GoMap.set planner1.IsNoop plannedNode.UID true }
  else
    { planner1 with IsCreate := GoMap.set planner1.IsCreate plannedNode.UID true }

/-- Source `NewStorageSetPlanner`, reconciler.go:287-292: the body of the loop
over the observed nodes. -/
def markRemove (planner : StorageSetPlanner) (observedNode : String) : StorageSetPlanner :=
  if GoMap.getD planner.IsNoop observedNode false
      || GoMap.getD planner.IsCreate observedNode false then
    planner
  else
    { planner with IsRemove := GoMap.set planner.IsRemove observedNode true }

/-- Source `NewStorageSetPlanner`, reconciler.go:297-301: the body of the inner
loop of the pairing. -/
def pairStep (removeNode : String) (planner : StorageSetPlanner) (createNode : String) :
    StorageSetPlanner :=
  { planner with
    Updates := GoMap.set planner.Updates removeNode createNode
    IsRemove := GoMap.set planner.IsRemove removeNode false
    IsCreate := GoMap.set planner.IsCreate createNode false }

/-- Source `NewStorageSetPlanner`, reconciler.go:296-302: the inner loop, over
every key of `IsCreate`, for one `removeNode`. -/
def pairInner (ρ : RangeOrder) (planner : StorageSetPlanner) (removeNode : String) :
    StorageSetPlanner :=
  (ρ.visit (.create removeNode) (GoMap.keys planner.IsCreate)).foldl (pairStep removeNode) planner

/-- Source `NewStorageSetPlanner`, reconciler.go:295-303: the pairing loops.  The
loops write values of keys that exist, so the keys ranged over are those at
the start of each loop. -/
def pairUp (ρ : RangeOrder) (planner : StorageSetPlanner) : StorageSetPlanner :=
  (ρ.visit .remove (GoMap.keys planner.IsRemove)).foldl (pairInner ρ) planner

/-- The planner of reconciler.go:242-251, all maps empty. -/
def emptyPlanner (plan : CStorClusterPlan) : StorageSetPlanner :=
  { ClusterPlan := plan
    ObservedStorageSetObjs := []
    ObservedStorageSets := []
    IsCreate := []
    IsRemove := []
    IsNoop := []
    PlannedNodeNames := []
    Updates := [] }

/-- The planner before the pairing loops, reconciler.go:273-292. -/
def classify (ρ : RangeOrder) (plan : CStorClusterPlan) (planner : StorageSetPlanner) :
    StorageSetPlanner :=
  let planner1 := plan.Nodes.foldl bucketNode planner
  (ρ.visit .observed (GoMap.keys planner1.ObservedStorageSets)).foldl markRemove planner1

/-- Source `NewStorageSetPlanner`, reconciler.go:237-305. -/
def NewStorageSetPlanner (ρ : RangeOrder) (plan : CStorClusterPlan)
    (observedStorageSet : List Unstructured) : Except Failure StorageSetPlanner :=
  match observeAll (emptyPlanner plan) observedStorageSet with
  | .error err => .error err
  | .ok planner => .ok (pairUp ρ (classify ρ plan planner))

namespace StorageSetPlanner

/-- Source `StorageSetPlanner.noop`, reconciler.go:323-333. -/
def noop (ρ : RangeOrder) (p : StorageSetPlanner) : List (Option Unstructured) :=
  (GoMap.range ρ .planNoop p.IsNoop).filterMap fun entry =>
    if !entry.2 then none else some (GoMap.get? p.ObservedStorageSetObjs entry.1)

/-- The object `create` builds for the node `uid`, reconciler.go:342-367.  The
annotation key `types.AnnKeyCStorClusterPlanUID` is declared outside the
sources and is the parameter `annKey`. -/
def newStorageSet (annKey : String) (p : StorageSetPlanner) (config : CStorClusterConfig)
    (uid : String) : Unstructured :=
  ⟨[("metadata", .map [
      ("apiVersion", .str "dao.mayadata.io/v1alpha1"),
      ("kind", .str "CStorClusterStorageSet"),
      ("generateName", .str "ccplan-"),
      ("namespace", .str p.ClusterPlan.Namespace),
      ("annotations", .map [(annKey, p.ClusterPlan.UID)])]),
    ("spec", .map [
      ("node", .map [
        ("name", .str (GoMap.getD p.PlannedNodeNames uid "")),
        ("uid", .str uid)]),
      ("disk", .map [
        ("capacity", config.MinCapacity),
        ("count", config.MinCount)]),
      ("externalProvisioner", .map [
        ("csiAttacherName", config.CSIAttacherName),
        ("storageClassName", config.StorageClassName)])])]⟩

/-- Source `StorageSetPlanner.create`, reconciler.go:335-371. -/
def create (ρ : RangeOrder) (annKey : String) (p : StorageSetPlanner)
    (config : CStorClusterConfig) : List (Option Unstructured) :=
  (GoMap.range ρ .planCreate p.IsCreate).filterMap fun entry =>
    if !entry.2 then none else some (some (newStorageSet annKey p config entry.1))

/-- Source `StorageSetPlanner.remove`, reconciler.go:373-389: nothing but the log
line, whose arguments read the observed object of every node marked for
removal; reading through a nil pointer panics. -/
def remove (ρ : RangeOrder) (p : StorageSetPlanner) : Except Failure Unit :=
  if (GoMap.range ρ .planRemove p.IsRemove).all fun entry =>
      !entry.2 || (GoMap.get? p.ObservedStorageSetObjs entry.1).isSome then
    .ok ()
  else
    .error (.panic "invalid memory address or nil pointer dereference")

/-- Source `StorageSetPlanner.update`, reconciler.go:394-405: the body of the loop
for one pairing.  An old node without an observed object reads the nil
pointer, whose `DeepCopy` is nil, and `copy.Object` panics. -/
def updateOne (p : StorageSetPlanner) (oldNode newNode : String) :
    Except Failure (Option Unstructured) :=
  match GoMap.get? p.ObservedStorageSetObjs oldNode with
  | none => .error (.panic "invalid memory address or nil pointer dereference")
  | some storageSet =>
    match storageSet.DeepCopy with
    | .error err => .error err
    | .ok copy =>
      match SetNestedField copy.Object
          (.strMap [("name", GoMap.getD p.PlannedNodeNames newNode ""), ("uid", newNode)])
          ["spec", "node"] with
      | .error err => .error err
      | .ok object => .ok (some ⟨object⟩)

/-- Source `StorageSetPlanner.update`, reconciler.go:393-407: the loop, over the
pairings in the order given; it returns at the first error. -/
def updateAll (p : StorageSetPlanner) :
    List (String × String) → Except Failure (List (Option Unstructured))
  | [] => .ok []
  | (oldNode, newNode) :: rest =>
    match updateOne p oldNode newNode with
    | .error err => .error err
    | .ok copy =>
      match updateAll p rest with
      | .error err => .error err
      | .ok updatedStorageSets => .ok (copy :: updatedStorageSets)

/-- Source `StorageSetPlanner.update`, reconciler.go:391-408. -/
def update (ρ : RangeOrder) (p : StorageSetPlanner) :
    Except Failure (List (Option Unstructured)) :=
  updateAll p (GoMap.range ρ .planUpdate p.Updates)

/-- Source `StorageSetPlanner.Plan`, reconciler.go:308-321. -/
def Plan (ρ : RangeOrder) (annKey : String) (p : StorageSetPlanner)
    (config : CStorClusterConfig) : Except Failure (List (Option Unstructured)) :=
  let noopObjs := p.noop ρ
  let createObjs := p.create ρ annKey config
  match p.remove ρ with
  | .error err => .error err
  | .ok _ =>
    match p.update ρ with
    | .error err => .error err
    | .ok updateObjs => .ok (noopObjs ++ createObjs ++ updateObjs)

end StorageSetPlanner

/-! ### Readings of the planner's result -/

/-- The node UIDs in the noop bucket: the keys of `IsNoop` whose value is true. -/
def noopUIDs (p : StorageSetPlanner) : List String :=
  (GoMap.keys p.IsNoop).filter fun uid => GoMap.getD p.IsNoop uid false

/-- The node UIDs in the create bucket: the keys of `IsCreate` whose value is true. -/
def createUIDs (p : StorageSetPlanner) : List String :=
  (GoMap.keys p.IsCreate).filter fun uid => GoMap.getD p.IsCreate uid false

/-- The node UIDs in the remove bucket: the keys of `IsRemove` whose value is true. -/
def removeUIDs (p : StorageSetPlanner) : List String :=
  (GoMap.keys p.IsRemove).filter fun uid => GoMap.getD p.IsRemove uid false

/-- The pairing targets: the values of `Updates`. -/
def updateTargets (p : StorageSetPlanner) : List String := GoMap.values p.Updates

/-- The pairing sources: the keys of `Updates`. -/
def updateSources (p : StorageSetPlanner) : List String := GoMap.keys p.Updates

/-- The node UID a resource is bound to: the string at `spec.node.uid`, read as
the planner reads it (reconciler.go:254); none when the read fails or finds
nothing. -/
def boundNodeUID (o : Unstructured) : Option String :=
  match NestedString o.Object ["spec", "node", "uid"] with
  | .ok (some uid) => some uid
  | _ => none

/-- How many resources of a planned list are bound to the node `uid`. -/
def boundCount (uid : String) (storageSets : List (Option Unstructured)) : Nat :=
  (storageSets.filter fun storageSet => storageSet.bind boundNodeUID == some uid).length

/-- The desired node UIDs of a plan. -/
def desiredUIDs (plan : CStorClusterPlan) : List String := plan.Nodes.map Node.UID

/-- An observed resource carries the string `uid` at `spec.node.uid`. -/
def BoundTo (storageSet : Unstructured) (uid : String) : Prop :=
  NestedString storageSet.Object ["spec", "node", "uid"] = .ok (some uid)

/-- Some observed storage set is bound to the node `uid`. -/
def ObservedUID (observedStorageSet : List Unstructured) (uid : String) : Prop :=
  ∃ storageSet ∈ observedStorageSet, BoundTo storageSet uid

/-- The pairing loops have something to pair: some observed node UID is not
desired and some desired node UID is not observed. -/
def HasPairing (plan : CStorClusterPlan) (observedStorageSet : List Unstructured) : Prop :=
  (∃ u, ObservedUID observedStorageSet u ∧ u ∉ desiredUIDs plan)
    ∧ ∃ d ∈ desiredUIDs plan, ¬ ObservedUID observedStorageSet d

/-- A storage set as the API server holds it, bound to node `uid`. -/
def storageSetOn (name uid : String) : Unstructured :=
  ⟨[("metadata", .map [("name", .str name), ("namespace", .str "openebs")]),
    ("spec", .map [("node", .map [("name", .str ("node-" ++ uid)), ("uid", .str uid)])])]⟩

/-- A plan over the given node UIDs. -/
def planOver (uids : List String) : CStorClusterPlan :=
  { Namespace := "openebs", UID := .named "types.UID" "plan-1",
    Nodes := uids.map fun uid => ⟨uid, "node-" ++ uid⟩ }

/-- An object holding `items` at `status.conditions`. -/
def conditionsObj (items : List Value) : Unstructured :=
  ⟨[("status", .map [("conditions", .slice items)])]⟩

/-! ## `controller/clusterplan/reconciler.go`: the error handler -/

/-- Library type `generic.SyncHookResponse` of metac, imported by the sources:
the fields the sources write.  A nil `Status` map is `none`. -/
structure SyncHookResponse where
  Attachments : List (Option Unstructured)
  Status : Option (GoMap Value)
  SkipReconcile : Bool

/-- Source `reconcileErrHandler`, reconciler.go:31-34. -/
structure reconcileErrHandler where
  clusterPlan : Unstructured
  hookResponse : SyncHookResponse

/-- Source `reconcileErrHandler.handle`, reconciler.go:36-72, without the log
lines, for a handler whose two pointers are not nil: the handler after the
call.  The error is its message.  A merge that returns an error takes the
branch of reconciler.go:51-62; a merge that panics ends the call there,
before anything is written to the response.  The condition record
`types.MakeCStorClusterPlanReconcileErrCond(err)` and the constant
`types.CStorClusterPlanStatusPhaseError` are declared outside the sources and
are the parameters `makeErrCond` and `phaseError`. -/
def reconcileErrHandler.handle (ρ : RangeOrder) (makeErrCond : String → GoMap String)
    (phaseError : Value) (h : reconcileErrHandler) (err : String) :
    Except Failure reconcileErrHandler :=
  match MergeStatusConditions ρ h.clusterPlan (makeErrCond err) with
  | .error (.panic msg) => .error (.panic msg)
  | .error (.error _) =>
    .ok { h with hookResponse := { h.hookResponse with Status := none, SkipReconcile := true } }
  | .ok conds =>
    .ok { h with
          hookResponse :=
            { h.hookResponse with
              Status := some (GoMap.set (GoMap.set [] "phase" phaseError) "conditions"
                (.slice conds))
              SkipReconcile := true } }

/-! # Theorems -/

/-! ## Facts about maps and `range` -/

theorem GoMap.get?_mem_keys {V : Type} (m : GoMap V) (k : String) (v : V)
    (h : GoMap.get? m k = some v) : k ∈ GoMap.keys m := by
  induction m with
  | nil => simp [GoMap.get?] at h
  | cons e rest ih =>
    obtain ⟨k0, v0⟩ := e
    by_cases hk : k0 = k
    · simp [GoMap.keys, hk]
    · simp only [GoMap.get?, hk, if_false] at h
      have := ih h
      simp only [GoMap.keys] at this
      simp [GoMap.keys, this]

theorem GoMap.mem_keys_get? {V : Type} (m : GoMap V) (k : String)
    (h : k ∈ GoMap.keys m) : ∃ v, GoMap.get? m k = some v := by
  induction m with
  | nil => simp [GoMap.keys] at h
  | cons e rest ih =>
    obtain ⟨k0, v0⟩ := e
    by_cases hk : k0 = k
    · exact ⟨v0, by simp [GoMap.get?, hk]⟩
    · have h1 : k ∈ GoMap.keys rest := by
        simp only [GoMap.keys, List.map_cons, List.mem_cons] at h
        rcases h with h | h
        · exact absurd h.symm hk
        · exact h
      obtain ⟨v, hv⟩ := ih h1
      exact ⟨v, by simp [GoMap.get?, hk, hv]⟩

/-- What `range` yields, at any site and in any order, is exactly the entries
the map holds. -/
theorem GoMap.mem_range {V : Type} (ρ : RangeOrder) (s : Site) (m : GoMap V) (k : String)
    (v : V) : (k, v) ∈ GoMap.range ρ s m ↔ GoMap.get? m k = some v := by
  unfold GoMap.range
  rw [List.mem_filterMap]
  constructor
  · rintro ⟨a, _, ha⟩
    cases hg : GoMap.get? m a with
    | none => simp [hg] at ha
    | some w =>
      simp only [hg, Option.map_some', Option.some.injEq, Prod.mk.injEq] at ha
      obtain ⟨rfl, rfl⟩ := ha
      exact hg
  · intro h
    refine ⟨k, ?_, by simp [h]⟩
    exact (ρ.perm s _).mem_iff.mpr (GoMap.get?_mem_keys m k v h)


/-! ## Facts about the deep copy of the library -/

mutual
/-- A deep copy that returns, returns the value it was given. -/
theorem DeepCopyJSONValue_ok : ∀ (v w : Value), DeepCopyJSONValue v = .ok w → w = v
  | .null, w, h => by rw [DeepCopyJSONValue] at h; exact (Except.ok.inj h).symm
  | .bool _, w, h => by rw [DeepCopyJSONValue] at h; exact (Except.ok.inj h).symm
  | .int _, w, h => by rw [DeepCopyJSONValue] at h; exact (Except.ok.inj h).symm
  | .str _, w, h => by rw [DeepCopyJSONValue] at h; exact (Except.ok.inj h).symm
  | .named _ _, w, h => by rw [DeepCopyJSONValue] at h; cases h
  | .strMap _, w, h => by rw [DeepCopyJSONValue] at h; cases h
  | .slice items, w, h => by
    rw [DeepCopyJSONValue] at h
    cases hc : deepCopyItems items with
    | error e => rw [hc] at h; cases h
    | ok c =>
      rw [hc] at h
      rw [← Except.ok.inj h, deepCopyItems_ok items c hc]
  | .map fields, w, h => by
    rw [DeepCopyJSONValue] at h
    cases hc : deepCopyFields fields with
    | error e => rw [hc] at h; cases h
    | ok c =>
      rw [hc] at h
      rw [← Except.ok.inj h, deepCopyFields_ok fields c hc]
theorem deepCopyItems_ok : ∀ (l c : List Value), deepCopyItems l = .ok c → c = l
  | [], c, h => by rw [deepCopyItems] at h; exact (Except.ok.inj h).symm
  | v :: rest, c, h => by
    rw [deepCopyItems] at h
    cases hv : DeepCopyJSONValue v with
    | error e => rw [hv] at h; cases h
    | ok w =>
      rw [hv] at h
      cases hr : deepCopyItems rest with
      | error e => rw [hr] at h; cases h
      | ok c1 =>
        rw [hr] at h
        rw [← Except.ok.inj h, DeepCopyJSONValue_ok v w hv, deepCopyItems_ok rest c1 hr]
theorem deepCopyFields_ok :
    ∀ (l c : List (String × Value)), deepCopyFields l = .ok c → c = l
  | [], c, h => by rw [deepCopyFields] at h; exact (Except.ok.inj h).symm
  | (k, v) :: rest, c, h => by
    rw [deepCopyFields] at h
    cases hv : DeepCopyJSONValue v with
    | error e => rw [hv] at h; cases h
    | ok w =>
      rw [hv] at h
      cases hr : deepCopyFields rest with
      | error e => rw [hr] at h; cases h
      | ok c1 =>
        rw [hr] at h
        rw [← Except.ok.inj h, DeepCopyJSONValue_ok v w hv, deepCopyFields_ok rest c1 hr]
end

mutual
/-- A deep copy that does not return, panics. -/
theorem DeepCopyJSONValue_error :
    ∀ (v : Value) (e : Failure), DeepCopyJSONValue v = .error e → ∃ msg, e = .panic msg
  | .null, e, h => by rw [DeepCopyJSONValue] at h; cases h
  | .bool _, e, h => by rw [DeepCopyJSONValue] at h; cases h
  | .int _, e, h => by rw [DeepCopyJSONValue] at h; cases h
  | .str _, e, h => by rw [DeepCopyJSONValue] at h; cases h
  | .named _ _, e, h => by rw [DeepCopyJSONValue] at h; exact ⟨_, (Except.error.inj h).symm⟩
  | .strMap _, e, h => by rw [DeepCopyJSONValue] at h; exact ⟨_, (Except.error.inj h).symm⟩
  | .slice items, e, h => by
    rw [DeepCopyJSONValue] at h
    cases hc : deepCopyItems items with
    | error e1 =>
      rw [hc] at h
      rw [← Except.error.inj h]
      exact deepCopyItems_error items e1 hc
    | ok c => rw [hc] at h; cases h
  | .map fields, e, h => by
    rw [DeepCopyJSONValue] at h
    cases hc : deepCopyFields fields with
    | error e1 =>
      rw [hc] at h
      rw [← Except.error.inj h]
      exact deepCopyFields_error fields e1 hc
    | ok c => rw [hc] at h; cases h
theorem deepCopyItems_error :
    ∀ (l : List Value) (e : Failure), deepCopyItems l = .error e → ∃ msg, e = .panic msg
  | [], e, h => by rw [deepCopyItems] at h; cases h
  | v :: rest, e, h => by
    rw [deepCopyItems] at h
    cases hv : DeepCopyJSONValue v with
    | error e1 =>
      rw [hv] at h
      rw [← Except.error.inj h]
      exact DeepCopyJSONValue_error v e1 hv
    | ok w =>
      rw [hv] at h
      cases hr : deepCopyItems rest with
      | error e1 =>
        rw [hr] at h
        rw [← Except.error.inj h]
        exact deepCopyItems_error rest e1 hr
      | ok c1 => rw [hr] at h; cases h
theorem deepCopyFields_error :
    ∀ (l : List (String × Value)) (e : Failure), deepCopyFields l = .error e →
      ∃ msg, e = .panic msg
  | [], e, h => by rw [deepCopyFields] at h; cases h
  | (k, v) :: rest, e, h => by
    rw [deepCopyFields] at h
    cases hv : DeepCopyJSONValue v with
    | error e1 =>
      rw [hv] at h
      rw [← Except.error.inj h]
      exact DeepCopyJSONValue_error v e1 hv
    | ok w =>
      rw [hv] at h
      cases hr : deepCopyFields rest with
      | error e1 =>
        rw [hr] at h
        rw [← Except.error.inj h]
        exact deepCopyFields_error rest e1 hr
      | ok c1 => rw [hr] at h; cases h
end

/-- A list that is deep-copied holds no `map[string]string`. -/
theorem deepCopyItems_ok_not_strMap (l c : List Value) (h : deepCopyItems l = .ok c) :
    ∀ x ∈ l, ∀ m, x ≠ Value.strMap m := by
  induction l generalizing c with
  | nil => intro x hx; cases hx
  | cons v rest ih =>
    rw [deepCopyItems] at h
    cases hv : DeepCopyJSONValue v with
    | error e => rw [hv] at h; cases h
    | ok w =>
      rw [hv] at h
      cases hr : deepCopyItems rest with
      | error e => rw [hr] at h; cases h
      | ok c1 =>
        intro x hx m hxm
        rcases List.mem_cons.mp hx with rfl | hx
        · rw [hxm, DeepCopyJSONValue] at hv
          cases hv
        · exact ih c1 hr x hx m hxm

/-- The deep copy of a list that holds a `map[string]string` panics. -/
theorem deepCopyItems_strMap (l : List Value) (m : GoMap String) (h : Value.strMap m ∈ l) :
    ∃ msg, deepCopyItems l = .error (.panic msg) := by
  cases hc : deepCopyItems l with
  | error e =>
    obtain ⟨msg, rfl⟩ := deepCopyItems_error l e hc
    exact ⟨msg, rfl⟩
  | ok c => exact absurd rfl (deepCopyItems_ok_not_strMap l c hc _ h m)

/-- Writing a `map[string]string` with `SetNestedField` panics in the deep copy,
whatever the object and the path. -/
theorem SetNestedField_strMap (obj : GoMap Value) (m : GoMap String) (fields : List String) :
    SetNestedField obj (.strMap m) fields
      = .error (.panic "cannot deep copy map[string]string") := rfl

/-- Writing a list that holds a `map[string]string` with `SetNestedSlice` panics in
the deep copy, whatever the object and the path. -/
theorem SetNestedSlice_strMap (obj : GoMap Value) (l : List Value) (m : GoMap String)
    (fields : List String) (h : Value.strMap m ∈ l) :
    ∃ msg, SetNestedSlice obj l fields = .error (.panic msg) := by
  obtain ⟨msg, hmsg⟩ := deepCopyItems_strMap l m h
  refine ⟨msg, ?_⟩
  unfold SetNestedSlice SetNestedField
  rw [DeepCopyJSONValue, hmsg]
/-! ## Facts about the index key of `MergeNestedSlice` -/

/-- When the new record holds one of the three keys, the key the loop picks is
one of them and is paired with the value the record holds for it. -/
theorem indexOf_picks (ρ : RangeOrder) (new : GoMap String) (k0 : String)
    (hk0 : isIndexKey k0 = true) (hmem : k0 ∈ GoMap.keys new) :
    isIndexKey (indexOf ρ new).1 = true
      ∧ GoMap.get? new (indexOf ρ new).1 = some (indexOf ρ new).2 := by
  obtain ⟨v0, hv0⟩ := GoMap.mem_keys_get? new k0 hmem
  have hin : (k0, v0) ∈ GoMap.range ρ .mergeNew new := (GoMap.mem_range ρ _ new k0 v0).mpr hv0
  unfold indexOf
  cases hf : (GoMap.range ρ .mergeNew new).find? (fun kv => isIndexKey kv.1) with
  | none =>
    have := List.find?_eq_none.mp hf (k0, v0) hin
    simp [hk0] at this
  | some kv =>
    have h1 := List.find?_some hf
    have h2 := List.mem_of_find?_eq_some hf
    obtain ⟨a, b⟩ := kv
    exact ⟨h1, (GoMap.mem_range ρ _ new a b).mp h2⟩

/-- A record that holds none of the three keys leaves both index strings empty. -/
theorem indexOf_none (ρ : RangeOrder) (new : GoMap String)
    (hnone : ∀ k ∈ GoMap.keys new, isIndexKey k = false) : indexOf ρ new = ("", "") := by
  unfold indexOf
  have : (GoMap.range ρ .mergeNew new).find? (fun kv => isIndexKey kv.1) = none := by
    rw [List.find?_eq_none]
    rintro ⟨a, b⟩ hab
    have := GoMap.get?_mem_keys new a b ((GoMap.mem_range ρ _ new a b).mp hab)
    simp [hnone a this]
  rw [this]

/-- A record that holds exactly one of the three keys is indexed by it in every
iteration order. -/
theorem indexOf_only (ρ : RangeOrder) (new : GoMap String) (k : String)
    (hk : isIndexKey k = true) (hmem : k ∈ GoMap.keys new)
    (honly : ∀ k1 ∈ GoMap.keys new, isIndexKey k1 = true → k1 = k) :
    ∃ v, indexOf ρ new = (k, v) ∧ GoMap.get? new k = some v := by
  obtain ⟨h1, h2⟩ := indexOf_picks ρ new k hk hmem
  have h3 := honly _ (GoMap.get?_mem_keys new _ _ h2) h1
  refine ⟨(indexOf ρ new).2, ?_, by rw [← h3]; exact h2⟩
  exact Prod.ext h3 rfl

/-- The order that visits `k` first picks `k`. -/
theorem indexOf_first (new : GoMap String) (k v : String) (hk : isIndexKey k = true)
    (hv : GoMap.get? new k = some v) : indexOf (RangeOrder.first k) new = (k, v) := by
  have hmem := GoMap.get?_mem_keys new k v hv
  unfold indexOf GoMap.range
  simp [RangeOrder.first, hmem, hv, hk]


/-! ## Facts about `GetNestedSlice` and `MergeNestedSlice` -/

/-- A record decoded from JSON is a JSON value. -/
theorem deepCopy_recordAsJSON (m : GoMap String) :
    DeepCopyJSONValue (recordAsJSON m) = .ok (recordAsJSON m) := by
  have h : ∀ l : GoMap String, deepCopyFields (l.map fun kv => (kv.1, Value.str kv.2))
      = .ok (l.map fun kv => (kv.1, Value.str kv.2)) := by
    intro l
    induction l with
    | nil => rfl
    | cons kv rest ih =>
      rw [List.map_cons, deepCopyFields, DeepCopyJSONValue]
      simp only
      rw [ih]
  unfold recordAsJSON
  rw [DeepCopyJSONValue, h]

/-- What `GetNestedSlice` reads, by what the path holds. -/
theorem GetNestedSlice_absent (obj : Unstructured) (fields : List String)
    (h : NestedFieldNoCopy obj.Object fields = .ok none) : GetNestedSlice obj fields = .ok [] := by
  unfold GetNestedSlice NestedSlice
  rw [h]

theorem GetNestedSlice_slice (obj : Unstructured) (fields : List String) (items : List Value)
    (h : NestedFieldNoCopy obj.Object fields = .ok (some (.slice items))) :
    GetNestedSlice obj fields = deepCopyItems items := by
  unfold GetNestedSlice NestedSlice
  rw [h]
  simp only
  cases deepCopyItems items with
  | error e => rfl
  | ok c => rfl

/-- What `GetNestedSlice` returns is the list the path holds, absent counting as
empty, and it holds no `map[string]string`. -/
theorem GetNestedSlice_ok (obj : Unstructured) (fields : List String) (l : List Value)
    (h : GetNestedSlice obj fields = .ok l) :
    (NestedFieldNoCopy obj.Object fields = .ok none ∧ l = []
      ∨ NestedFieldNoCopy obj.Object fields = .ok (some (.slice l)))
    ∧ ∀ x ∈ l, ∀ m, x ≠ Value.strMap m := by
  cases hn : NestedFieldNoCopy obj.Object fields with
  | error e =>
    unfold GetNestedSlice NestedSlice at h
    rw [hn] at h
    cases h
  | ok r =>
    cases r with
    | none =>
      rw [GetNestedSlice_absent obj fields hn] at h
      rw [← Except.ok.inj h]
      exact ⟨Or.inl ⟨rfl, rfl⟩, fun x hx => by cases hx⟩
    | some v =>
      cases v with
      | slice items =>
        rw [GetNestedSlice_slice obj fields items hn] at h
        have := deepCopyItems_ok items l h
        subst this
        exact ⟨Or.inr rfl, deepCopyItems_ok_not_strMap _ _ h⟩
      | _ =>
        unfold GetNestedSlice NestedSlice at h
        rw [hn] at h
        cases h

/-- The empty list is read exactly when the path holds no entry. -/
theorem GetNestedSlice_nil_iff (obj : Unstructured) (fields : List String) :
    GetNestedSlice obj fields = .ok [] ↔ NoEntries obj fields := by
  constructor
  · intro h
    rcases (GetNestedSlice_ok obj fields [] h).1 with ⟨h1, -⟩ | h1
    · exact Or.inl h1
    · exact Or.inr h1
  · rintro (h | h)
    · exact GetNestedSlice_absent obj fields h
    · rw [GetNestedSlice_slice obj fields [] h]
      rfl

/-- The scan stops with the type error at a first item that is not a
`map[string]string`. -/
theorem scanFrom_not_strMap (ρ : RangeOrder) (k v : String) (x : Value) (rest : List Value)
    (i : Nat) (hx : ∀ m, x ≠ Value.strMap m) :
    scanFrom ρ k v (x :: rest) i
      = .error (.error ("Invalid nested slice: Want map[string]string: Got " ++ x.goType)) := by
  cases x with
  | strMap m => exact absurd rfl (hx m)
  | _ => rfl

/-- When the read fails, the merge fails with the failure of the read. -/
theorem merge_of_read_error (ρ : RangeOrder) (obj : Unstructured) (new : GoMap String)
    (fields : List String) (e : Failure) (h : GetNestedSlice obj fields = .error e) :
    MergeNestedSlice ρ obj new fields = .error e := by
  unfold MergeNestedSlice
  rw [h]

/-- When the read finds no entry, the merge returns the new record alone. -/
theorem merge_of_no_entries (ρ : RangeOrder) (obj : Unstructured) (new : GoMap String)
    (fields : List String) (h : NoEntries obj fields) :
    MergeNestedSlice ρ obj new fields = .ok [.strMap new] := by
  unfold MergeNestedSlice
  rw [(GetNestedSlice_nil_iff obj fields).mpr h]
  rfl

/-- When the read returns entries, the merge returns the type error for the
first of them. -/
theorem merge_of_entries (ρ : RangeOrder) (obj : Unstructured) (new : GoMap String)
    (fields : List String) (x : Value) (rest : List Value)
    (h : GetNestedSlice obj fields = .ok (x :: rest)) :
    MergeNestedSlice ρ obj new fields
      = .error (.error ("Invalid nested slice: Want map[string]string: Got " ++ x.goType)) := by
  have hx := (GetNestedSlice_ok obj fields _ h).2 x (List.mem_cons_self _ _)
  unfold MergeNestedSlice
  rw [h]
  simp only
  rw [scanFrom_not_strMap ρ _ _ x rest 0 hx]

/-- The merge returns a list exactly when the path holds no entry, and the list
is then the new record alone. -/
theorem merge_ok_iff (ρ : RangeOrder) (obj : Unstructured) (new : GoMap String)
    (fields : List String) (l : List Value) :
    MergeNestedSlice ρ obj new fields = .ok l ↔ NoEntries obj fields ∧ l = [.strMap new] := by
  constructor
  · intro h
    cases hg : GetNestedSlice obj fields with
    | error e =>
      rw [merge_of_read_error ρ obj new fields e hg] at h
      cases h
    | ok items =>
      cases items with
      | nil =>
        have hno := (GetNestedSlice_nil_iff obj fields).mp hg
        rw [merge_of_no_entries ρ obj new fields hno] at h
        exact ⟨hno, (Except.ok.inj h).symm⟩
      | cons x rest =>
        rw [merge_of_entries ρ obj new fields x rest hg] at h
        cases h
  · rintro ⟨hno, rfl⟩
    exact merge_of_no_entries ρ obj new fields hno

/-- The merge over a path that holds a non-empty list: the type error for the
first entry when every entry is a JSON value, the panic of the deep copy
otherwise. -/
theorem merge_of_slice (ρ : RangeOrder) (obj : Unstructured) (new : GoMap String)
    (fields : List String) (x : Value) (rest : List Value)
    (h : NestedFieldNoCopy obj.Object fields = .ok (some (.slice (x :: rest)))) :
    (∀ c, deepCopyItems (x :: rest) = .ok c →
        MergeNestedSlice ρ obj new fields
          = .error (.error ("Invalid nested slice: Want map[string]string: Got " ++ x.goType)))
    ∧ (∀ e, deepCopyItems (x :: rest) = .error e →
        MergeNestedSlice ρ obj new fields = .error e ∧ ∃ msg, e = .panic msg) := by
  have hg := GetNestedSlice_slice obj fields _ h
  refine ⟨fun c hc => ?_, fun e he => ?_⟩
  · have := deepCopyItems_ok _ c hc
    subst this
    rw [hc] at hg
    exact merge_of_entries ρ obj new fields x rest hg
  · rw [he] at hg
    exact ⟨merge_of_read_error ρ obj new fields e hg, deepCopyItems_error _ e he⟩

/-- Over a path that holds a non-empty list the merge returns no list, and it
panics when the list holds a `map[string]string`. -/
theorem MergeNestedSlice_never_replaces_aux (ρ : RangeOrder) (obj : Unstructured)
    (new : GoMap String) (fields : List String) (x : Value) (rest : List Value)
    (hlist : NestedFieldNoCopy obj.Object fields = .ok (some (.slice (x :: rest)))) :
    (∀ l, MergeNestedSlice ρ obj new fields ≠ .ok l)
    ∧ (∀ m, Value.strMap m ∈ x :: rest →
        ∃ msg, MergeNestedSlice ρ obj new fields = .error (.panic msg)) := by
  obtain ⟨h1, h2⟩ := merge_of_slice ρ obj new fields x rest hlist
  refine ⟨?_, ?_⟩
  · intro l hl
    cases hc : deepCopyItems (x :: rest) with
    | error e =>
      rw [(h2 e hc).1] at hl
      cases hl
    | ok c =>
      rw [h1 c hc] at hl
      cases hl
  · intro m hm
    obtain ⟨msg, hmsg⟩ := deepCopyItems_strMap _ m hm
    exact ⟨msg, (h2 _ hmsg).1⟩
/-! ## Facts about writes to maps -/

theorem GoMap.get?_set {V : Type} (m : GoMap V) (k : String) (v : V) (k1 : String) :
    GoMap.get? (GoMap.set m k v) k1 = if k = k1 then some v else GoMap.get? m k1 := by
  induction m with
  | nil => simp [GoMap.set, GoMap.get?]
  | cons e rest ih =>
    obtain ⟨k0, v0⟩ := e
    by_cases h0 : k0 = k
    · subst h0
      by_cases h1 : k0 = k1 <;> simp [GoMap.set, GoMap.get?, h1]
    · by_cases h1 : k0 = k1
      · subst h1
        have : ¬ k = k0 := fun h => h0 h.symm
        simp [GoMap.set, GoMap.get?, h0, this]
      · simp [GoMap.set, GoMap.get?, h0, h1, ih]

theorem GoMap.getD_set {V : Type} (m : GoMap V) (k : String) (v : V) (k1 : String) (z : V) :
    GoMap.getD (GoMap.set m k v) k1 z = if k = k1 then v else GoMap.getD m k1 z := by
  unfold GoMap.getD
  rw [GoMap.get?_set]
  split <;> rfl

theorem GoMap.get?_of_not_mem_keys {V : Type} (m : GoMap V) (k : String)
    (h : k ∉ GoMap.keys m) : GoMap.get? m k = none := by
  cases hg : GoMap.get? m k with
  | none => rfl
  | some v => exact absurd (GoMap.get?_mem_keys m k v hg) h

theorem GoMap.getD_of_not_mem_keys {V : Type} (m : GoMap V) (k : String) (z : V)
    (h : k ∉ GoMap.keys m) : GoMap.getD m k z = z := by
  unfold GoMap.getD
  rw [GoMap.get?_of_not_mem_keys m k h]
  rfl

theorem GoMap.keys_set_of_mem {V : Type} (m : GoMap V) (k : String) (v : V)
    (h : k ∈ GoMap.keys m) : GoMap.keys (GoMap.set m k v) = GoMap.keys m := by
  induction m with
  | nil => simp [GoMap.keys] at h
  | cons e rest ih =>
    obtain ⟨k0, v0⟩ := e
    by_cases h0 : k0 = k
    · simp [GoMap.set, GoMap.keys, h0]
    · have h1 : k ∈ GoMap.keys rest := by
        simp only [GoMap.keys, List.map_cons, List.mem_cons] at h
        rcases h with h | h
        · exact absurd h.symm h0
        · exact h
      have := ih h1
      simp only [GoMap.keys] at this
      simp [GoMap.set, GoMap.keys, h0, this]

theorem GoMap.keys_set_of_not_mem {V : Type} (m : GoMap V) (k : String) (v : V)
    (h : k ∉ GoMap.keys m) : GoMap.keys (GoMap.set m k v) = GoMap.keys m ++ [k] := by
  induction m with
  | nil => simp [GoMap.set, GoMap.keys]
  | cons e rest ih =>
    obtain ⟨k0, v0⟩ := e
    have h0 : ¬ k0 = k := by
      intro h0
      exact h (by simp [GoMap.keys, h0])
    have h1 : k ∉ GoMap.keys rest := by
      intro h1
      exact h (by simp only [GoMap.keys] at h1; simp [GoMap.keys, h1])
    have := ih h1
    simp only [GoMap.keys] at this
    simp [GoMap.set, GoMap.keys, h0, this]

theorem GoMap.mem_keys_set {V : Type} (m : GoMap V) (k : String) (v : V) (k1 : String) :
    k1 ∈ GoMap.keys (GoMap.set m k v) ↔ k1 = k ∨ k1 ∈ GoMap.keys m := by
  by_cases h : k ∈ GoMap.keys m
  · rw [GoMap.keys_set_of_mem m k v h]
    constructor
    · exact Or.inr
    · rintro (rfl | h1)
      · exact h
      · exact h1
  · rw [GoMap.keys_set_of_not_mem m k v h]
    simp [or_comm]

theorem GoMap.nodup_keys_set {V : Type} (m : GoMap V) (k : String) (v : V)
    (h : (GoMap.keys m).Nodup) : (GoMap.keys (GoMap.set m k v)).Nodup := by
  by_cases hk : k ∈ GoMap.keys m
  · rw [GoMap.keys_set_of_mem m k v hk]
    exact h
  · rw [GoMap.keys_set_of_not_mem m k v hk]
    exact List.Nodup.append h (List.nodup_singleton k) (by simpa using hk)

/-- The values of a map are the values `get?` returns. -/
theorem GoMap.mem_values {V : Type} (m : GoMap V) (h : (GoMap.keys m).Nodup) (v : V) :
    v ∈ GoMap.values m ↔ ∃ k, GoMap.get? m k = some v := by
  induction m with
  | nil => simp [GoMap.values, GoMap.get?]
  | cons e rest ih =>
    obtain ⟨k0, v0⟩ := e
    have hn : (GoMap.keys rest).Nodup := by
      simp only [GoMap.keys, List.map_cons, List.nodup_cons] at h
      exact h.2
    have hk0 : k0 ∉ GoMap.keys rest := by
      simp only [GoMap.keys, List.map_cons, List.nodup_cons] at h
      exact h.1
    have ih1 := ih hn
    simp only [GoMap.values] at ih1
    simp only [GoMap.values, List.map_cons, List.mem_cons, ih1]
    constructor
    · rintro (rfl | ⟨k, hk⟩)
      · exact ⟨k0, by simp [GoMap.get?]⟩
      · refine ⟨k, ?_⟩
        have : ¬ k0 = k := by
          rintro rfl
          exact hk0 (GoMap.get?_mem_keys rest _ _ hk)
        simp [GoMap.get?, this, hk]
    · rintro ⟨k, hk⟩
      by_cases hkk : k0 = k
      · simp only [GoMap.get?, hkk, if_true, Option.some.injEq] at hk
        exact Or.inl hk.symm
      · simp only [GoMap.get?, hkk, if_false] at hk
        exact Or.inr ⟨k, hk⟩

/-! ## Facts about the pairing loops -/

/-- The inner pairing loop writes the three maps independently of each other. -/
theorem pairFold_eq (r : String) (cs : List String) (p : StorageSetPlanner) :
    cs.foldl (pairStep r) p =
      { p with
        Updates := cs.foldl (fun m c => GoMap.set m r c) p.Updates
        IsRemove := cs.foldl (fun m _ => GoMap.set m r false) p.IsRemove
        IsCreate := cs.foldl (fun m c => GoMap.set m c false) p.IsCreate } := by
  induction cs generalizing p with
  | nil => rfl
  | cons c cs ih => rw [List.foldl_cons, ih]; rfl

theorem clearAll_keys (cs : List String) (m : GoMap Bool) (h : ∀ c ∈ cs, c ∈ GoMap.keys m) :
    GoMap.keys (cs.foldl (fun m c => GoMap.set m c false) m) = GoMap.keys m := by
  induction cs generalizing m with
  | nil => rfl
  | cons c cs ih =>
    have hc := GoMap.keys_set_of_mem m c false (h c (List.mem_cons_self _ _))
    rw [List.foldl_cons, ih, hc]
    intro c1 hc1
    rw [hc]
    exact h c1 (List.mem_cons_of_mem _ hc1)

theorem clearAll_getD (cs : List String) (m : GoMap Bool) (u : String) :
    GoMap.getD (cs.foldl (fun m c => GoMap.set m c false) m) u false = true
      ↔ GoMap.getD m u false = true ∧ u ∉ cs := by
  induction cs generalizing m with
  | nil => simp
  | cons c cs ih =>
    rw [List.foldl_cons, ih, GoMap.getD_set]
    by_cases hcu : c = u
    · simp [hcu]
    · have : ¬ u = c := fun h => hcu h.symm
      simp [hcu, this]

theorem clearOne_keys (r : String) (cs : List String) (m : GoMap Bool)
    (h : r ∈ GoMap.keys m) :
    GoMap.keys (cs.foldl (fun m _ => GoMap.set m r false) m) = GoMap.keys m := by
  induction cs generalizing m with
  | nil => rfl
  | cons c cs ih =>
    have hc := GoMap.keys_set_of_mem m r false h
    rw [List.foldl_cons, ih, hc]
    rw [hc]
    exact h

theorem clearOne_getD (r : String) (cs : List String) (m : GoMap Bool) (u : String)
    (hcs : cs ≠ []) :
    GoMap.getD (cs.foldl (fun m _ => GoMap.set m r false) m) u false = true
      ↔ GoMap.getD m u false = true ∧ u ≠ r := by
  induction cs generalizing m with
  | nil => exact absurd rfl hcs
  | cons c cs ih =>
    rw [List.foldl_cons]
    by_cases hnil : cs = []
    · subst hnil
      rw [List.foldl_nil, GoMap.getD_set]
      by_cases hru : r = u
      · simp [hru]
      · have : ¬ u = r := fun h => hru h.symm
        simp [hru, this]
    · rw [ih _ hnil, GoMap.getD_set]
      by_cases hru : r = u
      · simp [hru]
      · simp [hru]

theorem pairTo_mem_keys (r : String) (cs : List String) (m : GoMap String) (u : String)
    (hcs : cs ≠ []) :
    u ∈ GoMap.keys (cs.foldl (fun m c => GoMap.set m r c) m) ↔ u = r ∨ u ∈ GoMap.keys m := by
  induction cs generalizing m with
  | nil => exact absurd rfl hcs
  | cons c cs ih =>
    rw [List.foldl_cons]
    by_cases hnil : cs = []
    · subst hnil
      rw [List.foldl_nil, GoMap.mem_keys_set]
    · rw [ih _ hnil, GoMap.mem_keys_set]
      tauto

theorem pairTo_get? (r : String) (cs : List String) (m : GoMap String) (u c : String)
    (h : GoMap.get? (cs.foldl (fun m c => GoMap.set m r c) m) u = some c) :
    GoMap.get? m u = some c ∨ (u = r ∧ c ∈ cs) := by
  induction cs generalizing m with
  | nil => exact Or.inl h
  | cons c0 cs ih =>
    rw [List.foldl_cons] at h
    rcases ih _ h with h1 | ⟨h1, h2⟩
    · rw [GoMap.get?_set] at h1
      by_cases hru : r = u
      · rw [if_pos hru] at h1
        exact Or.inr ⟨hru.symm, by rw [← Option.some.inj h1]; exact List.mem_cons_self _ _⟩
      · rw [if_neg hru] at h1
        exact Or.inl h1
    · exact Or.inr ⟨h1, List.mem_cons_of_mem _ h2⟩

theorem pairTo_nodup (r : String) (cs : List String) (m : GoMap String)
    (h : (GoMap.keys m).Nodup) :
    (GoMap.keys (cs.foldl (fun m c => GoMap.set m r c) m)).Nodup := by
  induction cs generalizing m with
  | nil => exact h
  | cons c cs ih =>
    rw [List.foldl_cons]
    exact ih _ (GoMap.nodup_keys_set m r c h)

/-- What the pairing loops leave untouched, and what they write, when `IsCreate`
holds no key: nothing. -/
theorem pairLoop_no_create (ρ : RangeOrder) (rs : List String) (p : StorageSetPlanner)
    (h : GoMap.keys p.IsCreate = []) : rs.foldl (pairInner ρ) p = p := by
  induction rs with
  | nil => rfl
  | cons r rs ih =>
    rw [List.foldl_cons]
    have : pairInner ρ p r = p := by
      unfold pairInner
      have hv : ρ.visit (.create r) (GoMap.keys p.IsCreate) = [] := by
        rw [h]
        exact List.perm_nil.mp (ρ.perm _ _)
      rw [hv]
      rfl
    rw [this]
    exact ih

/-- The state after the pairing loops have run over the remove nodes `rs`, when
`IsCreate` holds at least one key. -/
theorem pairLoop_spec (ρ : RangeOrder) (rs : List String) (p : StorageSetPlanner)
    (hrs : ∀ r ∈ rs, r ∈ GoMap.keys p.IsRemove) (hc : GoMap.keys p.IsCreate ≠ []) :
    (rs.foldl (pairInner ρ) p).IsNoop = p.IsNoop
    ∧ (rs.foldl (pairInner ρ) p).ObservedStorageSetObjs = p.ObservedStorageSetObjs
    ∧ (rs.foldl (pairInner ρ) p).PlannedNodeNames = p.PlannedNodeNames
    ∧ (rs.foldl (pairInner ρ) p).ClusterPlan = p.ClusterPlan
    ∧ GoMap.keys (rs.foldl (pairInner ρ) p).IsCreate = GoMap.keys p.IsCreate
    ∧ GoMap.keys (rs.foldl (pairInner ρ) p).IsRemove = GoMap.keys p.IsRemove
    ∧ (∀ u, GoMap.getD (rs.foldl (pairInner ρ) p).IsRemove u false = true
        ↔ GoMap.getD p.IsRemove u false = true ∧ u ∉ rs)
    ∧ (∀ u, GoMap.getD (rs.foldl (pairInner ρ) p).IsCreate u false = true
        ↔ GoMap.getD p.IsCreate u false = true ∧ rs = [])
    ∧ (∀ u, u ∈ GoMap.keys (rs.foldl (pairInner ρ) p).Updates
        ↔ u ∈ rs ∨ u ∈ GoMap.keys p.Updates)
    ∧ (∀ u c, GoMap.get? (rs.foldl (pairInner ρ) p).Updates u = some c →
        GoMap.get? p.Updates u = some c ∨ (u ∈ rs ∧ c ∈ GoMap.keys p.IsCreate))
    ∧ ((GoMap.keys p.Updates).Nodup → (GoMap.keys (rs.foldl (pairInner ρ) p).Updates).Nodup) := by
  induction rs generalizing p with
  | nil => simp
  | cons r rs ih =>
    rw [List.foldl_cons]
    have hperm := ρ.perm (.create r) (GoMap.keys p.IsCreate)
    have hvne : ρ.visit (.create r) (GoMap.keys p.IsCreate) ≠ [] := by
      intro h
      rw [h] at hperm
      exact hc (List.nil_perm.mp hperm)
    have hin : ∀ c ∈ ρ.visit (.create r) (GoMap.keys p.IsCreate), c ∈ GoMap.keys p.IsCreate :=
      fun c hcm => hperm.mem_iff.mp hcm
    have hr : r ∈ GoMap.keys p.IsRemove := hrs r (List.mem_cons_self _ _)
    have hq : pairInner ρ p r = _ := pairFold_eq r (ρ.visit (.create r) (GoMap.keys p.IsCreate)) p
    have hqc : GoMap.keys (pairInner ρ p r).IsCreate = GoMap.keys p.IsCreate := by
      rw [hq]; exact clearAll_keys _ _ hin
    have hqr : GoMap.keys (pairInner ρ p r).IsRemove = GoMap.keys p.IsRemove := by
      rw [hq]; exact clearOne_keys r _ _ hr
    obtain ⟨i1, i2, i3, i4, i5, i6, i7, i8, i9, i10, i11⟩ :=
      ih (pairInner ρ p r) (by
        intro r1 hr1
        rw [hqr]
        exact hrs r1 (List.mem_cons_of_mem _ hr1)) (by rw [hqc]; exact hc)
    refine ⟨?_, ?_, ?_, ?_, ?_, ?_, ?_, ?_, ?_, ?_, ?_⟩
    · rw [i1, hq]
    · rw [i2, hq]
    · rw [i3, hq]
    · rw [i4, hq]
    · rw [i5, hqc]
    · rw [i6, hqr]
    · intro u
      rw [i7 u, hq]
      simp only
      rw [clearOne_getD r _ _ u hvne, List.mem_cons]
      tauto
    · intro u
      rw [i8 u, hq]
      simp only
      rw [clearAll_getD]
      constructor
      · rintro ⟨⟨h1, h2⟩, _⟩
        exact absurd (hperm.mem_iff.mpr (by
          by_contra hnot
          rw [GoMap.getD_of_not_mem_keys _ _ _ hnot] at h1
          exact Bool.false_ne_true h1)) h2
      · rintro ⟨_, h⟩
        exact absurd h (List.cons_ne_nil _ _)
    · intro u
      rw [i9 u, hq]
      simp only
      rw [pairTo_mem_keys r _ _ u hvne, List.mem_cons]
      tauto
    · intro u c hget
      rcases i10 u c hget with h1 | ⟨h1, h2⟩
      · rw [hq] at h1
        simp only at h1
        rcases pairTo_get? r _ _ u c h1 with h3 | ⟨h3, h4⟩
        · exact Or.inl h3
        · exact Or.inr ⟨by rw [h3]; exact List.mem_cons_self _ _, hin c h4⟩
      · rw [hqc] at h2
        exact Or.inr ⟨List.mem_cons_of_mem _ h1, h2⟩
    · intro hnd
      apply i11
      rw [hq]
      exact pairTo_nodup r _ _ hnd

/-! ## Facts about the classification loops -/

/-- The loop over the observed storage sets succeeds when every one of them
carries `spec.node.uid`; it writes the two observed maps only. -/
theorem observeAll_spec (obs : List Unstructured) (p : StorageSetPlanner)
    (hall : ∀ o ∈ obs, ∃ u, BoundTo o u) :
    ∃ q, observeAll p obs = .ok q
      ∧ q.ClusterPlan = p.ClusterPlan ∧ q.IsCreate = p.IsCreate ∧ q.IsRemove = p.IsRemove
      ∧ q.IsNoop = p.IsNoop ∧ q.PlannedNodeNames = p.PlannedNodeNames ∧ q.Updates = p.Updates
      ∧ (∀ u, u ∈ GoMap.keys q.ObservedStorageSets
          ↔ u ∈ GoMap.keys p.ObservedStorageSets ∨ ∃ o ∈ obs, BoundTo o u)
      ∧ (∀ u, GoMap.getD q.ObservedStorageSets u false = true
          ↔ GoMap.getD p.ObservedStorageSets u false = true ∨ ∃ o ∈ obs, BoundTo o u) := by
  induction obs generalizing p with
  | nil => exact ⟨p, rfl, rfl, rfl, rfl, rfl, rfl, rfl, by simp, by simp⟩
  | cons o obs ih =>
    obtain ⟨u0, hu0⟩ := hall o (List.mem_cons_self _ _)
    have hu0' : NestedString o.Object ["spec", "node", "uid"] = .ok (some u0) := hu0
    obtain ⟨q, hq, h1, h2, h3, h4, h5, h6, h7, h8⟩ :=
      ih { p with
            ObservedStorageSets := GoMap.set p.ObservedStorageSets u0 true
            ObservedStorageSetObjs := GoMap.set p.ObservedStorageSetObjs u0 o }
        (fun o1 ho1 => hall o1 (List.mem_cons_of_mem _ ho1))
    refine ⟨q, ?_, h1, h2, h3, h4, h5, h6, ?_, ?_⟩
    · rw [observeAll, hu0']
      exact hq
    · intro u
      rw [h7 u]
      simp only [GoMap.mem_keys_set, List.mem_cons, exists_eq_or_imp, BoundTo, hu0',
        Except.ok.injEq, Option.some.injEq]
      constructor
      · rintro ((rfl | h) | h)
        · exact Or.inr (Or.inl rfl)
        · exact Or.inl h
        · exact Or.inr (Or.inr h)
      · rintro (h | rfl | h)
        · exact Or.inl (Or.inr h)
        · exact Or.inl (Or.inl rfl)
        · exact Or.inr h
    · intro u
      rw [h8 u]
      simp only [GoMap.getD_set, List.mem_cons, exists_eq_or_imp, BoundTo, hu0',
        Except.ok.injEq, Option.some.injEq]
      by_cases hu : u0 = u
      · simp [hu]
      · simp [hu]

/-- The loop over the planned nodes: a planned node that is observed becomes a
key of `IsNoop`, one that is not becomes a key of `IsCreate`, both with the
value true. -/
theorem bucketNodes_spec (nodes : List Node) (p : StorageSetPlanner) :
    (nodes.foldl bucketNode p).ObservedStorageSets = p.ObservedStorageSets
    ∧ (nodes.foldl bucketNode p).ObservedStorageSetObjs = p.ObservedStorageSetObjs
    ∧ (nodes.foldl bucketNode p).IsRemove = p.IsRemove
    ∧ (nodes.foldl bucketNode p).Updates = p.Updates
    ∧ (nodes.foldl bucketNode p).ClusterPlan = p.ClusterPlan
    ∧ (∀ u, GoMap.getD (nodes.foldl bucketNode p).IsNoop u false = true
        ↔ GoMap.getD p.IsNoop u false = true
          ∨ (u ∈ nodes.map Node.UID ∧ GoMap.getD p.ObservedStorageSets u false = true))
    ∧ (∀ u, u ∈ GoMap.keys (nodes.foldl bucketNode p).IsCreate
        ↔ u ∈ GoMap.keys p.IsCreate
          ∨ (u ∈ nodes.map Node.UID ∧ GoMap.getD p.ObservedStorageSets u false = false))
    ∧ (∀ u, GoMap.getD (nodes.foldl bucketNode p).IsCreate u false = true
        ↔ GoMap.getD p.IsCreate u false = true
          ∨ (u ∈ nodes.map Node.UID ∧ GoMap.getD p.ObservedStorageSets u false = false)) := by
  induction nodes generalizing p with
  | nil => simp
  | cons n nodes ih =>
    rw [List.foldl_cons]
    obtain ⟨i1, i2, i3, i4, i5, i6, i7, i8⟩ := ih (bucketNode p n)
    have e1 : (bucketNode p n).ObservedStorageSets = p.ObservedStorageSets := by
      unfold bucketNode; dsimp only; split <;> rfl
    have e2 : (bucketNode p n).ObservedStorageSetObjs = p.ObservedStorageSetObjs := by
      unfold bucketNode; dsimp only; split <;> rfl
    have e3 : (bucketNode p n).IsRemove = p.IsRemove := by
      unfold bucketNode; dsimp only; split <;> rfl
    have e4 : (bucketNode p n).Updates = p.Updates := by
      unfold bucketNode; dsimp only; split <;> rfl
    have e5 : (bucketNode p n).ClusterPlan = p.ClusterPlan := by
      unfold bucketNode; dsimp only; split <;> rfl
    refine ⟨i1.trans e1, i2.trans e2, i3.trans e3, i4.trans e4, i5.trans e5, ?_, ?_, ?_⟩
    · intro u
      rw [i6 u, e1]
      by_cases hobs : GoMap.getD p.ObservedStorageSets n.UID false = true
      · have : (bucketNode p n).IsNoop = GoMap.set p.IsNoop n.UID true := by
          unfold bucketNode; simp [hobs]
        rw [this, GoMap.getD_set, List.map_cons, List.mem_cons]
        by_cases hu : n.UID = u
        · subst hu; simp [hobs]
        · have : ¬ u = n.UID := fun h => hu h.symm
          simp [hu, this]
      · have : (bucketNode p n).IsNoop = p.IsNoop := by
          unfold bucketNode; simp [hobs]
        rw [this, List.map_cons, List.mem_cons]
        constructor
        · rintro (h | ⟨h1, h2⟩)
          · exact Or.inl h
          · exact Or.inr ⟨Or.inr h1, h2⟩
        · rintro (h | ⟨rfl | h1, h2⟩)
          · exact Or.inl h
          · exact absurd h2 hobs
          · exact Or.inr ⟨h1, h2⟩
    · intro u
      rw [i7 u, e1]
      by_cases hobs : GoMap.getD p.ObservedStorageSets n.UID false = true
      · have : (bucketNode p n).IsCreate = p.IsCreate := by
          unfold bucketNode; simp [hobs]
        rw [this, List.map_cons, List.mem_cons]
        constructor
        · rintro (h | ⟨h1, h2⟩)
          · exact Or.inl h
          · exact Or.inr ⟨Or.inr h1, h2⟩
        · rintro (h | ⟨rfl | h1, h2⟩)
          · exact Or.inl h
          · rw [hobs] at h2; exact absurd h2 (by decide)
          · exact Or.inr ⟨h1, h2⟩
      · have hf : GoMap.getD p.ObservedStorageSets n.UID false = false := by
          simpa using hobs
        have : (bucketNode p n).IsCreate = GoMap.set p.IsCreate n.UID true := by
          unfold bucketNode; simp [hf]
        rw [this, GoMap.mem_keys_set, List.map_cons, List.mem_cons]
        constructor
        · rintro ((rfl | h) | ⟨h1, h2⟩)
          · exact Or.inr ⟨Or.inl rfl, hf⟩
          · exact Or.inl h
          · exact Or.inr ⟨Or.inr h1, h2⟩
        · rintro (h | ⟨rfl | h1, h2⟩)
          · exact Or.inl (Or.inr h)
          · exact Or.inl (Or.inl rfl)
          · exact Or.inr ⟨h1, h2⟩
    · intro u
      rw [i8 u, e1]
      by_cases hobs : GoMap.getD p.ObservedStorageSets n.UID false = true
      · have : (bucketNode p n).IsCreate = p.IsCreate := by
          unfold bucketNode; simp [hobs]
        rw [this, List.map_cons, List.mem_cons]
        constructor
        · rintro (h | ⟨h1, h2⟩)
          · exact Or.inl h
          · exact Or.inr ⟨Or.inr h1, h2⟩
        · rintro (h | ⟨rfl | h1, h2⟩)
          · exact Or.inl h
          · rw [hobs] at h2; exact absurd h2 (by decide)
          · exact Or.inr ⟨h1, h2⟩
      · have hf : GoMap.getD p.ObservedStorageSets n.UID false = false := by
          simpa using hobs
        have : (bucketNode p n).IsCreate = GoMap.set p.IsCreate n.UID true := by
          unfold bucketNode; simp [hf]
        rw [this, GoMap.getD_set, List.map_cons, List.mem_cons]
        by_cases hu : n.UID = u
        · subst hu; simp [hf]
        · have : ¬ u = n.UID := fun h => hu h.symm
          simp [hu, this]

/-- The loop over the observed nodes `L`: an observed node that is neither noop
nor create becomes a key of `IsRemove` with the value true. -/
theorem markRemoves_spec (L : List String) (p : StorageSetPlanner) :
    (L.foldl markRemove p).IsNoop = p.IsNoop
    ∧ (L.foldl markRemove p).IsCreate = p.IsCreate
    ∧ (L.foldl markRemove p).Updates = p.Updates
    ∧ (L.foldl markRemove p).ObservedStorageSetObjs = p.ObservedStorageSetObjs
    ∧ (L.foldl markRemove p).ClusterPlan = p.ClusterPlan
    ∧ (∀ u, u ∈ GoMap.keys (L.foldl markRemove p).IsRemove
        ↔ u ∈ GoMap.keys p.IsRemove
          ∨ (u ∈ L ∧ GoMap.getD p.IsNoop u false = false ∧ GoMap.getD p.IsCreate u false = false))
    ∧ (∀ u, GoMap.getD (L.foldl markRemove p).IsRemove u false = true
        ↔ GoMap.getD p.IsRemove u false = true
          ∨ (u ∈ L ∧ GoMap.getD p.IsNoop u false = false
              ∧ GoMap.getD p.IsCreate u false = false)) := by
  induction L generalizing p with
  | nil => simp
  | cons o L ih =>
    rw [List.foldl_cons]
    obtain ⟨i1, i2, i3, i4, i5, i6, i7⟩ := ih (markRemove p o)
    have e1 : (markRemove p o).IsNoop = p.IsNoop := by
      unfold markRemove; split <;> rfl
    have e2 : (markRemove p o).IsCreate = p.IsCreate := by
      unfold markRemove; split <;> rfl
    have e3 : (markRemove p o).Updates = p.Updates := by
      unfold markRemove; split <;> rfl
    have e4 : (markRemove p o).ObservedStorageSetObjs = p.ObservedStorageSetObjs := by
      unfold markRemove; split <;> rfl
    have e5 : (markRemove p o).ClusterPlan = p.ClusterPlan := by
      unfold markRemove; split <;> rfl
    refine ⟨i1.trans e1, i2.trans e2, i3.trans e3, i4.trans e4, i5.trans e5, ?_, ?_⟩
    · intro u
      rw [i6 u, e1, e2]
      by_cases hskip : (GoMap.getD p.IsNoop o false || GoMap.getD p.IsCreate o false) = true
      · have : (markRemove p o).IsRemove = p.IsRemove := by
          unfold markRemove; simp [hskip]
        rw [this, List.mem_cons]
        constructor
        · rintro (h | ⟨h1, h2⟩)
          · exact Or.inl h
          · exact Or.inr ⟨Or.inr h1, h2⟩
        · rintro (h | ⟨rfl | h1, h2, h3⟩)
          · exact Or.inl h
          · simp [h2, h3] at hskip
          · exact Or.inr ⟨h1, h2, h3⟩
      · have hs : GoMap.getD p.IsNoop o false = false ∧ GoMap.getD p.IsCreate o false = false := by
          simpa using hskip
        have : (markRemove p o).IsRemove = GoMap.set p.IsRemove o true := by
          unfold markRemove; simp [hs.1, hs.2]
        rw [this, GoMap.mem_keys_set, List.mem_cons]
        constructor
        · rintro ((rfl | h) | ⟨h1, h2⟩)
          · exact Or.inr ⟨Or.inl rfl, hs⟩
          · exact Or.inl h
          · exact Or.inr ⟨Or.inr h1, h2⟩
        · rintro (h | ⟨rfl | h1, h2⟩)
          · exact Or.inl (Or.inr h)
          · exact Or.inl (Or.inl rfl)
          · exact Or.inr ⟨h1, h2⟩
    · intro u
      rw [i7 u, e1, e2]
      by_cases hskip : (GoMap.getD p.IsNoop o false || GoMap.getD p.IsCreate o false) = true
      · have : (markRemove p o).IsRemove = p.IsRemove := by
          unfold markRemove; simp [hskip]
        rw [this, List.mem_cons]
        constructor
        · rintro (h | ⟨h1, h2⟩)
          · exact Or.inl h
          · exact Or.inr ⟨Or.inr h1, h2⟩
        · rintro (h | ⟨rfl | h1, h2, h3⟩)
          · exact Or.inl h
          · simp [h2, h3] at hskip
          · exact Or.inr ⟨h1, h2, h3⟩
      · have hs : GoMap.getD p.IsNoop o false = false ∧ GoMap.getD p.IsCreate o false = false := by
          simpa using hskip
        have : (markRemove p o).IsRemove = GoMap.set p.IsRemove o true := by
          unfold markRemove; simp [hs.1, hs.2]
        rw [this, GoMap.getD_set, List.mem_cons]
        by_cases hu : o = u
        · subst hu; simp [hs.1, hs.2]
        · have : ¬ u = o := fun h => hu h.symm
          simp [hu, this]

/-! ## The buckets after `NewStorageSetPlanner` -/

theorem list_eq_nil_iff_no_mem {α : Type} (l : List α) : l = [] ↔ ∀ a, a ∉ l := by
  cases l with
  | nil => simp
  | cons a l =>
    constructor
    · intro h; cases h
    · intro h; exact absurd (List.mem_cons_self a l) (h a)

/-- The buckets `NewStorageSetPlanner` returns, in every iteration order, read
off the desired node UIDs and the observed node UIDs.  A desired node that
is observed is noop.  When no desired node is unobserved the stale observed
nodes are marked for removal; when no observed node is stale the unobserved
desired nodes are marked for creation; otherwise the pairing loops clear
both buckets, every stale node becomes a key of `Updates` and its value is
some unobserved desired node. -/
theorem planner_spec (ρ : RangeOrder) (plan : CStorClusterPlan) (obs : List Unstructured)
    (hall : ∀ o ∈ obs, ∃ u, BoundTo o u) :
    ∃ p, NewStorageSetPlanner ρ plan obs = .ok p
      ∧ (∀ u, GoMap.getD p.IsNoop u false = true ↔ u ∈ desiredUIDs plan ∧ ObservedUID obs u)
      ∧ (∀ u, GoMap.getD p.IsRemove u false = true
          ↔ (ObservedUID obs u ∧ u ∉ desiredUIDs plan) ∧ ∀ d ∈ desiredUIDs plan, ObservedUID obs d)
      ∧ (∀ u, GoMap.getD p.IsCreate u false = true
          ↔ (u ∈ desiredUIDs plan ∧ ¬ ObservedUID obs u)
            ∧ ∀ o, ObservedUID obs o → o ∈ desiredUIDs plan)
      ∧ (∀ u, u ∈ GoMap.keys p.Updates
          ↔ (ObservedUID obs u ∧ u ∉ desiredUIDs plan)
            ∧ ∃ d ∈ desiredUIDs plan, ¬ ObservedUID obs d)
      ∧ (∀ u c, GoMap.get? p.Updates u = some c → c ∈ desiredUIDs plan ∧ ¬ ObservedUID obs c)
      ∧ (GoMap.keys p.Updates).Nodup := by
  obtain ⟨q0, hq0, -, c0, r0, n0, -, u0, hk0, hv0⟩ := observeAll_spec obs (emptyPlanner plan) hall
  have hOk : ∀ u, u ∈ GoMap.keys q0.ObservedStorageSets ↔ ObservedUID obs u := by
    intro u
    rw [hk0 u]
    simp [emptyPlanner, GoMap.keys, ObservedUID]
  have hOv : ∀ u, GoMap.getD q0.ObservedStorageSets u false = true ↔ ObservedUID obs u := by
    intro u
    rw [hv0 u]
    simp [emptyPlanner, GoMap.getD, GoMap.get?, ObservedUID]
  have hOf : ∀ u, GoMap.getD q0.ObservedStorageSets u false = false ↔ ¬ ObservedUID obs u := by
    intro u
    rw [← hOv u]
    simp
  obtain ⟨b1, -, b3, b4, -, b6, b7, b8⟩ := bucketNodes_spec plan.Nodes q0
  have hD : ∀ u, u ∈ plan.Nodes.map Node.UID ↔ u ∈ desiredUIDs plan := fun u => Iff.rfl
  have hN1 : ∀ u, GoMap.getD (plan.Nodes.foldl bucketNode q0).IsNoop u false = true
      ↔ u ∈ desiredUIDs plan ∧ ObservedUID obs u := by
    intro u
    rw [b6 u, n0, hOv u, hD u]
    simp [emptyPlanner, GoMap.getD, GoMap.get?]
  have hC1k : ∀ u, u ∈ GoMap.keys (plan.Nodes.foldl bucketNode q0).IsCreate
      ↔ u ∈ desiredUIDs plan ∧ ¬ ObservedUID obs u := by
    intro u
    rw [b7 u, c0, hOf u, hD u]
    simp [emptyPlanner, GoMap.keys]
  have hC1 : ∀ u, GoMap.getD (plan.Nodes.foldl bucketNode q0).IsCreate u false = true
      ↔ u ∈ desiredUIDs plan ∧ ¬ ObservedUID obs u := by
    intro u
    rw [b8 u, c0, hOf u, hD u]
    simp [emptyPlanner, GoMap.getD, GoMap.get?]
  have hperm1 := ρ.perm .observed (GoMap.keys (plan.Nodes.foldl bucketNode q0).ObservedStorageSets)
  obtain ⟨m1, m2, m3, -, -, m6, m7⟩ := markRemoves_spec
    (ρ.visit .observed (GoMap.keys (plan.Nodes.foldl bucketNode q0).ObservedStorageSets))
    (plan.Nodes.foldl bucketNode q0)
  have hcl : classify ρ plan q0 = (ρ.visit .observed
      (GoMap.keys (plan.Nodes.foldl bucketNode q0).ObservedStorageSets)).foldl markRemove
      (plan.Nodes.foldl bucketNode q0) := rfl
  rw [← hcl] at m1 m2 m3 m6 m7
  have hcond : ∀ u, (u ∈ ρ.visit .observed
        (GoMap.keys (plan.Nodes.foldl bucketNode q0).ObservedStorageSets)
      ∧ GoMap.getD (plan.Nodes.foldl bucketNode q0).IsNoop u false = false
      ∧ GoMap.getD (plan.Nodes.foldl bucketNode q0).IsCreate u false = false)
      ↔ (ObservedUID obs u ∧ u ∉ desiredUIDs plan) := by
    intro u
    rw [hperm1.mem_iff, b1, hOk u]
    have e1 : GoMap.getD (plan.Nodes.foldl bucketNode q0).IsNoop u false = false
        ↔ ¬ (u ∈ desiredUIDs plan ∧ ObservedUID obs u) := by
      rw [← hN1 u]; simp
    have e2 : GoMap.getD (plan.Nodes.foldl bucketNode q0).IsCreate u false = false
        ↔ ¬ (u ∈ desiredUIDs plan ∧ ¬ ObservedUID obs u) := by
      rw [← hC1 u]; simp
    rw [e1, e2]
    tauto
  have hR2k : ∀ u, u ∈ GoMap.keys (classify ρ plan q0).IsRemove
      ↔ (ObservedUID obs u ∧ u ∉ desiredUIDs plan) := by
    intro u
    rw [m6 u, hcond u, b3, r0]
    simp [emptyPlanner, GoMap.keys]
  have hR2 : ∀ u, GoMap.getD (classify ρ plan q0).IsRemove u false = true
      ↔ (ObservedUID obs u ∧ u ∉ desiredUIDs plan) := by
    intro u
    rw [m7 u, hcond u, b3, r0]
    simp [emptyPlanner, GoMap.getD, GoMap.get?]
  have hU2 : (classify ρ plan q0).Updates = [] := by
    rw [m3, b4, u0]; rfl
  refine ⟨pairUp ρ (classify ρ plan q0), by rw [NewStorageSetPlanner, hq0], ?_⟩
  by_cases hck : GoMap.keys (classify ρ plan q0).IsCreate = []
  · have hp : pairUp ρ (classify ρ plan q0) = classify ρ plan q0 :=
      pairLoop_no_create ρ _ _ hck
    have hnone : ∀ d, ¬ (d ∈ desiredUIDs plan ∧ ¬ ObservedUID obs d) := by
      intro d hd
      have := (hC1k d).mpr hd
      rw [← m2, hck] at this
      exact absurd this (List.not_mem_nil _)
    have hallobs : ∀ d ∈ desiredUIDs plan, ObservedUID obs d := by
      intro d hd
      by_contra hno
      exact hnone d ⟨hd, hno⟩
    rw [hp]
    refine ⟨?_, ?_, ?_, ?_, ?_, ?_⟩
    · intro u; rw [m1]; exact hN1 u
    · intro u; rw [hR2 u]; exact ⟨fun h => ⟨h, hallobs⟩, fun h => h.1⟩
    · intro u
      rw [m2, hC1 u]
      exact ⟨fun h => absurd h (hnone u), fun h => h.1⟩
    · intro u
      rw [hU2]
      constructor
      · intro h; exact absurd h (List.not_mem_nil _)
      · rintro ⟨_, d, hd, hno⟩; exact absurd ⟨hd, hno⟩ (hnone d)
    · intro u c h
      rw [hU2] at h
      simp [GoMap.get?] at h
    · rw [hU2]; exact List.nodup_nil
  · have hperm2 := ρ.perm .remove (GoMap.keys (classify ρ plan q0).IsRemove)
    obtain ⟨s1, -, -, -, -, -, s7, s8, s9, s10, s11⟩ := pairLoop_spec ρ
      (ρ.visit .remove (GoMap.keys (classify ρ plan q0).IsRemove)) (classify ρ plan q0)
      (fun r hr => hperm2.mem_iff.mp hr) hck
    have hpu : pairUp ρ (classify ρ plan q0) = (ρ.visit .remove
        (GoMap.keys (classify ρ plan q0).IsRemove)).foldl (pairInner ρ) (classify ρ plan q0) := rfl
    rw [← hpu] at s1 s7 s8 s9 s10 s11
    have hsome : ∃ d ∈ desiredUIDs plan, ¬ ObservedUID obs d := by
      obtain ⟨d, hd⟩ : ∃ d, d ∈ GoMap.keys (classify ρ plan q0).IsCreate := by
        by_contra hno
        exact hck ((list_eq_nil_iff_no_mem _).mpr (fun a ha => hno ⟨a, ha⟩))
      rw [m2] at hd
      exact ⟨d, ((hC1k d).mp hd).1, ((hC1k d).mp hd).2⟩
    have hrsnil : ρ.visit .remove (GoMap.keys (classify ρ plan q0).IsRemove) = []
        ↔ ∀ o, ObservedUID obs o → o ∈ desiredUIDs plan := by
      rw [list_eq_nil_iff_no_mem]
      constructor
      · intro h o ho
        by_contra hno
        exact h o (hperm2.mem_iff.mpr ((hR2k o).mpr ⟨ho, hno⟩))
      · intro h a ha
        have := (hR2k a).mp (hperm2.mem_iff.mp ha)
        exact this.2 (h a this.1)
    refine ⟨?_, ?_, ?_, ?_, ?_, ?_⟩
    · intro u; rw [s1, m1]; exact hN1 u
    · intro u
      rw [s7 u]
      constructor
      · rintro ⟨h1, h2⟩
        have hk : u ∈ GoMap.keys (classify ρ plan q0).IsRemove := by
          by_contra hnot
          rw [GoMap.getD_of_not_mem_keys _ _ _ hnot] at h1
          exact Bool.false_ne_true h1
        exact absurd (hperm2.mem_iff.mpr hk) h2
      · rintro ⟨_, h⟩
        obtain ⟨d, hd, hno⟩ := hsome
        exact absurd (h d hd) hno
    · intro u
      rw [s8 u, m2, hC1 u, hrsnil]
    · intro u
      rw [s9 u, hperm2.mem_iff, hR2k u, hU2]
      constructor
      · rintro (h | h)
        · exact ⟨h, hsome⟩
        · exact absurd h (List.not_mem_nil _)
      · rintro ⟨h, _⟩; exact Or.inl h
    · intro u c h
      rcases s10 u c h with h1 | ⟨_, h2⟩
      · rw [hU2] at h1
        simp [GoMap.get?] at h1
      · rw [m2] at h2
        exact (hC1k c).mp h2
    · apply s11
      rw [hU2]
      exact List.nodup_nil

/-! ## Facts about `Plan` -/

/-- The pairing loops write `IsCreate`, `IsRemove` and `Updates` only. -/
theorem pairUp_frame (ρ : RangeOrder) (p : StorageSetPlanner) :
    (pairUp ρ p).IsNoop = p.IsNoop
    ∧ (pairUp ρ p).ObservedStorageSetObjs = p.ObservedStorageSetObjs
    ∧ (pairUp ρ p).PlannedNodeNames = p.PlannedNodeNames
    ∧ (pairUp ρ p).ClusterPlan = p.ClusterPlan := by
  by_cases hck : GoMap.keys p.IsCreate = []
  · have hp : pairUp ρ p = p := pairLoop_no_create ρ _ _ hck
    rw [hp]
    exact ⟨rfl, rfl, rfl, rfl⟩
  · obtain ⟨s1, s2, s3, s4, -⟩ := pairLoop_spec ρ (ρ.visit .remove (GoMap.keys p.IsRemove)) p
      (fun r hr => (ρ.perm .remove _).mem_iff.mp hr) hck
    exact ⟨s1, s2, s3, s4⟩

/-- The classification loops leave the observed objects as the first loop
wrote them. -/
theorem classify_objs (ρ : RangeOrder) (plan : CStorClusterPlan) (p : StorageSetPlanner) :
    (classify ρ plan p).ObservedStorageSetObjs = p.ObservedStorageSetObjs := by
  obtain ⟨-, b2, -⟩ := bucketNodes_spec plan.Nodes p
  obtain ⟨-, -, -, m4, -⟩ := markRemoves_spec
    (ρ.visit .observed (GoMap.keys (plan.Nodes.foldl bucketNode p).ObservedStorageSets))
    (plan.Nodes.foldl bucketNode p)
  exact m4.trans b2

/-! ## Facts about the readings of the buckets -/

theorem mem_noopUIDs (p : StorageSetPlanner) (u : String) :
    u ∈ noopUIDs p ↔ GoMap.getD p.IsNoop u false = true := by
  unfold noopUIDs
  rw [List.mem_filter]
  constructor
  · exact fun h => h.2
  · intro h
    refine ⟨?_, h⟩
    by_contra hnot
    rw [GoMap.getD_of_not_mem_keys _ _ _ hnot] at h
    exact Bool.false_ne_true h

theorem mem_createUIDs (p : StorageSetPlanner) (u : String) :
    u ∈ createUIDs p ↔ GoMap.getD p.IsCreate u false = true := by
  unfold createUIDs
  rw [List.mem_filter]
  constructor
  · exact fun h => h.2
  · intro h
    refine ⟨?_, h⟩
    by_contra hnot
    rw [GoMap.getD_of_not_mem_keys _ _ _ hnot] at h
    exact Bool.false_ne_true h

theorem mem_removeUIDs (p : StorageSetPlanner) (u : String) :
    u ∈ removeUIDs p ↔ GoMap.getD p.IsRemove u false = true := by
  unfold removeUIDs
  rw [List.mem_filter]
  constructor
  · exact fun h => h.2
  · intro h
    refine ⟨?_, h⟩
    by_contra hnot
    rw [GoMap.getD_of_not_mem_keys _ _ _ hnot] at h
    exact Bool.false_ne_true h

theorem boundTo_storageSetOn (name uid u : String) :
    BoundTo (storageSetOn name uid) u ↔ u = uid := by
  have h : NestedString (storageSetOn name uid).Object ["spec", "node", "uid"]
      = .ok (some uid) := rfl
  unfold BoundTo
  rw [h]
  constructor
  · intro h1; exact (Option.some.inj (Except.ok.inj h1)).symm
  · intro h1; rw [h1]

/-! ## Facts about field paths -/

theorem nestedField_map_cons (m : GoMap Value) (field : String) (rest : List String) :
    nestedField (.map m) (field :: rest)
      = match GoMap.get? m field with
        | some v => nestedField v rest
        | none => .ok none := rfl

/-! ## Facts about the planner's first loop -/

theorem nestedField_error_kind (fs : List String) (v : Value) (e : Failure)
    (h : nestedField v fs = .error e) : ∃ msg, e = .error msg := by
  induction fs generalizing v with
  | nil => simp [nestedField] at h
  | cons a rest ih =>
    cases v with
    | map m =>
      rw [nestedField_map_cons] at h
      cases hg : GoMap.get? m a with
      | none => rw [hg] at h; simp at h
      | some x => rw [hg] at h; exact ih x h
    | null => simp [nestedField] at h
    | bool _ => simp only [nestedField, Except.error.injEq] at h; exact ⟨_, h.symm⟩
    | int _ => simp only [nestedField, Except.error.injEq] at h; exact ⟨_, h.symm⟩
    | str _ => simp only [nestedField, Except.error.injEq] at h; exact ⟨_, h.symm⟩
    | named _ _ => simp only [nestedField, Except.error.injEq] at h; exact ⟨_, h.symm⟩
    | strMap _ => simp only [nestedField, Except.error.injEq] at h; exact ⟨_, h.symm⟩
    | slice _ => simp only [nestedField, Except.error.injEq] at h; exact ⟨_, h.symm⟩

theorem NestedString_error_kind (obj : GoMap Value) (fs : List String) (e : Failure)
    (h : NestedString obj fs = .error e) : ∃ msg, e = .error msg := by
  unfold NestedString NestedFieldNoCopy at h
  cases hn : nestedField (.map obj) fs with
  | error e1 =>
    rw [hn] at h
    simp only [Except.error.injEq] at h
    subst h
    exact nestedField_error_kind fs _ _ hn
  | ok r =>
    rw [hn] at h
    cases r with
    | none => simp at h
    | some x =>
      cases x <;> first
        | (simp only [Except.error.injEq] at h; exact ⟨_, h.symm⟩)
        | simp at h

/-- The loop over the observed storage sets fails, with a returned error, when
one of them carries no string at `spec.node.uid`. -/
theorem observeAll_error (obs : List Unstructured) (p : StorageSetPlanner)
    (h : ∃ o ∈ obs, ∀ u, ¬ BoundTo o u) : ∃ msg, observeAll p obs = .error (.error msg) := by
  induction obs generalizing p with
  | nil =>
    obtain ⟨o, ho, _⟩ := h
    cases ho
  | cons o obs ih =>
    cases hn : NestedString o.Object ["spec", "node", "uid"] with
    | error e =>
      obtain ⟨m, rfl⟩ := NestedString_error_kind _ _ _ hn
      exact ⟨_, by rw [observeAll, hn]; rfl⟩
    | ok r =>
      cases r with
      | none => exact ⟨_, by rw [observeAll, hn]⟩
      | some u0 =>
        obtain ⟨o1, ho1, hno⟩ := h
        rcases List.mem_cons.mp ho1 with rfl | ho1
        · exact absurd hn (hno u0)
        · obtain ⟨msg, hmsg⟩ := ih _ ⟨o1, ho1, hno⟩
          exact ⟨msg, by rw [observeAll, hn]; exact hmsg⟩

/-! ## Facts about the output of `noop` and `create` -/

theorem filterMap_ite_eq {α β : Type} (c : α → Bool) (g : α → β) (l : List α) :
    l.filterMap (fun a => if c a then some (g a) else none) = (l.filter c).map g := by
  induction l with
  | nil => rfl
  | cons a l ih =>
    by_cases h : c a = true
    · simp [List.filterMap_cons, List.filter_cons, h, ih]
    · have hf : c a = false := by simpa using h
      simp [List.filterMap_cons, List.filter_cons, hf, ih]

/-- A `range` over a map of flags that keeps the keys whose flag is true visits,
in some order, the keys whose value is true. -/
theorem rangeTrue_perm {β : Type} (ρ : RangeOrder) (s : Site) (m : GoMap Bool) (g : String → β) :
    ((GoMap.range ρ s m).filterMap fun entry => if !entry.2 then none else some (g entry.1)).Perm
      (((GoMap.keys m).filter fun uid => GoMap.getD m uid false).map g) := by
  unfold GoMap.range
  rw [List.filterMap_filterMap, ← filterMap_ite_eq]
  have hfun : (fun k => ((GoMap.get? m k).map fun v => (k, v)).bind
        fun entry => if !entry.2 then none else some (g entry.1))
      = fun k => if GoMap.getD m k false then some (g k) else none := by
    funext k
    unfold GoMap.getD
    cases hg : GoMap.get? m k with
    | none => simp
    | some v => cases v <;> simp
  rw [hfun]
  exact (ρ.perm s (GoMap.keys m)).filterMap _

theorem noop_perm (ρ : RangeOrder) (p : StorageSetPlanner) :
    (p.noop ρ).Perm ((noopUIDs p).map fun uid => GoMap.get? p.ObservedStorageSetObjs uid) :=
  rangeTrue_perm ρ .planNoop p.IsNoop _

theorem create_perm (ρ : RangeOrder) (annKey : String) (p : StorageSetPlanner)
    (config : CStorClusterConfig) :
    (p.create ρ annKey config).Perm
      ((createUIDs p).map fun uid =>
        some (StorageSetPlanner.newStorageSet annKey p config uid)) :=
  rangeTrue_perm ρ .planCreate p.IsCreate
    (fun uid => some (StorageSetPlanner.newStorageSet annKey p config uid))

/-- The observed objects after the first loop: every entry is an observed
storage set bound to its key, and every observed node UID has one. -/
theorem observeAll_objs (obs : List Unstructured) (p q : StorageSetPlanner)
    (hq : observeAll p obs = .ok q) :
    (∀ u o, GoMap.get? q.ObservedStorageSetObjs u = some o →
        GoMap.get? p.ObservedStorageSetObjs u = some o ∨ (o ∈ obs ∧ BoundTo o u))
    ∧ (∀ u, ObservedUID obs u →
        ∃ o ∈ obs, BoundTo o u ∧ GoMap.get? q.ObservedStorageSetObjs u = some o) := by
  induction obs generalizing p with
  | nil =>
    simp only [observeAll, Except.ok.injEq] at hq
    subst hq
    exact ⟨fun u o h => Or.inl h, fun u ⟨o, ho, _⟩ => by cases ho⟩
  | cons o0 obs ih =>
    rw [observeAll] at hq
    cases hn : NestedString o0.Object ["spec", "node", "uid"] with
    | error e => rw [hn] at hq; simp at hq
    | ok r =>
      rw [hn] at hq
      cases r with
      | none => simp at hq
      | some u0 =>
        simp only at hq
        obtain ⟨h1, h2⟩ := ih _ hq
        refine ⟨?_, ?_⟩
        · intro u o h
          rcases h1 u o h with h3 | ⟨h3, h4⟩
          · simp only [GoMap.get?_set] at h3
            by_cases hu : u0 = u
            · rw [if_pos hu] at h3
              right
              rw [← Option.some.inj h3, ← hu]
              exact ⟨List.mem_cons_self _ _, hn⟩
            · rw [if_neg hu] at h3
              exact Or.inl h3
          · exact Or.inr ⟨List.mem_cons_of_mem _ h3, h4⟩
        · intro u hu
          by_cases hin : ObservedUID obs u
          · obtain ⟨o, ho, hb, hg⟩ := h2 u hin
            exact ⟨o, List.mem_cons_of_mem _ ho, hb, hg⟩
          · obtain ⟨o, ho, hb⟩ := hu
            rcases List.mem_cons.mp ho with rfl | ho
            · have hu0 : u0 = u := by
                unfold BoundTo at hb
                rw [hn] at hb
                exact Option.some.inj (Except.ok.inj hb)
              refine ⟨o, List.mem_cons_self _ _, hb, ?_⟩
              cases hg : GoMap.get? q.ObservedStorageSetObjs u with
              | none =>
                -- the key was written by this iteration and is never removed
                exfalso
                have : ∀ (obs1 : List Unstructured) (p1 q1 : StorageSetPlanner),
                    observeAll p1 obs1 = .ok q1 → u ∈ GoMap.keys p1.ObservedStorageSetObjs →
                    u ∈ GoMap.keys q1.ObservedStorageSetObjs := by
                  intro obs1
                  induction obs1 with
                  | nil =>
                    intro p1 q1 h hk
                    simp only [observeAll, Except.ok.injEq] at h
                    subst h
                    exact hk
                  | cons o1 obs1 ih1 =>
                    intro p1 q1 h hk
                    rw [observeAll] at h
                    cases hn1 : NestedString o1.Object ["spec", "node", "uid"] with
                    | error e => rw [hn1] at h; simp at h
                    | ok r1 =>
                      rw [hn1] at h
                      cases r1 with
                      | none => simp at h
                      | some u1 =>
                        simp only at h
                        exact ih1 _ _ h ((GoMap.mem_keys_set _ _ _ _).mpr (Or.inr hk))
                have hk := this obs _ q hq
                  ((GoMap.mem_keys_set _ _ _ _).mpr (Or.inl hu0.symm))
                obtain ⟨o2, ho2⟩ := GoMap.mem_keys_get? _ _ hk
                rw [hg] at ho2
                cases ho2
              | some o2 =>
                rcases h1 u o2 hg with h3 | ⟨h3, h4⟩
                · simp only [GoMap.get?_set, hu0, if_true] at h3
                  rw [← Option.some.inj h3]
                · exact absurd ⟨o2, h3, h4⟩ hin
            · exact absurd ⟨o, ho, hb⟩ hin

theorem boundNodeUID_of_boundTo (o : Unstructured) (u : String) (h : BoundTo o u) :
    boundNodeUID o = some u := by
  unfold BoundTo at h
  unfold boundNodeUID
  rw [h]

theorem boundTo_unique (o : Unstructured) (u u1 : String) (h : BoundTo o u) (h1 : BoundTo o u1) :
    u = u1 := by
  unfold BoundTo at h h1
  rw [h] at h1
  exact Option.some.inj (Except.ok.inj h1)

/-! ## The whole planner, and `Plan` on it -/

theorem hall_of_ok (ρ : RangeOrder) (plan : CStorClusterPlan) (obs : List Unstructured)
    (p : StorageSetPlanner) (hp : NewStorageSetPlanner ρ plan obs = .ok p) :
    ∀ o ∈ obs, ∃ u, BoundTo o u := by
  by_contra h
  push_neg at h
  obtain ⟨msg, hmsg⟩ := observeAll_error obs (emptyPlanner plan) h
  rw [NewStorageSetPlanner, hmsg] at hp
  cases hp

theorem observeAll_of_ok (ρ : RangeOrder) (plan : CStorClusterPlan) (obs : List Unstructured)
    (p : StorageSetPlanner) (hp : NewStorageSetPlanner ρ plan obs = .ok p) :
    ∃ q, observeAll (emptyPlanner plan) obs = .ok q ∧ p = pairUp ρ (classify ρ plan q) := by
  unfold NewStorageSetPlanner at hp
  cases hq : observeAll (emptyPlanner plan) obs with
  | error e => rw [hq] at hp; cases hp
  | ok q =>
    rw [hq] at hp
    exact ⟨q, rfl, (Except.ok.inj hp).symm⟩

/-- The buckets of a planner that was returned: the facts of `planner_spec`. -/
theorem planner_facts (ρ : RangeOrder) (plan : CStorClusterPlan) (obs : List Unstructured)
    (p : StorageSetPlanner) (hp : NewStorageSetPlanner ρ plan obs = .ok p) :
    (∀ u, GoMap.getD p.IsNoop u false = true ↔ u ∈ desiredUIDs plan ∧ ObservedUID obs u)
    ∧ (∀ u, GoMap.getD p.IsRemove u false = true
        ↔ (ObservedUID obs u ∧ u ∉ desiredUIDs plan) ∧ ∀ d ∈ desiredUIDs plan, ObservedUID obs d)
    ∧ (∀ u, GoMap.getD p.IsCreate u false = true
        ↔ (u ∈ desiredUIDs plan ∧ ¬ ObservedUID obs u)
          ∧ ∀ o, ObservedUID obs o → o ∈ desiredUIDs plan)
    ∧ (∀ u, u ∈ GoMap.keys p.Updates
        ↔ (ObservedUID obs u ∧ u ∉ desiredUIDs plan)
          ∧ ∃ d ∈ desiredUIDs plan, ¬ ObservedUID obs d)
    ∧ (∀ u c, GoMap.get? p.Updates u = some c → c ∈ desiredUIDs plan ∧ ¬ ObservedUID obs c)
    ∧ (GoMap.keys p.Updates).Nodup := by
  obtain ⟨p1, hp1, h⟩ := planner_spec ρ plan obs (hall_of_ok ρ plan obs p hp)
  rw [hp] at hp1
  rw [Except.ok.inj hp1]
  exact h

theorem markRemoves_names (L : List String) (p : StorageSetPlanner) :
    (L.foldl markRemove p).PlannedNodeNames = p.PlannedNodeNames := by
  induction L generalizing p with
  | nil => rfl
  | cons o L ih =>
    rw [List.foldl_cons, ih]
    unfold markRemove
    split <;> rfl

theorem bucketNodes_names (nodes : List Node) (p : StorageSetPlanner) :
    (nodes.foldl bucketNode p).PlannedNodeNames
      = nodes.foldl (fun m n => GoMap.set m n.UID n.Name) p.PlannedNodeNames := by
  induction nodes generalizing p with
  | nil => rfl
  | cons n nodes ih =>
    rw [List.foldl_cons, List.foldl_cons, ih]
    congr 1
    unfold bucketNode
    dsimp only
    split <;> rfl

theorem names_fold (nodes : List Node) (m0 : GoMap String) :
    (∀ u, u ∉ nodes.map Node.UID →
        GoMap.get? (nodes.foldl (fun m n => GoMap.set m n.UID n.Name) m0) u = GoMap.get? m0 u)
    ∧ (∀ u, u ∈ nodes.map Node.UID → ∃ n ∈ nodes, n.UID = u
        ∧ GoMap.get? (nodes.foldl (fun m n => GoMap.set m n.UID n.Name) m0) u = some n.Name)
    ∧ ((nodes.map Node.UID).Nodup → ∀ n ∈ nodes,
        GoMap.get? (nodes.foldl (fun m n => GoMap.set m n.UID n.Name) m0) n.UID
          = some n.Name) := by
  induction nodes generalizing m0 with
  | nil => simp
  | cons n nodes ih =>
    obtain ⟨i1, i2, i3⟩ := ih (GoMap.set m0 n.UID n.Name)
    refine ⟨?_, ?_, ?_⟩
    · intro u hu
      simp only [List.map_cons, List.mem_cons, not_or] at hu
      rw [List.foldl_cons, i1 u hu.2, GoMap.get?_set, if_neg (fun h => hu.1 h.symm)]
    · intro u hu
      by_cases hin : u ∈ nodes.map Node.UID
      · obtain ⟨n1, hn1, h1, h2⟩ := i2 u hin
        exact ⟨n1, List.mem_cons_of_mem _ hn1, h1, h2⟩
      · simp only [List.map_cons, List.mem_cons] at hu
        rcases hu with hu | hu
        · refine ⟨n, List.mem_cons_self _ _, hu.symm, ?_⟩
          rw [List.foldl_cons, i1 u hin, GoMap.get?_set, if_pos hu.symm]
        · exact absurd hu hin
    · intro hnd n1 hn1
      simp only [List.map_cons, List.nodup_cons] at hnd
      rcases List.mem_cons.mp hn1 with rfl | hn1
      · rw [List.foldl_cons, i1 _ hnd.1, GoMap.get?_set, if_pos rfl]
      · exact i3 hnd.2 n1 hn1

theorem bucketNodes_nodup (nodes : List Node) (p : StorageSetPlanner)
    (h1 : (GoMap.keys p.IsNoop).Nodup) (h2 : (GoMap.keys p.IsCreate).Nodup) :
    (GoMap.keys (nodes.foldl bucketNode p).IsNoop).Nodup
    ∧ (GoMap.keys (nodes.foldl bucketNode p).IsCreate).Nodup := by
  induction nodes generalizing p with
  | nil => exact ⟨h1, h2⟩
  | cons n nodes ih =>
    rw [List.foldl_cons]
    apply ih
    · unfold bucketNode
      dsimp only
      split
      · exact GoMap.nodup_keys_set _ _ _ h1
      · exact h1
    · unfold bucketNode
      dsimp only
      split
      · exact h2
      · exact GoMap.nodup_keys_set _ _ _ h2

/-- What a returned planner holds besides the buckets: the observed objects by
node UID, the planned node names, and maps without repeated keys. -/
theorem planner_extra (ρ : RangeOrder) (plan : CStorClusterPlan) (obs : List Unstructured)
    (p : StorageSetPlanner) (hp : NewStorageSetPlanner ρ plan obs = .ok p) :
    (∀ u o, GoMap.get? p.ObservedStorageSetObjs u = some o → o ∈ obs ∧ BoundTo o u)
    ∧ (∀ u, ObservedUID obs u →
        ∃ o ∈ obs, BoundTo o u ∧ GoMap.get? p.ObservedStorageSetObjs u = some o)
    ∧ (∀ u, u ∈ desiredUIDs plan → ∃ n ∈ plan.Nodes, n.UID = u
        ∧ GoMap.get? p.PlannedNodeNames u = some n.Name)
    ∧ ((desiredUIDs plan).Nodup → ∀ n ∈ plan.Nodes,
        GoMap.get? p.PlannedNodeNames n.UID = some n.Name)
    ∧ (GoMap.keys p.IsNoop).Nodup ∧ (GoMap.keys p.IsCreate).Nodup
    ∧ p.ClusterPlan = plan := by
  obtain ⟨q, hq, rfl⟩ := observeAll_of_ok ρ plan obs p hp
  obtain ⟨q1, hq1, qplan, qc, -, qn, qnames, -, -, -⟩ :=
    observeAll_spec obs (emptyPlanner plan) (hall_of_ok ρ plan obs _ hp)
  rw [hq] at hq1
  have hqq : q = q1 := Except.ok.inj hq1
  subst hqq
  obtain ⟨o1, o2⟩ := observeAll_objs obs (emptyPlanner plan) q hq
  obtain ⟨f1, f2, f3, f4⟩ := pairUp_frame ρ (classify ρ plan q)
  have hobjs : (pairUp ρ (classify ρ plan q)).ObservedStorageSetObjs = q.ObservedStorageSetObjs :=
    f2.trans (classify_objs ρ plan q)
  have hnames : (pairUp ρ (classify ρ plan q)).PlannedNodeNames
      = plan.Nodes.foldl (fun m n => GoMap.set m n.UID n.Name) [] := by
    rw [f3]
    show ((ρ.visit .observed _).foldl markRemove (plan.Nodes.foldl bucketNode q)).PlannedNodeNames = _
    rw [markRemoves_names, bucketNodes_names, qnames]
    rfl
  obtain ⟨-, n2, n3⟩ := names_fold plan.Nodes []
  obtain ⟨d1, d2⟩ := bucketNodes_nodup plan.Nodes q (by rw [qn]; exact List.nodup_nil)
    (by rw [qc]; exact List.nodup_nil)
  obtain ⟨m1, m2, -⟩ := markRemoves_spec
    (ρ.visit .observed (GoMap.keys (plan.Nodes.foldl bucketNode q).ObservedStorageSets))
    (plan.Nodes.foldl bucketNode q)
  have hcl : classify ρ plan q = (ρ.visit .observed
      (GoMap.keys (plan.Nodes.foldl bucketNode q).ObservedStorageSets)).foldl markRemove
      (plan.Nodes.foldl bucketNode q) := rfl
  rw [← hcl] at m1 m2
  obtain ⟨-, -, -, -, b5, -⟩ := bucketNodes_spec plan.Nodes q
  obtain ⟨-, -, -, -, mc5, -⟩ := markRemoves_spec
    (ρ.visit .observed (GoMap.keys (plan.Nodes.foldl bucketNode q).ObservedStorageSets))
    (plan.Nodes.foldl bucketNode q)
  rw [← hcl] at mc5
  refine ⟨?_, ?_, ?_, ?_, ?_, ?_, ?_⟩
  · intro u o h
    rw [hobjs] at h
    rcases o1 u o h with h1 | h1
    · simp [emptyPlanner, GoMap.get?] at h1
    · exact h1
  · intro u hu
    rw [hobjs]
    exact o2 u hu
  · intro u hu
    rw [hnames]
    exact n2 u hu
  · intro hnd n hn
    rw [hnames]
    exact n3 hnd n hn
  · rw [f1, m1]
    exact d1
  · by_cases hck : GoMap.keys (classify ρ plan q).IsCreate = []
    · have hpp : pairUp ρ (classify ρ plan q) = classify ρ plan q :=
        pairLoop_no_create ρ _ _ hck
      rw [hpp, m2]
      exact d2
    · obtain ⟨-, -, -, -, s5, -⟩ := pairLoop_spec ρ
        (ρ.visit .remove (GoMap.keys (classify ρ plan q).IsRemove)) (classify ρ plan q)
        (fun r hr => (ρ.perm .remove _).mem_iff.mp hr) hck
      have : GoMap.keys (pairUp ρ (classify ρ plan q)).IsCreate
          = GoMap.keys (classify ρ plan q).IsCreate := s5
      rw [this, m2]
      exact d2
  · rw [f4, mc5, b5]
    exact qplan

/-- Membership in the output of `noop`: the observed objects of the noop UIDs. -/
theorem mem_noop (ρ : RangeOrder) (p : StorageSetPlanner) (x : Option Unstructured) :
    x ∈ p.noop ρ ↔ ∃ u, u ∈ noopUIDs p ∧ x = GoMap.get? p.ObservedStorageSetObjs u := by
  rw [(noop_perm ρ p).mem_iff, List.mem_map]
  constructor
  · rintro ⟨u, hu, rfl⟩; exact ⟨u, hu, rfl⟩
  · rintro ⟨u, hu, rfl⟩; exact ⟨u, hu, rfl⟩

/-- Membership in the output of `create`: the new objects of the create UIDs. -/
theorem mem_create (ρ : RangeOrder) (annKey : String) (p : StorageSetPlanner)
    (config : CStorClusterConfig) (x : Option Unstructured) :
    x ∈ p.create ρ annKey config
      ↔ ∃ u, u ∈ createUIDs p ∧ x = some (StorageSetPlanner.newStorageSet annKey p config u) := by
  rw [(create_perm ρ annKey p config).mem_iff, List.mem_map]
  constructor
  · rintro ⟨u, hu, rfl⟩; exact ⟨u, hu, rfl⟩
  · rintro ⟨u, hu, rfl⟩; exact ⟨u, hu, rfl⟩

theorem boundNodeUID_newStorageSet (annKey : String) (p : StorageSetPlanner)
    (config : CStorClusterConfig) (uid : String) :
    boundNodeUID (StorageSetPlanner.newStorageSet annKey p config uid) = some uid := rfl

/-! ## Counting the output -/

theorem range_length {V : Type} (ρ : RangeOrder) (s : Site) (m : GoMap V) :
    (GoMap.range ρ s m).length = (GoMap.keys m).length := by
  unfold GoMap.range
  rw [← (ρ.perm s (GoMap.keys m)).length_eq]
  have hall : ∀ k ∈ ρ.visit s (GoMap.keys m), k ∈ GoMap.keys m :=
    fun k hk => (ρ.perm s _).mem_iff.mp hk
  generalize ρ.visit s (GoMap.keys m) = l at hall
  induction l with
  | nil => rfl
  | cons k l ih =>
    obtain ⟨v, hv⟩ := GoMap.mem_keys_get? m k (hall k (List.mem_cons_self _ _))
    rw [List.filterMap_cons, hv]
    simp only [Option.map_some', List.length_cons]
    rw [ih (fun k1 hk1 => hall k1 (List.mem_cons_of_mem _ hk1))]

theorem nodup_all_eq_length {α : Type} (l : List α) (c : α) (hnd : l.Nodup)
    (hall : ∀ a ∈ l, a = c) : l.length ≤ 1 := by
  match l, hnd, hall with
  | [], _, _ => simp
  | [_], _, _ => simp
  | a :: b :: rest, hnd, hall =>
    exfalso
    have ha := hall a (List.mem_cons_self _ _)
    have hb := hall b (List.mem_cons_of_mem _ (List.mem_cons_self _ _))
    rw [List.nodup_cons] at hnd
    exact hnd.1 (by rw [ha, ← hb]; exact List.mem_cons_self _ _)

theorem length_eq_zero_of_no_mem {α : Type} (l : List α) (h : ∀ a, a ∉ l) : l = [] :=
  (list_eq_nil_iff_no_mem l).mpr h

theorem noopUIDs_nodup (p : StorageSetPlanner) (h : (GoMap.keys p.IsNoop).Nodup) :
    (noopUIDs p).Nodup := List.Nodup.filter _ h

theorem createUIDs_nodup (p : StorageSetPlanner) (h : (GoMap.keys p.IsCreate).Nodup) :
    (createUIDs p).Nodup := List.Nodup.filter _ h

theorem boundCount_append (uid : String) (l1 l2 : List (Option Unstructured)) :
    boundCount uid (l1 ++ l2) = boundCount uid l1 + boundCount uid l2 := by
  unfold boundCount
  rw [List.filter_append, List.length_append]

theorem nestedField_nil (v : Value) : nestedField v [] = .ok (some v) := by
  cases v <;> rfl

/-- What the object `create` builds for the node `uid` reads at the paths of
`spec`. -/
theorem newStorageSet_reads (annKey : String) (p : StorageSetPlanner)
    (config : CStorClusterConfig) (uid : String) :
    NestedString (StorageSetPlanner.newStorageSet annKey p config uid).Object
        ["spec", "node", "uid"] = .ok (some uid)
    ∧ NestedString (StorageSetPlanner.newStorageSet annKey p config uid).Object
        ["spec", "node", "name"] = .ok (some (GoMap.getD p.PlannedNodeNames uid ""))
    ∧ NestedFieldNoCopy (StorageSetPlanner.newStorageSet annKey p config uid).Object
        ["spec", "disk", "capacity"] = .ok (some config.MinCapacity)
    ∧ NestedFieldNoCopy (StorageSetPlanner.newStorageSet annKey p config uid).Object
        ["spec", "disk", "count"] = .ok (some config.MinCount)
    ∧ NestedFieldNoCopy (StorageSetPlanner.newStorageSet annKey p config uid).Object
        ["spec", "externalProvisioner", "csiAttacherName"] = .ok (some config.CSIAttacherName)
    ∧ NestedFieldNoCopy (StorageSetPlanner.newStorageSet annKey p config uid).Object
        ["spec", "externalProvisioner", "storageClassName"]
        = .ok (some config.StorageClassName) := by
  refine ⟨rfl, rfl, ?_, ?_, ?_, ?_⟩ <;>
    simp [StorageSetPlanner.newStorageSet, NestedFieldNoCopy, nestedField_map_cons, GoMap.get?,
      nestedField_nil]


/-! ## `update` and `Plan` -/

/-- The deep copy of an object that does not return, panics. -/
theorem DeepCopy_error (u : Unstructured) (e : Failure) (h : u.DeepCopy = .error e) :
    ∃ msg, e = .panic msg := by
  unfold Unstructured.DeepCopy at h
  cases hc : deepCopyFields u.Object with
  | error e1 =>
    rw [hc] at h
    rw [← Except.error.inj h]
    exact deepCopyFields_error _ e1 hc
  | ok c => rw [hc] at h; cases h

/-- The body of the update loop never returns: the old node has no observed
object and `copy.Object` reads through the nil pointer, or the deep copy of
the object panics, or `SetNestedField` panics in the deep copy of the
`map[string]string` it is given (reconciler.go:397-401). -/
theorem updateOne_panics (p : StorageSetPlanner) (oldNode newNode : String) :
    ∃ msg, StorageSetPlanner.updateOne p oldNode newNode = .error (.panic msg) := by
  unfold StorageSetPlanner.updateOne
  cases hg : GoMap.get? p.ObservedStorageSetObjs oldNode with
  | none => exact ⟨_, rfl⟩
  | some storageSet =>
    simp only
    cases hd : storageSet.DeepCopy with
    | error e =>
      obtain ⟨msg, rfl⟩ := DeepCopy_error storageSet e hd
      exact ⟨msg, rfl⟩
    | ok copy => exact ⟨_, rfl⟩

/-- A `range` over a map without entries visits nothing. -/
theorem range_nil {V : Type} (ρ : RangeOrder) (s : Site) :
    GoMap.range ρ s ([] : GoMap V) = [] := by
  have h := range_length ρ s ([] : GoMap V)
  exact List.length_eq_zero.mp h

/-- A `range` over a map with an entry visits an entry. -/
theorem range_ne_nil {V : Type} (ρ : RangeOrder) (s : Site) (m : GoMap V) (h : m ≠ []) :
    GoMap.range ρ s m ≠ [] := by
  intro hnil
  have hl := range_length ρ s m
  rw [hnil] at hl
  cases m with
  | nil => exact h rfl
  | cons a rest => simp [GoMap.keys] at hl

/-- Without a pairing in `Updates` the loop of `update` has no iteration. -/
theorem update_of_no_updates (ρ : RangeOrder) (p : StorageSetPlanner) (h : p.Updates = []) :
    p.update ρ = .ok [] := by
  unfold StorageSetPlanner.update
  rw [h, range_nil]
  rfl

/-- With a pairing in `Updates` the first iteration of the loop of `update`
panics. -/
theorem update_panics (ρ : RangeOrder) (p : StorageSetPlanner) (h : p.Updates ≠ []) :
    ∃ msg, p.update ρ = .error (.panic msg) := by
  unfold StorageSetPlanner.update
  cases hr : GoMap.range ρ .planUpdate p.Updates with
  | nil => exact absurd hr (range_ne_nil ρ _ _ h)
  | cons e rest =>
    obtain ⟨oldNode, newNode⟩ := e
    obtain ⟨msg, hmsg⟩ := updateOne_panics p oldNode newNode
    refine ⟨msg, ?_⟩
    rw [StorageSetPlanner.updateAll, hmsg]

/-- With a pairing in `Updates`, `Plan` panics: in the log line of `remove`, or in
`update`. -/
theorem Plan_panics (ρ : RangeOrder) (annKey : String) (p : StorageSetPlanner)
    (config : CStorClusterConfig) (h : p.Updates ≠ []) :
    ∃ msg, p.Plan ρ annKey config = .error (.panic msg) := by
  unfold StorageSetPlanner.Plan
  simp only
  cases hr : p.remove ρ with
  | error e =>
    unfold StorageSetPlanner.remove at hr
    split at hr
    · cases hr
    · exact ⟨_, by rw [← Except.error.inj hr]⟩
  | ok u =>
    obtain ⟨msg, hmsg⟩ := update_panics ρ p h
    exact ⟨msg, by simp only [hmsg]⟩

/-- On a planner that was returned the log line of `remove` reads observed
objects only. -/
theorem remove_ok_of_planner (ρ ρ1 : RangeOrder) (plan : CStorClusterPlan)
    (obs : List Unstructured) (p : StorageSetPlanner)
    (hp : NewStorageSetPlanner ρ plan obs = .ok p) : p.remove ρ1 = .ok () := by
  obtain ⟨-, hR, -, -, -, -⟩ := planner_facts ρ plan obs p hp
  obtain ⟨-, o2, -⟩ := planner_extra ρ plan obs p hp
  unfold StorageSetPlanner.remove
  rw [if_pos]
  rw [List.all_eq_true]
  rintro ⟨k, b⟩ hkb
  have hget := (GoMap.mem_range ρ1 _ p.IsRemove k b).mp hkb
  cases b with
  | false => rfl
  | true =>
    have hd : GoMap.getD p.IsRemove k false = true := by
      unfold GoMap.getD
      rw [hget]
      rfl
    obtain ⟨o, -, -, hg⟩ := o2 k ((hR k).mp hd).1.1
    simp [hg]

/-- A returned planner holds a pairing exactly when some observed node is stale
and some desired node is unobserved. -/
theorem updates_ne_nil_iff (ρ : RangeOrder) (plan : CStorClusterPlan)
    (obs : List Unstructured) (p : StorageSetPlanner)
    (hp : NewStorageSetPlanner ρ plan obs = .ok p) :
    p.Updates ≠ [] ↔ HasPairing plan obs := by
  obtain ⟨-, -, -, hU, -, -⟩ := planner_facts ρ plan obs p hp
  constructor
  · intro hne
    cases hu : p.Updates with
    | nil => exact absurd hu hne
    | cons e rest =>
      have hk : e.1 ∈ GoMap.keys p.Updates := by
        rw [hu]
        exact List.mem_cons_self _ _
      obtain ⟨h1, h2⟩ := (hU e.1).mp hk
      exact ⟨⟨e.1, h1⟩, h2⟩
  · rintro ⟨⟨u, hu⟩, hd⟩ hnil
    have hk := (hU u).mpr ⟨hu, hd⟩
    rw [hnil] at hk
    cases hk

/-- On a planner that was returned: without a pairing `update` returns no object
and `Plan` returns the noop objects, then the created objects; with a
pairing `update` and `Plan` panic. -/
theorem plan_spec (ρ : RangeOrder) (annKey : String) (plan : CStorClusterPlan)
    (obs : List Unstructured) (config : CStorClusterConfig) (p : StorageSetPlanner)
    (hp : NewStorageSetPlanner ρ plan obs = .ok p) :
    (¬ HasPairing plan obs → p.Updates = [] ∧ p.update ρ = .ok []
        ∧ p.Plan ρ annKey config = .ok (p.noop ρ ++ p.create ρ annKey config))
    ∧ (HasPairing plan obs → p.Updates ≠ [] ∧ (∃ msg, p.update ρ = .error (.panic msg))
        ∧ ∃ msg, p.Plan ρ annKey config = .error (.panic msg)) := by
  have hiff := updates_ne_nil_iff ρ plan obs p hp
  refine ⟨fun hno => ?_, fun hyes => ?_⟩
  · have hnil : p.Updates = [] := by
      by_contra hne
      exact hno (hiff.mp hne)
    have hupd := update_of_no_updates ρ p hnil
    refine ⟨hnil, hupd, ?_⟩
    unfold StorageSetPlanner.Plan
    simp only [remove_ok_of_planner ρ ρ plan obs p hp, hupd, List.append_nil]
  · have hne := hiff.mpr hyes
    exact ⟨hne, update_panics ρ p hne, Plan_panics ρ annKey p config hne⟩

/-! ## Counting the resources bound to a node -/

theorem boundCount_perm (uid : String) (l1 l2 : List (Option Unstructured)) (h : l1.Perm l2) :
    boundCount uid l1 = boundCount uid l2 := by
  unfold boundCount
  exact (h.filter _).length_eq

theorem boundCount_cons (uid : String) (x : Option Unstructured)
    (l : List (Option Unstructured)) :
    boundCount uid (x :: l)
      = (if x.bind boundNodeUID == some uid then 1 else 0) + boundCount uid l := by
  unfold boundCount
  rw [List.filter_cons]
  split <;> simp [Nat.add_comm]

/-- A list that holds, for pairwise distinct node UIDs, at most a resource bound
to that UID, holds at most one resource bound to any one UID, and none bound
to a UID that is not among them. -/
theorem boundCount_map (uid : String) (L : List String) (F : String → Option Unstructured)
    (hnd : L.Nodup) (hF : ∀ u ∈ L, ∀ o, F u = some o → boundNodeUID o = some u) :
    boundCount uid (L.map F) ≤ 1 ∧ (uid ∉ L → boundCount uid (L.map F) = 0) := by
  induction L with
  | nil => exact ⟨by simp [boundCount], fun _ => by simp [boundCount]⟩
  | cons u L ih =>
    rw [List.nodup_cons] at hnd
    obtain ⟨ih1, ih2⟩ := ih hnd.2 (fun u1 hu1 => hF u1 (List.mem_cons_of_mem _ hu1))
    rw [List.map_cons, boundCount_cons]
    have hhead : ((F u).bind boundNodeUID == some uid) = true → u = uid := by
      intro hb
      cases hfu : F u with
      | none => rw [hfu] at hb; simp at hb
      | some o =>
        rw [hfu] at hb
        have h1 := hF u (List.mem_cons_self _ _) o hfu
        rw [beq_iff_eq] at hb
        have h2 : (some o).bind boundNodeUID = boundNodeUID o := rfl
        rw [h2, h1] at hb
        exact Option.some.inj hb
    constructor
    · by_cases hb : ((F u).bind boundNodeUID == some uid) = true
      · rw [if_pos hb]
        have hu := hhead hb
        rw [ih2 (by rw [← hu]; exact hnd.1)]
      · rw [if_neg hb]
        omega
    · intro hnot
      have hne : ¬ (((F u).bind boundNodeUID == some uid) = true) := by
        intro hb
        exact hnot (by rw [← hhead hb]; exact List.mem_cons_self _ _)
      rw [if_neg hne, ih2 (fun h => hnot (List.mem_cons_of_mem _ h))]

/-- The output of `noop` followed by the output of `create`, on a planner that
was returned: every resource is bound to a desired node, and at most one to
any one node. -/
theorem noop_create_bound (ρ : RangeOrder) (annKey : String) (plan : CStorClusterPlan)
    (obs : List Unstructured) (config : CStorClusterConfig) (p : StorageSetPlanner)
    (hp : NewStorageSetPlanner ρ plan obs = .ok p) :
    (∀ x ∈ p.noop ρ ++ p.create ρ annKey config,
        ∃ o u, x = some o ∧ BoundTo o u ∧ u ∈ desiredUIDs plan)
    ∧ ∀ uid, boundCount uid (p.noop ρ ++ p.create ρ annKey config) ≤ 1 := by
  obtain ⟨hN, -, hC, -, -, -⟩ := planner_facts ρ plan obs p hp
  obtain ⟨o1, o2, -, -, hndN, hndC, -⟩ := planner_extra ρ plan obs p hp
  constructor
  · intro x hx
    rcases List.mem_append.mp hx with hx | hx
    · obtain ⟨u, hu, rfl⟩ := (mem_noop ρ p x).mp hx
      obtain ⟨hd, hobs⟩ := (hN u).mp ((mem_noopUIDs p u).mp hu)
      obtain ⟨o, -, hb, hg⟩ := o2 u hobs
      exact ⟨o, u, hg, hb, hd⟩
    · obtain ⟨u, hu, rfl⟩ := (mem_create ρ annKey p config x).mp hx
      exact ⟨_, u, rfl, rfl, ((hC u).mp ((mem_createUIDs p u).mp hu)).1.1⟩
  · intro uid
    rw [boundCount_append, boundCount_perm uid _ _ (noop_perm ρ p),
      boundCount_perm uid _ _ (create_perm ρ annKey p config)]
    obtain ⟨n1, n2⟩ := boundCount_map uid (noopUIDs p)
      (fun u => GoMap.get? p.ObservedStorageSetObjs u) (noopUIDs_nodup p hndN)
      (fun u _ o ho => boundNodeUID_of_boundTo o u (o1 u o ho).2)
    obtain ⟨c1, c2⟩ := boundCount_map uid (createUIDs p)
      (fun u => some (StorageSetPlanner.newStorageSet annKey p config u))
      (createUIDs_nodup p hndC)
      (fun u _ o ho => by
        rw [← Option.some.inj ho]
        exact boundNodeUID_newStorageSet annKey p config u)
    by_cases hin : uid ∈ noopUIDs p
    · have hnc : uid ∉ createUIDs p := by
        intro hc
        exact ((hC uid).mp ((mem_createUIDs p uid).mp hc)).1.2
          ((hN uid).mp ((mem_noopUIDs p uid).mp hin)).2
      rw [c2 hnc]
      omega
    · rw [n2 hin]
      omega

/-! ## Objects that hold JSON values only -/

/-- The values a JSON object holds are JSON values. -/
theorem deepCopyFields_get (m c : GoMap Value) (k : String) (v : Value)
    (h : deepCopyFields m = .ok c) (hg : GoMap.get? m k = some v) :
    ∃ w, DeepCopyJSONValue v = .ok w := by
  induction m generalizing c with
  | nil => cases hg
  | cons kv rest ih =>
    obtain ⟨k1, v1⟩ := kv
    rw [deepCopyFields] at h
    cases hv : DeepCopyJSONValue v1 with
    | error e => rw [hv] at h; cases h
    | ok w1 =>
      rw [hv] at h
      cases hr : deepCopyFields rest with
      | error e => rw [hr] at h; cases h
      | ok c1 =>
        rw [GoMap.get?] at hg
        by_cases hk : k1 = k
        · rw [if_pos hk] at hg
          rw [← Option.some.inj hg]
          exact ⟨w1, hv⟩
        · rw [if_neg hk] at hg
          exact ih c1 hr hg

/-- What a path reads in a JSON value is a JSON value. -/
theorem nestedField_json (fs : List String) (v w : Value)
    (hv : ∃ c, DeepCopyJSONValue v = .ok c) (h : nestedField v fs = .ok (some w)) :
    ∃ c, DeepCopyJSONValue w = .ok c := by
  induction fs generalizing v with
  | nil =>
    rw [nestedField_nil] at h
    rw [← Option.some.inj (Except.ok.inj h)]
    exact hv
  | cons a rest ih =>
    cases v with
    | map m =>
      rw [nestedField_map_cons] at h
      cases hg : GoMap.get? m a with
      | none => rw [hg] at h; cases h
      | some x =>
        rw [hg] at h
        obtain ⟨c, hc⟩ := hv
        rw [DeepCopyJSONValue] at hc
        cases hm : deepCopyFields m with
        | error e => rw [hm] at hc; cases hc
        | ok c1 => exact ih x (deepCopyFields_get m c1 a x hm hg) h
    | null => simp [nestedField] at h
    | bool _ => simp [nestedField] at h
    | int _ => simp [nestedField] at h
    | str _ => simp [nestedField] at h
    | named _ _ => simp [nestedField] at h
    | strMap _ => simp [nestedField] at h
    | slice _ => simp [nestedField] at h

/-- Over an object that holds JSON values only, the merge does not panic. -/
theorem merge_no_panic_of_json (ρ : RangeOrder) (obj : Unstructured) (new : GoMap String)
    (fields : List String) (hjson : ∃ c, deepCopyFields obj.Object = .ok c) (msg : String) :
    MergeNestedSlice ρ obj new fields ≠ .error (.panic msg) := by
  intro hpanic
  have hobj : ∃ c, DeepCopyJSONValue (.map obj.Object) = .ok c := by
    obtain ⟨c, hc⟩ := hjson
    exact ⟨.map c, by rw [DeepCopyJSONValue, hc]⟩
  cases hn : NestedFieldNoCopy obj.Object fields with
  | error e =>
    obtain ⟨m1, rfl⟩ := nestedField_error_kind fields _ e hn
    have hg : GetNestedSlice obj fields = .error (.error m1) := by
      unfold GetNestedSlice NestedSlice
      rw [hn]
    rw [merge_of_read_error ρ obj new fields _ hg] at hpanic
    cases hpanic
  | ok r =>
    cases r with
    | none =>
      rw [merge_of_no_entries ρ obj new fields (Or.inl hn)] at hpanic
      cases hpanic
    | some v =>
      obtain ⟨c, hc⟩ := nestedField_json fields _ v hobj hn
      have hother : ∀ m1, GetNestedSlice obj fields = .error (.error m1) → False := by
        intro m1 hg
        rw [merge_of_read_error ρ obj new fields _ hg] at hpanic
        cases hpanic
      cases v with
      | slice items =>
        rw [DeepCopyJSONValue] at hc
        cases hi : deepCopyItems items with
        | error e => rw [hi] at hc; cases hc
        | ok c1 =>
          cases items with
          | nil =>
            rw [merge_of_no_entries ρ obj new fields (Or.inr hn)] at hpanic
            cases hpanic
          | cons x rest =>
            rw [(merge_of_slice ρ obj new fields x rest hn).1 c1 hi] at hpanic
            cases hpanic
      | null => exact hother _ (by unfold GetNestedSlice NestedSlice; rw [hn])
      | bool _ => exact hother _ (by unfold GetNestedSlice NestedSlice; rw [hn])
      | int _ => exact hother _ (by unfold GetNestedSlice NestedSlice; rw [hn])
      | str _ => exact hother _ (by unfold GetNestedSlice NestedSlice; rw [hn])
      | named _ _ => exact hother _ (by unfold GetNestedSlice NestedSlice; rw [hn])
      | strMap _ => exact hother _ (by unfold GetNestedSlice NestedSlice; rw [hn])
      | map _ => exact hother _ (by unfold GetNestedSlice NestedSlice; rw [hn])
/-! # The claims -/

/-- C1 fails at desired nodes `A`, `B` and one observed storage set on the stale
node `C`: in every iteration order the planner is returned and one of the
two desired nodes is neither noop, nor marked for creation, nor the target
of a pairing (the inner pairing loop clears `IsCreate` for both and keeps
one of them as the value of `Updates[C]`). -/
theorem unpaired_create_is_dropped (ρ : RangeOrder) :
    ∃ p, NewStorageSetPlanner ρ (planOver ["A", "B"]) [storageSetOn "ss-c" "C"] = .ok p
      ∧ ∃ u ∈ desiredUIDs (planOver ["A", "B"]),
          u ∉ noopUIDs p ∧ u ∉ createUIDs p ∧ u ∉ updateTargets p := by
  have hall : ∀ o ∈ [storageSetOn "ss-c" "C"], ∃ u, BoundTo o u := by
    intro o ho
    rw [List.mem_singleton.mp ho]
    exact ⟨"C", rfl⟩
  have hobs : ∀ u, ObservedUID [storageSetOn "ss-c" "C"] u ↔ u = "C" := by
    intro u
    simp [ObservedUID, boundTo_storageSetOn]
  have hD : ∀ u, u ∈ desiredUIDs (planOver ["A", "B"]) ↔ u = "A" ∨ u = "B" := by
    intro u
    simp [desiredUIDs, planOver]
  obtain ⟨p, hp, hN, -, hC, hU, -, hnd⟩ := planner_spec ρ (planOver ["A", "B"]) _ hall
  have hnoop : ∀ u, u ∈ desiredUIDs (planOver ["A", "B"]) → u ∉ noopUIDs p := by
    intro u hu
    rw [mem_noopUIDs, hN u, hobs u]
    rintro ⟨_, rfl⟩
    exact absurd ((hD "C").mp hu) (by decide)
  have hcreate : ∀ u, u ∉ createUIDs p := by
    intro u
    rw [mem_createUIDs, hC u]
    rintro ⟨_, h⟩
    exact absurd ((hD "C").mp (h "C" ((hobs "C").mpr rfl))) (by decide)
  have hkey : ∀ k c, GoMap.get? p.Updates k = some c → k = "C" := by
    intro k c h
    exact (hobs k).mp ((hU k).mp (GoMap.get?_mem_keys _ _ _ h)).1.1
  refine ⟨p, hp, ?_⟩
  by_cases hA : "A" ∈ updateTargets p
  · refine ⟨"B", (hD "B").mpr (Or.inr rfl), hnoop _ ((hD "B").mpr (Or.inr rfl)), hcreate _, ?_⟩
    intro hB
    obtain ⟨ka, ha⟩ := (GoMap.mem_values p.Updates hnd "A").mp hA
    obtain ⟨kb, hb⟩ := (GoMap.mem_values p.Updates hnd "B").mp hB
    rw [hkey ka _ ha] at ha
    rw [hkey kb _ hb, ha] at hb
    exact absurd (Option.some.inj hb) (by decide)
  · exact ⟨"A", (hD "A").mpr (Or.inl rfl), hnoop _ ((hD "A").mpr (Or.inl rfl)), hcreate _, hA⟩


/-- C2: when every observed storage set carries `spec.node.uid`, the planner is
returned, and every list `Plan` returns holds at most one resource bound
(`spec.node.uid`) to any one node UID.  `Plan` returns a list exactly when
there is nothing to pair (no observed node is stale, or no desired node is
unobserved); when there is, `Plan` panics and returns no list.  Distinctness
of the desired and of the observed UIDs is not needed. -/
theorem at_most_one_resource_per_node (ρ : RangeOrder) (annKey : String)
    (plan : CStorClusterPlan) (obs : List Unstructured) (config : CStorClusterConfig)
    (hall : ∀ o ∈ obs, ∃ u, BoundTo o u) :
    ∃ p, NewStorageSetPlanner ρ plan obs = .ok p
      ∧ (∀ out, p.Plan ρ annKey config = .ok out → ∀ uid, boundCount uid out ≤ 1)
      ∧ (¬ HasPairing plan obs → ∃ out, p.Plan ρ annKey config = .ok out)
      ∧ (HasPairing plan obs → ∃ msg, p.Plan ρ annKey config = .error (.panic msg)) := by
  obtain ⟨p, hp, -⟩ := planner_spec ρ plan obs hall
  obtain ⟨hno, hyes⟩ := plan_spec ρ annKey plan obs config p hp
  refine ⟨p, hp, ?_, fun h => ⟨_, (hno h).2.2⟩, fun h => (hyes h).2.2⟩
  intro out hout uid
  by_cases hpair : HasPairing plan obs
  · obtain ⟨msg, hmsg⟩ := (hyes hpair).2.2
    rw [hmsg] at hout
    cases hout
  · rw [(hno hpair).2.2] at hout
    rw [← Except.ok.inj hout]
    exact (noop_create_bound ρ annKey plan obs config p hp).2 uid

/-- C2, at desired nodes `A`, `B`, `C` and observed storage sets on `A` and `B`:
`Plan` returns the two observed storage sets and a new one for `C`, one
resource per node. -/
theorem at_most_one_resource_per_node_witness :
    (∃ p, NewStorageSetPlanner RangeOrder.insertion (planOver ["A", "B", "C"])
          [storageSetOn "ss-a" "A", storageSetOn "ss-b" "B"] = .ok p
      ∧ (∀ out, p.Plan RangeOrder.insertion "plan-uid"
            ⟨.str "10G", .int 1, .str "csi", .str "sc"⟩ = .ok out →
          ∀ uid, boundCount uid out ≤ 1)
      ∧ (¬ HasPairing (planOver ["A", "B", "C"])
            [storageSetOn "ss-a" "A", storageSetOn "ss-b" "B"] →
          ∃ out, p.Plan RangeOrder.insertion "plan-uid"
            ⟨.str "10G", .int 1, .str "csi", .str "sc"⟩ = .ok out)
      ∧ (HasPairing (planOver ["A", "B", "C"])
            [storageSetOn "ss-a" "A", storageSetOn "ss-b" "B"] →
          ∃ msg, p.Plan RangeOrder.insertion "plan-uid"
            ⟨.str "10G", .int 1, .str "csi", .str "sc"⟩ = .error (.panic msg)))
    ∧ ∃ p out, NewStorageSetPlanner RangeOrder.insertion (planOver ["A", "B", "C"])
          [storageSetOn "ss-a" "A", storageSetOn "ss-b" "B"] = .ok p
        ∧ p.Plan RangeOrder.insertion "plan-uid" ⟨.str "10G", .int 1, .str "csi", .str "sc"⟩
          = .ok out
        ∧ out.map (fun o => o.bind boundNodeUID) = [some "A", some "B", some "C"] :=
  ⟨at_most_one_resource_per_node RangeOrder.insertion "plan-uid" (planOver ["A", "B", "C"])
      [storageSetOn "ss-a" "A", storageSetOn "ss-b" "B"]
      ⟨.str "10G", .int 1, .str "csi", .str "sc"⟩
      (by
        intro o ho
        simp only [List.mem_cons, List.mem_singleton, List.not_mem_nil, or_false] at ho
        rcases ho with rfl | rfl
        · exact ⟨"A", rfl⟩
        · exact ⟨"B", rfl⟩),
    ⟨_, _, rfl, rfl, rfl⟩⟩
/-- C3: when every observed storage set carries `spec.node.uid`,
`NewStorageSetPlanner` returns a planner in which every observed node UID is
in exactly one of: the noop bucket, the remove bucket, the keys of `Updates`;
and every UID in one of the three is an observed node UID. -/
theorem observed_uid_in_exactly_one_bucket (ρ : RangeOrder) (plan : CStorClusterPlan)
    (obs : List Unstructured) (hall : ∀ o ∈ obs, ∃ u, BoundTo o u) :
    ∃ p, NewStorageSetPlanner ρ plan obs = .ok p
      ∧ (∀ u, ObservedUID obs u →
          (u ∈ noopUIDs p ∧ u ∉ removeUIDs p ∧ u ∉ updateSources p)
          ∨ (u ∉ noopUIDs p ∧ u ∈ removeUIDs p ∧ u ∉ updateSources p)
          ∨ (u ∉ noopUIDs p ∧ u ∉ removeUIDs p ∧ u ∈ updateSources p))
      ∧ (∀ u, u ∈ noopUIDs p ∨ u ∈ removeUIDs p ∨ u ∈ updateSources p → ObservedUID obs u) := by
  obtain ⟨p, hp, hN, hR, -, hU, -, -⟩ := planner_spec ρ plan obs hall
  refine ⟨p, hp, ?_, ?_⟩
  · intro u hu
    rw [mem_noopUIDs, mem_removeUIDs, hN u, hR u]
    unfold updateSources
    rw [hU u]
    by_cases hd : u ∈ desiredUIDs plan
    · exact Or.inl ⟨⟨hd, hu⟩, fun h => h.1.2 hd, fun h => h.1.2 hd⟩
    · by_cases hc : ∃ d ∈ desiredUIDs plan, ¬ ObservedUID obs d
      · refine Or.inr (Or.inr ⟨fun h => hd h.1, ?_, ⟨hu, hd⟩, hc⟩)
        rintro ⟨_, h⟩
        obtain ⟨d, hd1, hd2⟩ := hc
        exact hd2 (h d hd1)
      · refine Or.inr (Or.inl ⟨fun h => hd h.1, ⟨⟨hu, hd⟩, ?_⟩, fun h => hc h.2⟩)
        intro d hd1
        by_contra hno
        exact hc ⟨d, hd1, hno⟩
  · intro u
    rw [mem_noopUIDs, mem_removeUIDs, hN u, hR u]
    unfold updateSources
    rw [hU u]
    rintro (h | h | h)
    · exact h.2
    · exact h.1.1
    · exact h.1.1

/-- C3, at desired nodes `A`, `D` and observed storage sets on `A`, `C`. -/
theorem observed_uid_in_exactly_one_bucket_witness :
    ∃ p, NewStorageSetPlanner RangeOrder.insertion (planOver ["A", "D"])
        [storageSetOn "ss-a" "A", storageSetOn "ss-c" "C"] = .ok p
      ∧ (∀ u, ObservedUID [storageSetOn "ss-a" "A", storageSetOn "ss-c" "C"] u →
          (u ∈ noopUIDs p ∧ u ∉ removeUIDs p ∧ u ∉ updateSources p)
          ∨ (u ∉ noopUIDs p ∧ u ∈ removeUIDs p ∧ u ∉ updateSources p)
          ∨ (u ∉ noopUIDs p ∧ u ∉ removeUIDs p ∧ u ∈ updateSources p))
      ∧ (∀ u, u ∈ noopUIDs p ∨ u ∈ removeUIDs p ∨ u ∈ updateSources p →
          ObservedUID [storageSetOn "ss-a" "A", storageSetOn "ss-c" "C"] u) :=
  observed_uid_in_exactly_one_bucket RangeOrder.insertion (planOver ["A", "D"])
    [storageSetOn "ss-a" "A", storageSetOn "ss-c" "C"]
    (by
      intro o ho
      simp only [List.mem_cons, List.mem_singleton, List.not_mem_nil, or_false] at ho
      rcases ho with rfl | rfl
      · exact ⟨"A", rfl⟩
      · exact ⟨"C", rfl⟩)


/-- C4 fails in the code: over a field path that holds a non-empty list,
`MergeNestedSlice` returns no list, so no entry is ever replaced.  When every
entry of the list is a JSON value (a record decoded from JSON is a
`map[string]interface{}`) the call returns the type error for the first
entry; when the list holds a `map[string]string`, the only type the scan
accepts, the library's deep copy in `GetNestedSlice` panics. -/
theorem MergeNestedSlice_never_replaces (ρ : RangeOrder) (obj : Unstructured)
    (new : GoMap String) (fields : List String) (x : Value) (rest : List Value)
    (hlist : NestedFieldNoCopy obj.Object fields = .ok (some (.slice (x :: rest)))) :
    (∀ l, MergeNestedSlice ρ obj new fields ≠ .ok l)
    ∧ (∀ c, deepCopyItems (x :: rest) = .ok c →
        MergeNestedSlice ρ obj new fields
          = .error (.error ("Invalid nested slice: Want map[string]string: Got " ++ x.goType)))
    ∧ (∀ m, Value.strMap m ∈ x :: rest →
        ∃ msg, MergeNestedSlice ρ obj new fields = .error (.panic msg)) := by
  obtain ⟨h1, h2⟩ := MergeNestedSlice_never_replaces_aux ρ obj new fields x rest hlist
  exact ⟨h1, (merge_of_slice ρ obj new fields x rest hlist).1, h2⟩

/-- C4, at the claim's own example, merging `{uid:a, v:2}` into `[{uid:a, v:1}]` at
`status.conditions`: with the entry as decoded from JSON the call returns
the type error, with the entry a `map[string]string` it panics. -/
theorem MergeNestedSlice_never_replaces_witness :
    ((∀ l, MergeNestedSlice RangeOrder.insertion
          (conditionsObj [recordAsJSON [("uid", "a"), ("v", "1")]])
          [("uid", "a"), ("v", "2")] ["status", "conditions"] ≠ .ok l)
      ∧ (∀ c, deepCopyItems [recordAsJSON [("uid", "a"), ("v", "1")]] = .ok c →
          MergeNestedSlice RangeOrder.insertion
            (conditionsObj [recordAsJSON [("uid", "a"), ("v", "1")]])
            [("uid", "a"), ("v", "2")] ["status", "conditions"]
            = .error (.error ("Invalid nested slice: Want map[string]string: Got "
                ++ (recordAsJSON [("uid", "a"), ("v", "1")]).goType)))
      ∧ (∀ m, Value.strMap m ∈ [recordAsJSON [("uid", "a"), ("v", "1")]] →
          ∃ msg, MergeNestedSlice RangeOrder.insertion
            (conditionsObj [recordAsJSON [("uid", "a"), ("v", "1")]])
            [("uid", "a"), ("v", "2")] ["status", "conditions"] = .error (.panic msg)))
    ∧ MergeNestedSlice RangeOrder.insertion
        (conditionsObj [recordAsJSON [("uid", "a"), ("v", "1")]])
        [("uid", "a"), ("v", "2")] ["status", "conditions"]
      = .error (.error
          "Invalid nested slice: Want map[string]string: Got map[string]interface {}")
    ∧ MergeNestedSlice RangeOrder.insertion
        (conditionsObj [.strMap [("uid", "a"), ("v", "1")]])
        [("uid", "a"), ("v", "2")] ["status", "conditions"]
      = .error (.panic "cannot deep copy map[string]string") :=
  ⟨MergeNestedSlice_never_replaces RangeOrder.insertion
      (conditionsObj [recordAsJSON [("uid", "a"), ("v", "1")]])
      [("uid", "a"), ("v", "2")] ["status", "conditions"] _ _ rfl,
    rfl, rfl⟩

/-- C5 holds in the code only for a field path without entries: when nothing is
found at the path, or the empty list, `MergeNestedSlice` returns the new
record alone; it returns a list in no other case, and over a list with
entries it returns the type error for the first entry (or panics, C4), so
nothing is appended to a list that holds an entry. -/
theorem MergeNestedSlice_appends_only_without_entries (ρ : RangeOrder) (obj : Unstructured)
    (new : GoMap String) (fields : List String) :
    (NoEntries obj fields → MergeNestedSlice ρ obj new fields = .ok [.strMap new])
    ∧ (∀ l, MergeNestedSlice ρ obj new fields = .ok l →
        NoEntries obj fields ∧ l = [.strMap new])
    ∧ (∀ x rest, NestedFieldNoCopy obj.Object fields = .ok (some (.slice (x :: rest))) →
        ∀ l, MergeNestedSlice ρ obj new fields ≠ .ok l) := by
  refine ⟨merge_of_no_entries ρ obj new fields,
    fun l hl => (merge_ok_iff ρ obj new fields l).mp hl, ?_⟩
  intro x rest hlist l hl
  rcases ((merge_ok_iff ρ obj new fields l).mp hl).1 with h | h
  · rw [h] at hlist
    cases hlist
  · rw [h] at hlist
    cases hlist

/-- C5, at the claim's own example, merging `{uid:b, v:2}` into `[{uid:a, v:1}]` as
decoded from JSON: the type error, no list; and at an object without
`status`: the new record alone. -/
theorem MergeNestedSlice_appends_only_without_entries_examples :
    MergeNestedSlice RangeOrder.insertion
        (conditionsObj [recordAsJSON [("uid", "a"), ("v", "1")]])
        [("uid", "b"), ("v", "2")] ["status", "conditions"]
      = .error (.error
          "Invalid nested slice: Want map[string]string: Got map[string]interface {}")
    ∧ MergeNestedSlice RangeOrder.insertion ⟨[]⟩ [("uid", "b"), ("v", "2")]
        ["status", "conditions"]
      = .ok [.strMap [("uid", "b"), ("v", "2")]]
    ∧ MergeNestedSlice RangeOrder.insertion (conditionsObj [])
        [("uid", "b"), ("v", "2")] ["status", "conditions"]
      = .ok [.strMap [("uid", "b"), ("v", "2")]] :=
  ⟨rfl,
    (MergeNestedSlice_appends_only_without_entries RangeOrder.insertion ⟨[]⟩
      [("uid", "b"), ("v", "2")] ["status", "conditions"]).1 (Or.inl rfl),
    (MergeNestedSlice_appends_only_without_entries RangeOrder.insertion (conditionsObj [])
      [("uid", "b"), ("v", "2")] ["status", "conditions"]).1 (Or.inr rfl)⟩

/-- C6 fails in the code: a merge that returns a list returns the new record
alone, as a `map[string]string`, and a second merge of the same record never
returns that list again.  Over an object that holds the returned list it
panics in the deep copy of `GetNestedSlice`; over an object that holds the
list as decoded from JSON it returns the type error.  The two merges may use
different iteration orders. -/
theorem MergeNestedSlice_second_merge_fails (ρ1 ρ2 : RangeOrder) (obj obj2 : Unstructured)
    (new : GoMap String) (fields : List String) (merged : List Value)
    (h1 : MergeNestedSlice ρ1 obj new fields = .ok merged) :
    merged = [.strMap new]
    ∧ (NestedFieldNoCopy obj2.Object fields = .ok (some (.slice merged)) →
        ∃ msg, MergeNestedSlice ρ2 obj2 new fields = .error (.panic msg))
    ∧ (NestedFieldNoCopy obj2.Object fields = .ok (some (.slice [recordAsJSON new])) →
        MergeNestedSlice ρ2 obj2 new fields
          = .error (.error
              "Invalid nested slice: Want map[string]string: Got map[string]interface {}")) := by
  have hm := ((merge_ok_iff ρ1 obj new fields merged).mp h1).2
  subst hm
  refine ⟨rfl, ?_, ?_⟩
  · intro h2
    exact (MergeNestedSlice_never_replaces_aux ρ2 obj2 new fields _ _ h2).2 new
      (List.mem_singleton.mpr rfl)
  · intro h2
    have hc : deepCopyItems [recordAsJSON new] = .ok [recordAsJSON new] := by
      rw [deepCopyItems, deepCopy_recordAsJSON]
      rfl
    exact (merge_of_slice ρ2 obj2 new fields _ _ h2).1 _ hc

/-- C6, at the record `{uid:a}` and an object without `status`: the first merge
returns `[{uid:a}]`; the second merge panics over that list and returns the
type error over the list as decoded from JSON. -/
theorem MergeNestedSlice_second_merge_fails_witness :
    ([Value.strMap [("uid", "a")]] = [.strMap [("uid", "a")]]
      ∧ (NestedFieldNoCopy (conditionsObj [.strMap [("uid", "a")]]).Object
            ["status", "conditions"] = .ok (some (.slice [.strMap [("uid", "a")]])) →
          ∃ msg, MergeNestedSlice RangeOrder.reversed (conditionsObj [.strMap [("uid", "a")]])
            [("uid", "a")] ["status", "conditions"] = .error (.panic msg))
      ∧ (NestedFieldNoCopy (conditionsObj [.strMap [("uid", "a")]]).Object
            ["status", "conditions"] = .ok (some (.slice [recordAsJSON [("uid", "a")]])) →
          MergeNestedSlice RangeOrder.reversed (conditionsObj [.strMap [("uid", "a")]])
            [("uid", "a")] ["status", "conditions"]
            = .error (.error
                "Invalid nested slice: Want map[string]string: Got map[string]interface {}")))
    ∧ MergeNestedSlice RangeOrder.insertion ⟨[]⟩ [("uid", "a")] ["status", "conditions"]
      = .ok [.strMap [("uid", "a")]]
    ∧ MergeNestedSlice RangeOrder.insertion (conditionsObj [.strMap [("uid", "a")]])
        [("uid", "a")] ["status", "conditions"]
      = .error (.panic "cannot deep copy map[string]string")
    ∧ MergeNestedSlice RangeOrder.insertion (conditionsObj [recordAsJSON [("uid", "a")]])
        [("uid", "a")] ["status", "conditions"]
      = .error (.error
          "Invalid nested slice: Want map[string]string: Got map[string]interface {}") :=
  ⟨MergeNestedSlice_second_merge_fails RangeOrder.insertion RangeOrder.reversed ⟨[]⟩
      (conditionsObj [.strMap [("uid", "a")]]) [("uid", "a")] ["status", "conditions"] _ rfl,
    rfl, rfl, rfl⟩

/-- C7, as stated, fails: with the keys of `{uid:a, name:b}` enumerated `name`
first, the loop of k8s.go:54-64 ends with `indexKey = name` and
`indexValue = b`, where the fixed priority order picks `uid` and `a`; with
`uid` enumerated first it ends with `uid` and `a`. -/
theorem indexOf_not_priority :
    priorityIndex [("uid", "a"), ("name", "b")] = ("uid", "a")
    ∧ indexOf RangeOrder.reversed [("uid", "a"), ("name", "b")] = ("name", "b")
    ∧ indexOf RangeOrder.insertion [("uid", "a"), ("name", "b")] = ("uid", "a")
    ∧ indexOf RangeOrder.reversed [("uid", "a"), ("name", "b")]
        ≠ priorityIndex [("uid", "a"), ("name", "b")] :=
  ⟨rfl, rfl, rfl, by decide⟩

/-- C7, amended: the identity key is the first of `uid`, `id`, `name` that the
enumeration of the new record's keys yields.  For a record that holds the
key `k` (one of the three) with value `v`: in every order the loop picks one
of the three keys the record holds, with the record's value for it; there is
an order in which it picks `k`; and it picks `k` in every order when `k` is
the only one of the three keys the record holds. -/
theorem indexOf_follows_enumeration (new : GoMap String) (k v : String)
    (hk : isIndexKey k = true) (hv : GoMap.get? new k = some v) :
    (∀ ρ : RangeOrder, isIndexKey (indexOf ρ new).1 = true
        ∧ GoMap.get? new (indexOf ρ new).1 = some (indexOf ρ new).2)
    ∧ (∃ ρ : RangeOrder, indexOf ρ new = (k, v))
    ∧ ((∀ k1 ∈ GoMap.keys new, isIndexKey k1 = true → k1 = k) →
        ∀ ρ : RangeOrder, indexOf ρ new = (k, v)) := by
  have hmem := GoMap.get?_mem_keys new k v hv
  refine ⟨fun ρ => indexOf_picks ρ new k hk hmem, ⟨RangeOrder.first k, indexOf_first new k v hk hv⟩,
    ?_⟩
  intro honly ρ
  obtain ⟨v1, h1, h2⟩ := indexOf_only ρ new k hk hmem honly
  have : v1 = v := Option.some.inj (h2.symm.trans hv)
  rw [h1, this]

/-- C7, amended, at the record `{uid:a, name:b}` and its key `name`. -/
theorem indexOf_follows_enumeration_witness :
    (∀ ρ : RangeOrder, isIndexKey (indexOf ρ [("uid", "a"), ("name", "b")]).1 = true
        ∧ GoMap.get? [("uid", "a"), ("name", "b")] (indexOf ρ [("uid", "a"), ("name", "b")]).1
          = some (indexOf ρ [("uid", "a"), ("name", "b")]).2)
    ∧ (∃ ρ : RangeOrder, indexOf ρ [("uid", "a"), ("name", "b")] = ("name", "b"))
    ∧ ((∀ k1 ∈ GoMap.keys [("uid", "a"), ("name", "b")], isIndexKey k1 = true → k1 = "name") →
        ∀ ρ : RangeOrder, indexOf ρ [("uid", "a"), ("name", "b")] = ("name", "b")) :=
  indexOf_follows_enumeration [("uid", "a"), ("name", "b")] "name" "b" rfl rfl

/-- C8, as stated, fails: over the list `[{uid:a}, "x"]`, whose first entry is a
`map[string]string` that matches the new record `{uid:a}` and whose second
entry is a string, `MergeNestedSlice` does not return the type error: it
panics in the deep copy of `GetNestedSlice`, before the scan. -/
theorem MergeNestedSlice_malformed_entry_panics :
    MergeNestedSlice RangeOrder.insertion
        (conditionsObj [.strMap [("uid", "a")], .str "x"]) [("uid", "a")]
        ["status", "conditions"]
      = .error (.panic "cannot deep copy map[string]string")
    ∧ ∀ msg, MergeNestedSlice RangeOrder.insertion
        (conditionsObj [.strMap [("uid", "a")], .str "x"]) [("uid", "a")]
        ["status", "conditions"] ≠ .error (.error msg) :=
  ⟨rfl, fun msg h => by cases h⟩

/-- C8, amended: over a list that holds an entry `x`, wherever it sits, so over
every list with an entry that is not a `map[string]string`,
`MergeNestedSlice` returns no list.  When every entry of the list is a JSON
value it returns the type error
`Invalid nested slice: Want map[string]string: Got T`, `T` the type of the
first entry of the list; otherwise (a `map[string]string` is no JSON value)
it panics in the library's deep copy. -/
theorem MergeNestedSlice_no_list_with_malformed_entry (ρ : RangeOrder) (obj : Unstructured)
    (new : GoMap String) (fields : List String) (items : List Value) (x : Value)
    (hlist : NestedFieldNoCopy obj.Object fields = .ok (some (.slice items)))
    (hx : x ∈ items) :
    (∀ l, MergeNestedSlice ρ obj new fields ≠ .ok l)
    ∧ (∀ c, deepCopyItems items = .ok c →
        ∃ first rest, items = first :: rest
          ∧ MergeNestedSlice ρ obj new fields
            = .error (.error ("Invalid nested slice: Want map[string]string: Got "
                ++ first.goType)))
    ∧ (∀ e, deepCopyItems items = .error e →
        ∃ msg, e = .panic msg ∧ MergeNestedSlice ρ obj new fields = .error (.panic msg))
    ∧ (∀ m, Value.strMap m ∈ items →
        ∃ msg, MergeNestedSlice ρ obj new fields = .error (.panic msg)) := by
  cases items with
  | nil => cases hx
  | cons first rest =>
    obtain ⟨h1, h2⟩ := merge_of_slice ρ obj new fields first rest hlist
    obtain ⟨h3, h4⟩ := MergeNestedSlice_never_replaces_aux ρ obj new fields first rest hlist
    refine ⟨h3, fun c hc => ⟨first, rest, rfl, h1 c hc⟩, ?_, h4⟩
    intro e he
    obtain ⟨hm, msg, rfl⟩ := h2 e he
    exact ⟨msg, rfl, hm⟩

/-- C8, amended, at the list `[{uid:a}, "x"]` as decoded from JSON, the entry `"x"`
and the new record `{uid:a}`: the type error, naming the first entry. -/
theorem MergeNestedSlice_no_list_with_malformed_entry_witness :
    ((∀ l, MergeNestedSlice RangeOrder.insertion
          (conditionsObj [recordAsJSON [("uid", "a")], .str "x"]) [("uid", "a")]
          ["status", "conditions"] ≠ .ok l)
      ∧ (∀ c, deepCopyItems [recordAsJSON [("uid", "a")], .str "x"] = .ok c →
          ∃ first rest, [recordAsJSON [("uid", "a")], Value.str "x"] = first :: rest
            ∧ MergeNestedSlice RangeOrder.insertion
                (conditionsObj [recordAsJSON [("uid", "a")], .str "x"]) [("uid", "a")]
                ["status", "conditions"]
              = .error (.error ("Invalid nested slice: Want map[string]string: Got "
                  ++ first.goType)))
      ∧ (∀ e, deepCopyItems [recordAsJSON [("uid", "a")], .str "x"] = .error e →
          ∃ msg, e = .panic msg
            ∧ MergeNestedSlice RangeOrder.insertion
                (conditionsObj [recordAsJSON [("uid", "a")], .str "x"]) [("uid", "a")]
                ["status", "conditions"] = .error (.panic msg))
      ∧ (∀ m, Value.strMap m ∈ [recordAsJSON [("uid", "a")], Value.str "x"] →
          ∃ msg, MergeNestedSlice RangeOrder.insertion
              (conditionsObj [recordAsJSON [("uid", "a")], .str "x"]) [("uid", "a")]
              ["status", "conditions"] = .error (.panic msg)))
    ∧ MergeNestedSlice RangeOrder.insertion
        (conditionsObj [recordAsJSON [("uid", "a")], .str "x"]) [("uid", "a")]
        ["status", "conditions"]
      = .error (.error
          "Invalid nested slice: Want map[string]string: Got map[string]interface {}")
    ∧ MergeNestedSlice RangeOrder.insertion
        (conditionsObj [.str "x", recordAsJSON [("uid", "a")]]) [("uid", "a")]
        ["status", "conditions"]
      = .error (.error "Invalid nested slice: Want map[string]string: Got string") :=
  ⟨MergeNestedSlice_no_list_with_malformed_entry RangeOrder.insertion
      (conditionsObj [recordAsJSON [("uid", "a")], .str "x"]) [("uid", "a")]
      ["status", "conditions"] _ (.str "x") rfl (by simp),
    rfl, rfl⟩

/-- C9, as stated, fails: the condition `{type:ReconcileError, reason:y}` has no
identity key (the loop of k8s.go:54-64 leaves `indexKey` and `indexValue`
empty; `type` is not one of the three keys), and merging it into a resource
whose `status.conditions`, as decoded from JSON, holds a condition of the same
type overwrites nothing: the call returns the type error and no list. -/
theorem MergeStatusConditions_same_type_not_overwritten :
    indexOf RangeOrder.insertion [("type", "ReconcileError"), ("reason", "y")] = ("", "")
    ∧ MergeStatusConditions RangeOrder.insertion
        (conditionsObj [recordAsJSON [("type", "ReconcileError"), ("reason", "x")]])
        [("type", "ReconcileError"), ("reason", "y")]
      = .error (.error
          "Invalid nested slice: Want map[string]string: Got map[string]interface {}") :=
  ⟨rfl, rfl⟩

/-- C9, amended: a condition record with none of the keys `uid`, `id`, `name` has
no identity key in any enumeration order, `type` not being one.
`MergeStatusConditions` returns a list exactly when `status.conditions` holds
no entry (nothing found there, or the empty list), and the list is then the
new record alone: no entry is overwritten on account of its type. -/
theorem MergeStatusConditions_without_index_key (ρ : RangeOrder) (obj : Unstructured)
    (newCondition : GoMap String)
    (hnone : ∀ k ∈ GoMap.keys newCondition, isIndexKey k = false) :
    indexOf ρ newCondition = ("", "")
    ∧ (NoEntries obj ["status", "conditions"] →
        MergeStatusConditions ρ obj newCondition = .ok [.strMap newCondition])
    ∧ (∀ l, MergeStatusConditions ρ obj newCondition = .ok l →
        NoEntries obj ["status", "conditions"] ∧ l = [.strMap newCondition]) :=
  ⟨indexOf_none ρ newCondition hnone,
    merge_of_no_entries ρ obj newCondition ["status", "conditions"],
    fun l hl => (merge_ok_iff ρ obj newCondition ["status", "conditions"] l).mp hl⟩

/-- C9, amended, at the condition `{type:ReconcileError, reason:y}` and a resource
without `status`. -/
theorem MergeStatusConditions_without_index_key_witness :
    (indexOf RangeOrder.reversed [("type", "ReconcileError"), ("reason", "y")] = ("", "")
      ∧ (NoEntries ⟨[("metadata", .map [("name", .str "plan-1")])]⟩ ["status", "conditions"] →
          MergeStatusConditions RangeOrder.reversed
              ⟨[("metadata", .map [("name", .str "plan-1")])]⟩
              [("type", "ReconcileError"), ("reason", "y")]
            = .ok [.strMap [("type", "ReconcileError"), ("reason", "y")]])
      ∧ (∀ l, MergeStatusConditions RangeOrder.reversed
              ⟨[("metadata", .map [("name", .str "plan-1")])]⟩
              [("type", "ReconcileError"), ("reason", "y")] = .ok l →
          NoEntries ⟨[("metadata", .map [("name", .str "plan-1")])]⟩ ["status", "conditions"]
            ∧ l = [.strMap [("type", "ReconcileError"), ("reason", "y")]]))
    ∧ MergeStatusConditions RangeOrder.reversed
        ⟨[("metadata", .map [("name", .str "plan-1")])]⟩
        [("type", "ReconcileError"), ("reason", "y")]
      = .ok [.strMap [("type", "ReconcileError"), ("reason", "y")]] :=
  ⟨MergeStatusConditions_without_index_key RangeOrder.reversed
      ⟨[("metadata", .map [("name", .str "plan-1")])]⟩
      [("type", "ReconcileError"), ("reason", "y")] (by decide),
    rfl⟩

/-- C10, as stated, fails: with desired nodes `A`, `B` and one observed storage
set on the stale node `C`, a run of `NewStorageSetPlanner` that ranges over
the maps in insertion order pairs `C` with `B`, and a run that ranges in the
opposite order pairs `C` with `A`: the two planners differ in their update
targets. -/
theorem update_targets_depend_on_order :
    ∃ p1 p2,
      NewStorageSetPlanner RangeOrder.insertion (planOver ["A", "B"]) [storageSetOn "ss-c" "C"]
        = .ok p1
      ∧ NewStorageSetPlanner RangeOrder.reversed (planOver ["A", "B"]) [storageSetOn "ss-c" "C"]
        = .ok p2
      ∧ updateTargets p1 = ["B"] ∧ updateTargets p2 = ["A"]
      ∧ noopUIDs p1 = [] ∧ noopUIDs p2 = [] ∧ createUIDs p1 = [] ∧ createUIDs p2 = [] :=
  ⟨_, _, rfl, rfl, rfl, rfl, rfl, rfl, rfl, rfl⟩

/-- C10, amended: for observed storage sets that all carry `spec.node.uid`, any
two runs of `NewStorageSetPlanner` (in any two iteration orders) return
planners with the same noop UIDs; and when at most one desired node is
unobserved, or no observed node is stale, also with the same created node
UIDs and the same update targets. -/
theorem bucket_membership_reproducible (ρ1 ρ2 : RangeOrder) (plan : CStorClusterPlan)
    (obs : List Unstructured) (hall : ∀ o ∈ obs, ∃ u, BoundTo o u) :
    ∃ p1 p2, NewStorageSetPlanner ρ1 plan obs = .ok p1
      ∧ NewStorageSetPlanner ρ2 plan obs = .ok p2
      ∧ (∀ u, u ∈ noopUIDs p1 ↔ u ∈ noopUIDs p2)
      ∧ (((∀ a ∈ desiredUIDs plan, ∀ b ∈ desiredUIDs plan,
              ¬ ObservedUID obs a → ¬ ObservedUID obs b → a = b)
            ∨ (∀ o, ObservedUID obs o → o ∈ desiredUIDs plan)) →
          (∀ u, u ∈ createUIDs p1 ↔ u ∈ createUIDs p2)
          ∧ (∀ u, u ∈ updateTargets p1 ↔ u ∈ updateTargets p2)) := by
  obtain ⟨p1, hp1, hN1, -, hC1, hU1, hT1, hnd1⟩ := planner_spec ρ1 plan obs hall
  obtain ⟨p2, hp2, hN2, -, hC2, hU2, hT2, hnd2⟩ := planner_spec ρ2 plan obs hall
  refine ⟨p1, p2, hp1, hp2, ?_, ?_⟩
  · intro u
    rw [mem_noopUIDs, mem_noopUIDs, hN1 u, hN2 u]
  · intro hcond
    refine ⟨?_, ?_⟩
    · intro u
      rw [mem_createUIDs, mem_createUIDs, hC1 u, hC2 u]
    · have key : ∀ (pa pb : StorageSetPlanner),
          (∀ u, u ∈ GoMap.keys pa.Updates
            ↔ (ObservedUID obs u ∧ u ∉ desiredUIDs plan)
              ∧ ∃ d ∈ desiredUIDs plan, ¬ ObservedUID obs d) →
          (∀ u, u ∈ GoMap.keys pb.Updates
            ↔ (ObservedUID obs u ∧ u ∉ desiredUIDs plan)
              ∧ ∃ d ∈ desiredUIDs plan, ¬ ObservedUID obs d) →
          (∀ u c, GoMap.get? pa.Updates u = some c →
            c ∈ desiredUIDs plan ∧ ¬ ObservedUID obs c) →
          (∀ u c, GoMap.get? pb.Updates u = some c →
            c ∈ desiredUIDs plan ∧ ¬ ObservedUID obs c) →
          (GoMap.keys pa.Updates).Nodup → (GoMap.keys pb.Updates).Nodup →
          ∀ c, c ∈ updateTargets pa → c ∈ updateTargets pb := by
        intro pa pb hUa hUb hTa hTb hnda hndb c hc
        obtain ⟨k, hk⟩ := (GoMap.mem_values pa.Updates hnda c).mp hc
        have hka := (hUa k).mp (GoMap.get?_mem_keys _ _ _ hk)
        obtain ⟨c1, hc1⟩ := GoMap.mem_keys_get? pb.Updates k ((hUb k).mpr hka)
        rcases hcond with hone | hnostale
        · have := hone c (hTa k c hk).1 c1 (hTb k c1 hc1).1 (hTa k c hk).2 (hTb k c1 hc1).2
          rw [this]
          exact (GoMap.mem_values pb.Updates hndb c1).mpr ⟨k, hc1⟩
        · exact absurd (hnostale k hka.1.1) hka.1.2
      intro u
      exact ⟨key p1 p2 hU1 hU2 hT1 hT2 hnd1 hnd2 u, key p2 p1 hU2 hU1 hT2 hT1 hnd2 hnd1 u⟩

/-- C10, amended, at desired nodes `A`, `D` and observed storage sets on `A`, `C`,
`E`: one desired node is unobserved, and the insertion-order run and the
reversed-order run agree on all three sets. -/
theorem bucket_membership_reproducible_witness :
    ∃ p1 p2, NewStorageSetPlanner RangeOrder.insertion (planOver ["A", "D"])
          [storageSetOn "ss-a" "A", storageSetOn "ss-c" "C", storageSetOn "ss-e" "E"] = .ok p1
      ∧ NewStorageSetPlanner RangeOrder.reversed (planOver ["A", "D"])
          [storageSetOn "ss-a" "A", storageSetOn "ss-c" "C", storageSetOn "ss-e" "E"] = .ok p2
      ∧ (∀ u, u ∈ noopUIDs p1 ↔ u ∈ noopUIDs p2)
      ∧ (∀ u, u ∈ createUIDs p1 ↔ u ∈ createUIDs p2)
      ∧ (∀ u, u ∈ updateTargets p1 ↔ u ∈ updateTargets p2) := by
  have hobs : ∀ u, ObservedUID
      [storageSetOn "ss-a" "A", storageSetOn "ss-c" "C", storageSetOn "ss-e" "E"] u
      ↔ u = "A" ∨ u = "C" ∨ u = "E" := by
    intro u
    simp [ObservedUID, boundTo_storageSetOn]
  have hD : ∀ u, u ∈ desiredUIDs (planOver ["A", "D"]) ↔ u = "A" ∨ u = "D" := by
    intro u
    simp [desiredUIDs, planOver]
  obtain ⟨p1, p2, h1, h2, h3, h4⟩ := bucket_membership_reproducible RangeOrder.insertion
    RangeOrder.reversed (planOver ["A", "D"])
    [storageSetOn "ss-a" "A", storageSetOn "ss-c" "C", storageSetOn "ss-e" "E"]
    (by
      intro o ho
      simp only [List.mem_cons, List.mem_singleton, List.not_mem_nil, or_false] at ho
      rcases ho with rfl | rfl | rfl
      · exact ⟨"A", rfl⟩
      · exact ⟨"C", rfl⟩
      · exact ⟨"E", rfl⟩)
  have hone : ∀ a ∈ desiredUIDs (planOver ["A", "D"]), ∀ b ∈ desiredUIDs (planOver ["A", "D"]),
      ¬ ObservedUID [storageSetOn "ss-a" "A", storageSetOn "ss-c" "C", storageSetOn "ss-e" "E"] a →
      ¬ ObservedUID [storageSetOn "ss-a" "A", storageSetOn "ss-c" "C", storageSetOn "ss-e" "E"] b →
      a = b := by
    intro a ha b hb hna hnb
    rw [hobs] at hna hnb
    rcases (hD a).mp ha with rfl | rfl
    · exact absurd (Or.inl rfl) hna
    · rcases (hD b).mp hb with rfl | rfl
      · exact absurd (Or.inl rfl) hnb
      · rfl
  exact ⟨p1, p2, h1, h2, h3, (h4 (Or.inl hone)).1, (h4 (Or.inl hone)).2⟩


/-- C11 fails in the code: when exactly one observed node UID `C` is stale and
exactly one desired node UID `D` is unobserved (observed storage sets
carrying `spec.node.uid`), the planner is returned with the one pairing
`C -> D` and with nothing marked for creation or removal, and then `update`
panics and so does `Plan`: no list is returned, so no resource bound to `D`.
The body of the update loop passes a `map[string]string` to
`unstructured.SetNestedField`, whose deep copy panics (reconciler.go:397-401). -/
theorem pairing_makes_plan_panic (ρ : RangeOrder) (annKey : String)
    (plan : CStorClusterPlan) (obs : List Unstructured) (config : CStorClusterConfig)
    (C D : String) (oC : Unstructured)
    (hall : ∀ o ∈ obs, ∃ u, BoundTo o u)
    (hoC : oC ∈ obs) (hbC : BoundTo oC C) (hCstale : C ∉ desiredUIDs plan)
    (hConly : ∀ u, ObservedUID obs u → u ∉ desiredUIDs plan → u = C)
    (hD : D ∈ desiredUIDs plan) (hDnew : ¬ ObservedUID obs D)
    (hDonly : ∀ d ∈ desiredUIDs plan, ¬ ObservedUID obs d → d = D) :
    ∃ p, NewStorageSetPlanner ρ plan obs = .ok p
      ∧ p.Updates = [(C, D)]
      ∧ createUIDs p = [] ∧ removeUIDs p = []
      ∧ (∃ msg, p.update ρ = .error (.panic msg))
      ∧ (∃ msg, p.Plan ρ annKey config = .error (.panic msg))
      ∧ ∀ out, p.Plan ρ annKey config ≠ .ok out := by
  obtain ⟨p, hp, -⟩ := planner_spec ρ plan obs hall
  obtain ⟨-, hR, hC, hU, hT, hnd⟩ := planner_facts ρ plan obs p hp
  have hCobs : ObservedUID obs C := ⟨oC, hoC, hbC⟩
  have hpair : HasPairing plan obs := ⟨⟨C, hCobs, hCstale⟩, D, hD, hDnew⟩
  obtain ⟨-, hupd, hplan⟩ := (plan_spec ρ annKey plan obs config p hp).2 hpair
  have hCkey : C ∈ GoMap.keys p.Updates := (hU C).mpr ⟨⟨hCobs, hCstale⟩, D, hD, hDnew⟩
  obtain ⟨c, hc⟩ := GoMap.mem_keys_get? p.Updates C hCkey
  have hcD : c = D := hDonly c (hT C c hc).1 (hT C c hc).2
  subst hcD
  have hkeys1 : (GoMap.keys p.Updates).length = 1 := by
    have hle := nodup_all_eq_length (GoMap.keys p.Updates) C hnd
      (fun u hu => hConly u ((hU u).mp hu).1.1 ((hU u).mp hu).1.2)
    have hpos : 0 < (GoMap.keys p.Updates).length := List.length_pos_of_mem hCkey
    omega
  have hupdates : p.Updates = [(C, c)] := by
    unfold GoMap.keys at hkeys1
    rw [List.length_map] at hkeys1
    match hu : p.Updates, hkeys1 with
    | [(k, v)], _ =>
      rw [hu] at hCkey hc
      have hk : C = k := by simpa [GoMap.keys] using hCkey
      subst hk
      rw [GoMap.get?, if_pos rfl] at hc
      rw [Option.some.inj hc]
  have hcreate : createUIDs p = [] := by
    apply length_eq_zero_of_no_mem
    intro u hu
    exact hCstale (((hC u).mp ((mem_createUIDs p u).mp hu)).2 C hCobs)
  have hremove : removeUIDs p = [] := by
    apply length_eq_zero_of_no_mem
    intro u hu
    exact hDnew (((hR u).mp ((mem_removeUIDs p u).mp hu)).2 c hD)
  refine ⟨p, hp, hupdates, hcreate, hremove, hupd, hplan, ?_⟩
  intro out hout
  obtain ⟨msg, hmsg⟩ := hplan
  rw [hmsg] at hout
  cases hout

/-- C11, at the spec's scenario: desired `{A, D}`, observed `{A, C}`; the planner
holds the pairing `C -> D` and `Plan` panics. -/
theorem pairing_makes_plan_panic_witness :
    (∃ p, NewStorageSetPlanner RangeOrder.insertion (planOver ["A", "D"])
          [storageSetOn "ss-a" "A", storageSetOn "ss-c" "C"] = .ok p
      ∧ p.Updates = [("C", "D")]
      ∧ createUIDs p = [] ∧ removeUIDs p = []
      ∧ (∃ msg, p.update RangeOrder.insertion = .error (.panic msg))
      ∧ (∃ msg, p.Plan RangeOrder.insertion "plan-uid"
          ⟨.str "10G", .int 1, .str "csi", .str "sc"⟩ = .error (.panic msg))
      ∧ ∀ out, p.Plan RangeOrder.insertion "plan-uid"
          ⟨.str "10G", .int 1, .str "csi", .str "sc"⟩ ≠ .ok out)
    ∧ ∃ p, NewStorageSetPlanner RangeOrder.insertion (planOver ["A", "D"])
          [storageSetOn "ss-a" "A", storageSetOn "ss-c" "C"] = .ok p
        ∧ p.Plan RangeOrder.insertion "plan-uid" ⟨.str "10G", .int 1, .str "csi", .str "sc"⟩
          = .error (.panic "cannot deep copy map[string]string") := by
  have hobs : ∀ u, ObservedUID [storageSetOn "ss-a" "A", storageSetOn "ss-c" "C"] u
      ↔ u = "A" ∨ u = "C" := by
    intro u
    simp [ObservedUID, boundTo_storageSetOn]
  have hD : ∀ u, u ∈ desiredUIDs (planOver ["A", "D"]) ↔ u = "A" ∨ u = "D" := by
    intro u
    simp [desiredUIDs, planOver]
  refine ⟨pairing_makes_plan_panic RangeOrder.insertion "plan-uid" (planOver ["A", "D"])
      [storageSetOn "ss-a" "A", storageSetOn "ss-c" "C"]
      ⟨.str "10G", .int 1, .str "csi", .str "sc"⟩ "C" "D" (storageSetOn "ss-c" "C")
      ?_ ?_ rfl ?_ ?_ ?_ ?_ ?_, ⟨_, rfl, rfl⟩⟩
  · intro o ho
    simp only [List.mem_cons, List.mem_singleton, List.not_mem_nil, or_false] at ho
    rcases ho with rfl | rfl
    · exact ⟨"A", rfl⟩
    · exact ⟨"C", rfl⟩
  · simp
  · rw [hD]; decide
  · intro u hu hnd
    rw [hobs] at hu
    rw [hD] at hnd
    rcases hu with rfl | rfl
    · exact absurd (Or.inl rfl) hnd
    · rfl
  · rw [hD]; exact Or.inr rfl
  · rw [hobs]; decide
  · intro d hd hno
    rw [hD] at hd
    rw [hobs] at hno
    rcases hd with rfl | rfl
    · exact absurd (Or.inl rfl) hno
    · rfl
/-- C12: for desired nodes with pairwise distinct UIDs and no observed storage
set, the planner is returned and `Plan` returns, in some order, exactly one
newly built object per desired node, so as many objects as desired nodes;
the object of a node reads the node's UID and name at `spec.node.uid` and
`spec.node.name`, and the config's `MinCapacity`, `MinCount`,
`CSIAttacherName` and `StorageClassName` at `spec.disk.capacity`,
`spec.disk.count`, `spec.externalProvisioner.csiAttacherName` and
`spec.externalProvisioner.storageClassName`. -/
theorem pure_create (ρ : RangeOrder) (annKey : String) (plan : CStorClusterPlan)
    (config : CStorClusterConfig) (hdn : (desiredUIDs plan).Nodup) :
    ∃ p out, NewStorageSetPlanner ρ plan [] = .ok p ∧ p.Plan ρ annKey config = .ok out
      ∧ out.length = plan.Nodes.length
      ∧ out.Perm (plan.Nodes.map fun n =>
          some (StorageSetPlanner.newStorageSet annKey p config n.UID))
      ∧ ∀ n ∈ plan.Nodes,
          NestedString (StorageSetPlanner.newStorageSet annKey p config n.UID).Object
              ["spec", "node", "uid"] = .ok (some n.UID)
          ∧ NestedString (StorageSetPlanner.newStorageSet annKey p config n.UID).Object
              ["spec", "node", "name"] = .ok (some n.Name)
          ∧ NestedFieldNoCopy (StorageSetPlanner.newStorageSet annKey p config n.UID).Object
              ["spec", "disk", "capacity"] = .ok (some config.MinCapacity)
          ∧ NestedFieldNoCopy (StorageSetPlanner.newStorageSet annKey p config n.UID).Object
              ["spec", "disk", "count"] = .ok (some config.MinCount)
          ∧ NestedFieldNoCopy (StorageSetPlanner.newStorageSet annKey p config n.UID).Object
              ["spec", "externalProvisioner", "csiAttacherName"]
              = .ok (some config.CSIAttacherName)
          ∧ NestedFieldNoCopy (StorageSetPlanner.newStorageSet annKey p config n.UID).Object
              ["spec", "externalProvisioner", "storageClassName"]
              = .ok (some config.StorageClassName) := by
  have hall : ∀ o ∈ ([] : List Unstructured), ∃ u, BoundTo o u := by
    intro o ho; cases ho
  have hnobs : ∀ u, ¬ ObservedUID [] u := by
    rintro u ⟨o, ho, _⟩; cases ho
  obtain ⟨p, hp, -⟩ := planner_spec ρ plan [] hall
  obtain ⟨hN, -, hC, hU, -, -⟩ := planner_facts ρ plan [] p hp
  obtain ⟨-, -, -, hnames, -, hndC, -⟩ := planner_extra ρ plan [] p hp
  have hnopair : ¬ HasPairing plan [] := fun h => h.1.elim fun u hu => hnobs u hu.1
  obtain ⟨-, -, hplan⟩ := (plan_spec ρ annKey plan [] config p hp).1 hnopair
  have hnoop : p.noop ρ = [] := by
    have hnil : noopUIDs p = [] := by
      apply length_eq_zero_of_no_mem
      intro u hu
      exact hnobs u ((hN u).mp ((mem_noopUIDs p u).mp hu)).2
    have := noop_perm ρ p
    rw [hnil] at this
    exact List.perm_nil.mp this
  rw [hnoop, List.nil_append] at hplan
  have hmem : ∀ u, u ∈ createUIDs p ↔ u ∈ desiredUIDs plan := by
    intro u
    rw [mem_createUIDs, hC u]
    exact ⟨fun h => h.1.1, fun h => ⟨⟨h, hnobs u⟩, fun o ho => absurd ho (hnobs o)⟩⟩
  have hperm : (createUIDs p).Perm (desiredUIDs plan) :=
    (List.perm_ext_iff_of_nodup (createUIDs_nodup p hndC) hdn).mpr hmem
  have hout : (p.create ρ annKey config).Perm (plan.Nodes.map fun n =>
      some (StorageSetPlanner.newStorageSet annKey p config n.UID)) := by
    refine (create_perm ρ annKey p config).trans ?_
    have := hperm.map (fun uid => some (StorageSetPlanner.newStorageSet annKey p config uid))
    unfold desiredUIDs at this
    rw [List.map_map] at this
    exact this
  refine ⟨p, _, hp, hplan, ?_, hout, ?_⟩
  · rw [hout.length_eq, List.length_map]
  · intro n hn
    obtain ⟨r1, r2, r3, r4, r5, r6⟩ := newStorageSet_reads annKey p config n.UID
    refine ⟨r1, ?_, r3, r4, r5, r6⟩
    rw [r2]
    unfold GoMap.getD
    rw [hnames hdn n hn]
    rfl

/-- C12, at the spec's scenario: desired `{A, B}`, nothing observed; `Plan` returns
two new objects. -/
theorem pure_create_witness :
    (∃ p out, NewStorageSetPlanner RangeOrder.insertion (planOver ["A", "B"]) [] = .ok p
      ∧ p.Plan RangeOrder.insertion "plan-uid" ⟨.str "10G", .int 3, .str "csi", .str "sc"⟩
          = .ok out
      ∧ out.length = (planOver ["A", "B"]).Nodes.length
      ∧ out.Perm ((planOver ["A", "B"]).Nodes.map fun n =>
          some (StorageSetPlanner.newStorageSet "plan-uid" p
            ⟨.str "10G", .int 3, .str "csi", .str "sc"⟩ n.UID))
      ∧ ∀ n ∈ (planOver ["A", "B"]).Nodes,
          NestedString (StorageSetPlanner.newStorageSet "plan-uid" p
              ⟨.str "10G", .int 3, .str "csi", .str "sc"⟩ n.UID).Object
              ["spec", "node", "uid"] = .ok (some n.UID)
          ∧ NestedString (StorageSetPlanner.newStorageSet "plan-uid" p
              ⟨.str "10G", .int 3, .str "csi", .str "sc"⟩ n.UID).Object
              ["spec", "node", "name"] = .ok (some n.Name)
          ∧ NestedFieldNoCopy (StorageSetPlanner.newStorageSet "plan-uid" p
              ⟨.str "10G", .int 3, .str "csi", .str "sc"⟩ n.UID).Object
              ["spec", "disk", "capacity"] = .ok (some (.str "10G"))
          ∧ NestedFieldNoCopy (StorageSetPlanner.newStorageSet "plan-uid" p
              ⟨.str "10G", .int 3, .str "csi", .str "sc"⟩ n.UID).Object
              ["spec", "disk", "count"] = .ok (some (.int 3))
          ∧ NestedFieldNoCopy (StorageSetPlanner.newStorageSet "plan-uid" p
              ⟨.str "10G", .int 3, .str "csi", .str "sc"⟩ n.UID).Object
              ["spec", "externalProvisioner", "csiAttacherName"] = .ok (some (.str "csi"))
          ∧ NestedFieldNoCopy (StorageSetPlanner.newStorageSet "plan-uid" p
              ⟨.str "10G", .int 3, .str "csi", .str "sc"⟩ n.UID).Object
              ["spec", "externalProvisioner", "storageClassName"] = .ok (some (.str "sc")))
    ∧ ∃ p out, NewStorageSetPlanner RangeOrder.insertion (planOver ["A", "B"]) [] = .ok p
        ∧ p.Plan RangeOrder.insertion "plan-uid" ⟨.str "10G", .int 3, .str "csi", .str "sc"⟩
          = .ok out
        ∧ out.map (fun o => o.bind boundNodeUID) = [some "A", some "B"] :=
  ⟨pure_create RangeOrder.insertion "plan-uid" (planOver ["A", "B"])
      ⟨.str "10G", .int 3, .str "csi", .str "sc"⟩ (by simp [desiredUIDs, planOver]),
    ⟨_, _, rfl, rfl, rfl⟩⟩

/-- C13: for desired nodes with pairwise distinct UIDs, all observed, and
observed storage sets that carry pairwise distinct node UIDs: `Plan` creates
nothing and updates nothing, and returns exactly the observed storage sets
bound to desired nodes, unchanged and one per desired node; an observed
storage set whose node UID is not desired is not in the output. -/
theorem pure_removal (ρ : RangeOrder) (annKey : String) (plan : CStorClusterPlan)
    (obs : List Unstructured) (config : CStorClusterConfig)
    (hall : ∀ o ∈ obs, ∃ u, BoundTo o u)
    (hdn : (desiredUIDs plan).Nodup)
    (hdist : ∀ o1 ∈ obs, ∀ o2 ∈ obs, ∀ u, BoundTo o1 u → BoundTo o2 u → o1 = o2)
    (hcov : ∀ d ∈ desiredUIDs plan, ObservedUID obs d) :
    ∃ p out, NewStorageSetPlanner ρ plan obs = .ok p ∧ p.Plan ρ annKey config = .ok out
      ∧ p.create ρ annKey config = [] ∧ p.update ρ = .ok []
      ∧ out.length = plan.Nodes.length
      ∧ (∀ x ∈ out, ∃ o ∈ obs, ∃ u ∈ desiredUIDs plan, x = some o ∧ BoundTo o u)
      ∧ (∀ u ∈ desiredUIDs plan, ∀ o ∈ obs, BoundTo o u → some o ∈ out)
      ∧ (∀ o ∈ obs, ∀ u, BoundTo o u → u ∉ desiredUIDs plan → some o ∉ out) := by
  obtain ⟨p, hp, -⟩ := planner_spec ρ plan obs hall
  obtain ⟨hN, -, hC, hU, -, -⟩ := planner_facts ρ plan obs p hp
  obtain ⟨-, o2, -, -, hndN, -, -⟩ := planner_extra ρ plan obs p hp
  have hnopair : ¬ HasPairing plan obs := fun h => h.2.elim fun d hd => hd.2 (hcov d hd.1)
  obtain ⟨-, hups, hplan⟩ := (plan_spec ρ annKey plan obs config p hp).1 hnopair
  have hcreate : p.create ρ annKey config = [] := by
    have hnil : createUIDs p = [] := by
      apply length_eq_zero_of_no_mem
      intro u hu
      exact ((hC u).mp ((mem_createUIDs p u).mp hu)).1.2 (hcov u ((hC u).mp
        ((mem_createUIDs p u).mp hu)).1.1)
    have := create_perm ρ annKey p config
    rw [hnil] at this
    exact List.perm_nil.mp this
  rw [hcreate, List.append_nil] at hplan
  have hmem : ∀ u, u ∈ noopUIDs p ↔ u ∈ desiredUIDs plan := by
    intro u
    rw [mem_noopUIDs, hN u]
    exact ⟨fun h => h.1, fun h => ⟨h, hcov u h⟩⟩
  have hperm : (noopUIDs p).Perm (desiredUIDs plan) :=
    (List.perm_ext_iff_of_nodup (noopUIDs_nodup p hndN) hdn).mpr hmem
  have hin : ∀ x ∈ p.noop ρ, ∃ o ∈ obs, ∃ u ∈ desiredUIDs plan, x = some o ∧ BoundTo o u := by
    intro x hx
    obtain ⟨u, hu, rfl⟩ := (mem_noop ρ p x).mp hx
    obtain ⟨o, ho, hb, hg⟩ := o2 u (hcov u ((hmem u).mp hu))
    exact ⟨o, ho, u, (hmem u).mp hu, hg, hb⟩
  refine ⟨p, p.noop ρ, hp, hplan, hcreate, hups, ?_, hin, ?_, ?_⟩
  · rw [(noop_perm ρ p).length_eq, List.length_map, hperm.length_eq]
    unfold desiredUIDs
    rw [List.length_map]
  · intro u hu o ho hb
    obtain ⟨o1, ho1, hb1, hg1⟩ := o2 u ⟨o, ho, hb⟩
    rw [hdist o ho o1 ho1 u hb hb1]
    exact (mem_noop ρ p _).mpr ⟨u, (hmem u).mpr hu, hg1.symm⟩
  · intro o _ u hb hnd hmemo
    obtain ⟨o1, _, u1, hu1, h1, hb1⟩ := hin _ hmemo
    rw [← Option.some.inj h1] at hb1
    rw [boundTo_unique o u u1 hb hb1] at hnd
    exact hnd hu1

/-- C13, at the spec's scenario: desired `{A}`, observed `{A, B}`; `Plan` returns
the storage set on `A` alone. -/
theorem pure_removal_witness :
    (∃ p out, NewStorageSetPlanner RangeOrder.insertion (planOver ["A"])
          [storageSetOn "ss-a" "A", storageSetOn "ss-b" "B"] = .ok p
      ∧ p.Plan RangeOrder.insertion "plan-uid" ⟨.str "10G", .int 1, .str "csi", .str "sc"⟩
          = .ok out
      ∧ p.create RangeOrder.insertion "plan-uid" ⟨.str "10G", .int 1, .str "csi", .str "sc"⟩ = []
      ∧ p.update RangeOrder.insertion = .ok []
      ∧ out.length = (planOver ["A"]).Nodes.length
      ∧ (∀ x ∈ out, ∃ o ∈ [storageSetOn "ss-a" "A", storageSetOn "ss-b" "B"],
          ∃ u ∈ desiredUIDs (planOver ["A"]), x = some o ∧ BoundTo o u)
      ∧ (∀ u ∈ desiredUIDs (planOver ["A"]),
          ∀ o ∈ [storageSetOn "ss-a" "A", storageSetOn "ss-b" "B"], BoundTo o u → some o ∈ out)
      ∧ (∀ o ∈ [storageSetOn "ss-a" "A", storageSetOn "ss-b" "B"], ∀ u, BoundTo o u →
          u ∉ desiredUIDs (planOver ["A"]) → some o ∉ out))
    ∧ ∃ p, NewStorageSetPlanner RangeOrder.insertion (planOver ["A"])
          [storageSetOn "ss-a" "A", storageSetOn "ss-b" "B"] = .ok p
        ∧ p.Plan RangeOrder.insertion "plan-uid" ⟨.str "10G", .int 1, .str "csi", .str "sc"⟩
          = .ok [some (storageSetOn "ss-a" "A")] :=
  ⟨pure_removal RangeOrder.insertion "plan-uid" (planOver ["A"])
      [storageSetOn "ss-a" "A", storageSetOn "ss-b" "B"]
      ⟨.str "10G", .int 1, .str "csi", .str "sc"⟩
      (by
        intro o ho
        simp only [List.mem_cons, List.mem_singleton, List.not_mem_nil, or_false] at ho
        rcases ho with rfl | rfl
        · exact ⟨"A", rfl⟩
        · exact ⟨"B", rfl⟩)
      (by simp [desiredUIDs, planOver])
      (by
        intro o1 ho1 o2 ho2 u h1 h2
        simp only [List.mem_cons, List.mem_singleton, List.not_mem_nil, or_false] at ho1 ho2
        rcases ho1 with rfl | rfl <;> rcases ho2 with rfl | rfl
        · rfl
        · rw [boundTo_storageSetOn] at h1 h2
          rw [h1] at h2
          exact absurd h2 (by decide)
        · rw [boundTo_storageSetOn] at h1 h2
          rw [h1] at h2
          exact absurd h2 (by decide)
        · rfl)
      (by
        intro d hd
        simp only [desiredUIDs, planOver, List.map_cons, List.map_nil, List.mem_singleton] at hd
        subst hd
        exact ⟨storageSetOn "ss-a" "A", List.mem_cons_self _ _, rfl⟩),
    ⟨_, rfl, rfl⟩⟩


/-- C14, as stated, fails: with the desired node `A` and two observed storage
sets bound to `A`, the planner keeps one object per node UID, the one
observed last; `Plan` returns `ss-2` alone, and the observed resource `ss-1`,
bound to the desired node `A`, is not in the output. -/
theorem noop_keeps_last_observed :
    ∃ p, NewStorageSetPlanner RangeOrder.insertion (planOver ["A"])
          [storageSetOn "ss-1" "A", storageSetOn "ss-2" "A"] = .ok p
      ∧ p.Plan RangeOrder.insertion "plan-uid" ⟨.str "10G", .int 1, .str "csi", .str "sc"⟩
          = .ok [some (storageSetOn "ss-2" "A")]
      ∧ BoundTo (storageSetOn "ss-1" "A") "A"
      ∧ some (storageSetOn "ss-1" "A") ∉ [some (storageSetOn "ss-2" "A")] := by
  refine ⟨_, rfl, rfl, rfl, ?_⟩
  intro h
  simp only [List.mem_singleton, Option.some.injEq, storageSetOn, Unstructured.mk.injEq,
    List.cons.injEq, Prod.mk.injEq, Value.map.injEq, Value.str.injEq] at h
  exact absurd h.1.2.1.2 (by decide)

/-- C14, amended: when every observed storage set carries `spec.node.uid`, the
planner is returned.  For every desired node whose UID is the bound node UID
of an observed storage set, that UID is marked noop and the output of `noop`
holds, unmodified, an observed storage set bound to that UID: the one
`ObservedStorageSetObjs` holds for it, which is that storage set itself when
no other observed storage set is bound to the same UID.  When there is
nothing to pair, nothing is updated and `Plan` returns the noop objects
followed by the created objects. -/
theorem noop_pass_through (ρ : RangeOrder) (annKey : String) (plan : CStorClusterPlan)
    (obs : List Unstructured) (config : CStorClusterConfig)
    (hall : ∀ o ∈ obs, ∃ u, BoundTo o u) :
    ∃ p, NewStorageSetPlanner ρ plan obs = .ok p
      ∧ (∀ d ∈ desiredUIDs plan, ∀ o ∈ obs, BoundTo o d →
          d ∈ noopUIDs p
          ∧ (∃ o1 ∈ obs, BoundTo o1 d ∧ GoMap.get? p.ObservedStorageSetObjs d = some o1
              ∧ some o1 ∈ p.noop ρ)
          ∧ ((∀ o2 ∈ obs, BoundTo o2 d → o2 = o) → some o ∈ p.noop ρ))
      ∧ (¬ HasPairing plan obs →
          p.update ρ = .ok []
          ∧ p.Plan ρ annKey config = .ok (p.noop ρ ++ p.create ρ annKey config)) := by
  obtain ⟨p, hp, -⟩ := planner_spec ρ plan obs hall
  obtain ⟨hN, -⟩ := planner_facts ρ plan obs p hp
  obtain ⟨-, o2, -⟩ := planner_extra ρ plan obs p hp
  refine ⟨p, hp, ?_, fun h => ((plan_spec ρ annKey plan obs config p hp).1 h).2⟩
  intro d hd o ho hb
  have hnoop : d ∈ noopUIDs p := (mem_noopUIDs p d).mpr ((hN d).mpr ⟨hd, o, ho, hb⟩)
  obtain ⟨o1, ho1, hb1, hg1⟩ := o2 d ⟨o, ho, hb⟩
  have hin : some o1 ∈ p.noop ρ := (mem_noop ρ p _).mpr ⟨d, hnoop, hg1.symm⟩
  refine ⟨hnoop, ⟨o1, ho1, hb1, hg1, hin⟩, ?_⟩
  intro honly
  rw [← honly o1 ho1 hb1]
  exact hin

/-- C14, amended, at desired nodes `A`, `B` and one observed storage set on `A`:
`Plan` returns the observed storage set, then the new one for `B`. -/
theorem noop_pass_through_witness :
    (∃ p, NewStorageSetPlanner RangeOrder.insertion (planOver ["A", "B"])
          [storageSetOn "ss-a" "A"] = .ok p
      ∧ (∀ d ∈ desiredUIDs (planOver ["A", "B"]),
          ∀ o ∈ [storageSetOn "ss-a" "A"], BoundTo o d →
          d ∈ noopUIDs p
          ∧ (∃ o1 ∈ [storageSetOn "ss-a" "A"], BoundTo o1 d
              ∧ GoMap.get? p.ObservedStorageSetObjs d = some o1
              ∧ some o1 ∈ p.noop RangeOrder.insertion)
          ∧ ((∀ o2 ∈ [storageSetOn "ss-a" "A"], BoundTo o2 d → o2 = o) →
              some o ∈ p.noop RangeOrder.insertion))
      ∧ (¬ HasPairing (planOver ["A", "B"]) [storageSetOn "ss-a" "A"] →
          p.update RangeOrder.insertion = .ok []
          ∧ p.Plan RangeOrder.insertion "plan-uid" ⟨.str "10G", .int 1, .str "csi", .str "sc"⟩
            = .ok (p.noop RangeOrder.insertion
                ++ p.create RangeOrder.insertion "plan-uid"
                    ⟨.str "10G", .int 1, .str "csi", .str "sc"⟩)))
    ∧ ¬ HasPairing (planOver ["A", "B"]) [storageSetOn "ss-a" "A"]
    ∧ ∃ p out, NewStorageSetPlanner RangeOrder.insertion (planOver ["A", "B"])
          [storageSetOn "ss-a" "A"] = .ok p
        ∧ p.Plan RangeOrder.insertion "plan-uid" ⟨.str "10G", .int 1, .str "csi", .str "sc"⟩
          = .ok (some (storageSetOn "ss-a" "A") :: out)
        ∧ out.map (fun o => o.bind boundNodeUID) = [some "B"] :=
  ⟨noop_pass_through RangeOrder.insertion "plan-uid" (planOver ["A", "B"])
      [storageSetOn "ss-a" "A"] ⟨.str "10G", .int 1, .str "csi", .str "sc"⟩
      (by
        intro o ho
        rw [List.mem_singleton.mp ho]
        exact ⟨"A", rfl⟩),
    (by
      rintro ⟨⟨u, ⟨o, ho, hb⟩, hnd⟩, -⟩
      rw [List.mem_singleton.mp ho, boundTo_storageSetOn] at hb
      subst hb
      exact hnd (by simp [desiredUIDs, planOver])),
    ⟨_, _, rfl, rfl, rfl⟩⟩

/-- C15: when every observed storage set carries `spec.node.uid`, the planner is
returned, and every resource of every list `Plan` returns is bound
(`spec.node.uid`) to a UID of the desired node list, so to no node UID that
is observed and not desired.  `Plan` returns a list exactly when there is
nothing to pair; when there is, it panics and returns no list. -/
theorem plan_output_bound_to_desired (ρ : RangeOrder) (annKey : String)
    (plan : CStorClusterPlan) (obs : List Unstructured) (config : CStorClusterConfig)
    (hall : ∀ o ∈ obs, ∃ u, BoundTo o u) :
    ∃ p, NewStorageSetPlanner ρ plan obs = .ok p
      ∧ (∀ out, p.Plan ρ annKey config = .ok out →
          (∀ x ∈ out, ∃ o u, x = some o ∧ BoundTo o u ∧ u ∈ desiredUIDs plan)
          ∧ (∀ o u, some o ∈ out → BoundTo o u →
              ¬ (ObservedUID obs u ∧ u ∉ desiredUIDs plan)))
      ∧ (¬ HasPairing plan obs → ∃ out, p.Plan ρ annKey config = .ok out)
      ∧ (HasPairing plan obs → ∃ msg, p.Plan ρ annKey config = .error (.panic msg)) := by
  obtain ⟨p, hp, -⟩ := planner_spec ρ plan obs hall
  obtain ⟨hno, hyes⟩ := plan_spec ρ annKey plan obs config p hp
  refine ⟨p, hp, ?_, fun h => ⟨_, (hno h).2.2⟩, fun h => (hyes h).2.2⟩
  intro out hout
  by_cases hpair : HasPairing plan obs
  · obtain ⟨msg, hmsg⟩ := (hyes hpair).2.2
    rw [hmsg] at hout
    cases hout
  · rw [(hno hpair).2.2] at hout
    rw [← Except.ok.inj hout]
    have key := (noop_create_bound ρ annKey plan obs config p hp).1
    refine ⟨key, ?_⟩
    intro o u ho hbu hnot
    obtain ⟨o1, u1, h1, h2, h3⟩ := key _ ho
    rw [← Option.some.inj h1] at h2
    rw [boundTo_unique o u u1 hbu h2] at hnot
    exact hnot.2 h3

/-- C15, at the desired node `A` and observed storage sets on `A`, `C` and `E`:
`Plan` returns the storage set on `A` alone. -/
theorem plan_output_bound_to_desired_witness :
    (∃ p, NewStorageSetPlanner RangeOrder.reversed (planOver ["A"])
          [storageSetOn "ss-a" "A", storageSetOn "ss-c" "C", storageSetOn "ss-e" "E"] = .ok p
      ∧ (∀ out, p.Plan RangeOrder.reversed "plan-uid"
            ⟨.str "10G", .int 1, .str "csi", .str "sc"⟩ = .ok out →
          (∀ x ∈ out, ∃ o u, x = some o ∧ BoundTo o u ∧ u ∈ desiredUIDs (planOver ["A"]))
          ∧ (∀ o u, some o ∈ out → BoundTo o u →
              ¬ (ObservedUID
                  [storageSetOn "ss-a" "A", storageSetOn "ss-c" "C", storageSetOn "ss-e" "E"] u
                ∧ u ∉ desiredUIDs (planOver ["A"]))))
      ∧ (¬ HasPairing (planOver ["A"])
            [storageSetOn "ss-a" "A", storageSetOn "ss-c" "C", storageSetOn "ss-e" "E"] →
          ∃ out, p.Plan RangeOrder.reversed "plan-uid"
            ⟨.str "10G", .int 1, .str "csi", .str "sc"⟩ = .ok out)
      ∧ (HasPairing (planOver ["A"])
            [storageSetOn "ss-a" "A", storageSetOn "ss-c" "C", storageSetOn "ss-e" "E"] →
          ∃ msg, p.Plan RangeOrder.reversed "plan-uid"
            ⟨.str "10G", .int 1, .str "csi", .str "sc"⟩ = .error (.panic msg)))
    ∧ ∃ p, NewStorageSetPlanner RangeOrder.reversed (planOver ["A"])
          [storageSetOn "ss-a" "A", storageSetOn "ss-c" "C", storageSetOn "ss-e" "E"] = .ok p
        ∧ p.Plan RangeOrder.reversed "plan-uid" ⟨.str "10G", .int 1, .str "csi", .str "sc"⟩
          = .ok [some (storageSetOn "ss-a" "A")] :=
  ⟨plan_output_bound_to_desired RangeOrder.reversed "plan-uid" (planOver ["A"])
      [storageSetOn "ss-a" "A", storageSetOn "ss-c" "C", storageSetOn "ss-e" "E"]
      ⟨.str "10G", .int 1, .str "csi", .str "sc"⟩
      (by
        intro o ho
        simp only [List.mem_cons, List.mem_singleton, List.not_mem_nil, or_false] at ho
        rcases ho with rfl | rfl | rfl
        · exact ⟨"A", rfl⟩
        · exact ⟨"C", rfl⟩
        · exact ⟨"E", rfl⟩),
    ⟨_, rfl, rfl⟩⟩

/-- C16 fails in the code: on a planner that `NewStorageSetPlanner` returned, for
every pairing `oldNode -> newNode` of `Updates`, `ObservedStorageSetObjs`
holds for `oldNode` an observed storage set bound to it, and the body of the
update loop emits no resource for it: it panics, and so does `update`.  When
the observed storage set holds JSON values only, its deep copy is taken and
the panic is that of `unstructured.SetNestedField`, which cannot copy the
`map[string]string` it is given for `spec.node` (reconciler.go:397-401). -/
theorem update_never_emits (ρ : RangeOrder) (plan : CStorClusterPlan)
    (obs : List Unstructured) (p : StorageSetPlanner) (oldNode newNode : String)
    (hp : NewStorageSetPlanner ρ plan obs = .ok p)
    (hpair : GoMap.get? p.Updates oldNode = some newNode) :
    ∃ o, o ∈ obs ∧ BoundTo o oldNode
      ∧ GoMap.get? p.ObservedStorageSetObjs oldNode = some o
      ∧ (∃ msg, StorageSetPlanner.updateOne p oldNode newNode = .error (.panic msg))
      ∧ (∀ copy, o.DeepCopy = .ok copy →
          copy = o
          ∧ StorageSetPlanner.updateOne p oldNode newNode
            = .error (.panic "cannot deep copy map[string]string"))
      ∧ (∃ msg, p.update ρ = .error (.panic msg))
      ∧ ∀ ups, p.update ρ ≠ .ok ups := by
  obtain ⟨-, -, -, hU, -, -⟩ := planner_facts ρ plan obs p hp
  obtain ⟨-, o2, -⟩ := planner_extra ρ plan obs p hp
  have hobs := ((hU oldNode).mp (GoMap.get?_mem_keys _ _ _ hpair)).1.1
  obtain ⟨o, ho, hb, hg⟩ := o2 oldNode hobs
  have hne : p.Updates ≠ [] := by
    intro hnil
    rw [hnil] at hpair
    cases hpair
  have hupd := update_panics ρ p hne
  refine ⟨o, ho, hb, hg, updateOne_panics p oldNode newNode, ?_, hupd, ?_⟩
  · intro copy hcopy
    constructor
    · unfold Unstructured.DeepCopy at hcopy
      cases hc : deepCopyFields o.Object with
      | error e => rw [hc] at hcopy; cases hcopy
      | ok c =>
        rw [hc] at hcopy
        rw [← Except.ok.inj hcopy, deepCopyFields_ok _ c hc]
    · unfold StorageSetPlanner.updateOne
      rw [hg]
      simp only
      rw [hcopy]
      rfl
  · intro ups hups
    obtain ⟨msg, hmsg⟩ := hupd
    rw [hmsg] at hups
    cases hups

/-- C16, at desired nodes `A`, `D`, observed storage sets on `A` and `C`, and the
pairing `C -> D`: the deep copy of the storage set on `C` is taken, and the
write of `spec.node` panics. -/
theorem update_never_emits_witness :
    ∃ p, NewStorageSetPlanner RangeOrder.insertion (planOver ["A", "D"])
          [storageSetOn "ss-a" "A", storageSetOn "ss-c" "C"] = .ok p
      ∧ GoMap.get? p.Updates "C" = some "D"
      ∧ (∃ o, o ∈ [storageSetOn "ss-a" "A", storageSetOn "ss-c" "C"] ∧ BoundTo o "C"
          ∧ GoMap.get? p.ObservedStorageSetObjs "C" = some o
          ∧ (∃ msg, StorageSetPlanner.updateOne p "C" "D" = .error (.panic msg))
          ∧ (∀ copy, o.DeepCopy = .ok copy →
              copy = o
              ∧ StorageSetPlanner.updateOne p "C" "D"
                = .error (.panic "cannot deep copy map[string]string"))
          ∧ (∃ msg, p.update RangeOrder.insertion = .error (.panic msg))
          ∧ ∀ ups, p.update RangeOrder.insertion ≠ .ok ups)
      ∧ (storageSetOn "ss-c" "C").DeepCopy = .ok (storageSetOn "ss-c" "C")
      ∧ StorageSetPlanner.updateOne p "C" "D"
        = .error (.panic "cannot deep copy map[string]string")
      ∧ p.update RangeOrder.insertion
        = .error (.panic "cannot deep copy map[string]string") :=
  ⟨_, rfl, rfl,
    update_never_emits RangeOrder.insertion (planOver ["A", "D"])
      [storageSetOn "ss-a" "A", storageSetOn "ss-c" "C"] _ "C" "D" rfl rfl,
    rfl, rfl, rfl⟩
/-- C17: `NewStorageSetPlanner` fails exactly when some observed storage set
carries no string at `spec.node.uid` (nothing found there, or a value or a
level of the wrong type); the failure is a returned error, and no planner is
returned.  When every observed storage set carries one, a planner is returned,
for every desired node list and every iteration order. -/
theorem NewStorageSetPlanner_fails_iff (ρ : RangeOrder) (plan : CStorClusterPlan)
    (obs : List Unstructured) :
    ((∃ e, NewStorageSetPlanner ρ plan obs = .error e) ↔ ∃ o ∈ obs, ∀ u, ¬ BoundTo o u)
    ∧ (∀ e, NewStorageSetPlanner ρ plan obs = .error e → ∃ msg, e = .error msg)
    ∧ ((∃ p, NewStorageSetPlanner ρ plan obs = .ok p) ↔ ∀ o ∈ obs, ∃ u, BoundTo o u) := by
  have hok : (∀ o ∈ obs, ∃ u, BoundTo o u) → ∃ p, NewStorageSetPlanner ρ plan obs = .ok p := by
    intro hall
    obtain ⟨p, hp, -⟩ := planner_spec ρ plan obs hall
    exact ⟨p, hp⟩
  have herr : (∃ o ∈ obs, ∀ u, ¬ BoundTo o u) →
      ∃ msg, NewStorageSetPlanner ρ plan obs = .error (.error msg) := by
    intro h
    obtain ⟨msg, hmsg⟩ := observeAll_error obs (emptyPlanner plan) h
    exact ⟨msg, by rw [NewStorageSetPlanner, hmsg]⟩
  have hcases : (∀ o ∈ obs, ∃ u, BoundTo o u) ∨ ∃ o ∈ obs, ∀ u, ¬ BoundTo o u := by
    by_cases h : ∀ o ∈ obs, ∃ u, BoundTo o u
    · exact Or.inl h
    · right
      push_neg at h
      exact h
  refine ⟨⟨?_, ?_⟩, ?_, ⟨?_, hok⟩⟩
  · rintro ⟨e, he⟩
    rcases hcases with hall | hbad
    · obtain ⟨p, hp⟩ := hok hall
      rw [hp] at he
      cases he
    · exact hbad
  · intro h
    obtain ⟨msg, hmsg⟩ := herr h
    exact ⟨_, hmsg⟩
  · intro e he
    rcases hcases with hall | hbad
    · obtain ⟨p, hp⟩ := hok hall
      rw [hp] at he
      cases he
    · obtain ⟨msg, hmsg⟩ := herr hbad
      rw [hmsg] at he
      exact ⟨msg, (Except.error.inj he).symm⟩
  · rintro ⟨p, hp⟩
    rcases hcases with hall | hbad
    · exact hall
    · obtain ⟨msg, hmsg⟩ := herr hbad
      rw [hmsg] at hp
      cases hp

/-- C17, at three observed lists: a storage set without `spec.node.uid`, one
whose `spec.node.uid` is a number, and one bound to node `A`. -/
theorem NewStorageSetPlanner_fails_iff_examples :
    NewStorageSetPlanner RangeOrder.insertion (planOver ["A"])
        [storageSetOn "ss-a" "A", ⟨[("metadata", .map [("name", .str "ss-x")])]⟩]
      = .error (.error "Invalid StorageSet  ss-x: Missing spec.node.uid")
    ∧ (∃ e, NewStorageSetPlanner RangeOrder.insertion (planOver ["A"])
        [⟨[("spec", .map [("node", .map [("uid", .int 7)])])]⟩] = .error e)
    ∧ (∃ p, NewStorageSetPlanner RangeOrder.insertion (planOver ["A"])
        [storageSetOn "ss-a" "A"] = .ok p) :=
  ⟨rfl,
    (NewStorageSetPlanner_fails_iff RangeOrder.insertion (planOver ["A"])
      [⟨[("spec", .map [("node", .map [("uid", .int 7)])])]⟩]).1.mpr
      ⟨_, List.mem_singleton.mpr rfl, fun u h => by cases h⟩,
    (NewStorageSetPlanner_fails_iff RangeOrder.insertion (planOver ["A"])
      [storageSetOn "ss-a" "A"]).2.2.mpr
      (fun o ho => by rw [List.mem_singleton.mp ho]; exact ⟨"A", rfl⟩)⟩


/-- C18, as stated, fails: for a watched resource whose `status.conditions` holds
a `map[string]string`, the merge panics in the library's deep copy and so does
`handle`; nothing is written to the response, `SkipReconcile` included. -/
theorem handle_panics_on_non_JSON_condition :
    reconcileErrHandler.handle RangeOrder.insertion
        (fun err => [("type", "ReconcileError"), ("reason", err)]) (.str "Error")
        ⟨conditionsObj [.strMap [("type", "Online")]], ⟨[], none, false⟩⟩
        "Missing CStorClusterConfig attachment"
      = .error (.panic "cannot deep copy map[string]string") :=
  rfl

/-- C18, amended: for every handler and every error, `handle` follows the merge of
the error condition into the watched resource.  When the merge returns a
list, the handler is returned with `SkipReconcile` true and `Status` holding
`phase` (the error phase) and `conditions` (the merged list); when the merge
returns an error, with `SkipReconcile` true and a nil `Status`; in both cases
the attachments and the watched resource are as before.  `handle` fails only
when the merge panics, and the merge does not panic over a watched resource
that holds JSON values only: there `handle` returns, with `SkipReconcile`
true. -/
theorem handle_sets_response (ρ : RangeOrder) (makeErrCond : String → GoMap String)
    (phaseError : Value) (h : reconcileErrHandler) (err : String) :
    (∀ conds, MergeStatusConditions ρ h.clusterPlan (makeErrCond err) = .ok conds →
        ∃ h1, reconcileErrHandler.handle ρ makeErrCond phaseError h err = .ok h1
          ∧ h1.hookResponse.SkipReconcile = true
          ∧ h1.hookResponse.Status
            = some [("phase", phaseError), ("conditions", .slice conds)]
          ∧ h1.hookResponse.Attachments = h.hookResponse.Attachments
          ∧ h1.clusterPlan = h.clusterPlan)
    ∧ (∀ msg, MergeStatusConditions ρ h.clusterPlan (makeErrCond err) = .error (.error msg) →
        ∃ h1, reconcileErrHandler.handle ρ makeErrCond phaseError h err = .ok h1
          ∧ h1.hookResponse.SkipReconcile = true
          ∧ h1.hookResponse.Status = none
          ∧ h1.hookResponse.Attachments = h.hookResponse.Attachments
          ∧ h1.clusterPlan = h.clusterPlan)
    ∧ (∀ msg, MergeStatusConditions ρ h.clusterPlan (makeErrCond err) = .error (.panic msg) →
        reconcileErrHandler.handle ρ makeErrCond phaseError h err = .error (.panic msg))
    ∧ ((∃ c, deepCopyFields h.clusterPlan.Object = .ok c) →
        ∃ h1, reconcileErrHandler.handle ρ makeErrCond phaseError h err = .ok h1
          ∧ h1.hookResponse.SkipReconcile = true) := by
  have hok : ∀ conds, MergeStatusConditions ρ h.clusterPlan (makeErrCond err) = .ok conds →
      ∃ h1, reconcileErrHandler.handle ρ makeErrCond phaseError h err = .ok h1
        ∧ h1.hookResponse.SkipReconcile = true
        ∧ h1.hookResponse.Status
          = some [("phase", phaseError), ("conditions", .slice conds)]
        ∧ h1.hookResponse.Attachments = h.hookResponse.Attachments
        ∧ h1.clusterPlan = h.clusterPlan := by
    intro conds hm
    refine ⟨{ h with
        hookResponse :=
          { h.hookResponse with
            Status := some [("phase", phaseError), ("conditions", .slice conds)]
            SkipReconcile := true } }, ?_, rfl, rfl, rfl, rfl⟩
    unfold reconcileErrHandler.handle
    rw [hm]
    rfl
  have herr : ∀ msg,
      MergeStatusConditions ρ h.clusterPlan (makeErrCond err) = .error (.error msg) →
      ∃ h1, reconcileErrHandler.handle ρ makeErrCond phaseError h err = .ok h1
        ∧ h1.hookResponse.SkipReconcile = true
        ∧ h1.hookResponse.Status = none
        ∧ h1.hookResponse.Attachments = h.hookResponse.Attachments
        ∧ h1.clusterPlan = h.clusterPlan := by
    intro msg hm
    refine ⟨{ h with hookResponse := { h.hookResponse with Status := none, SkipReconcile := true } },
      ?_, rfl, rfl, rfl, rfl⟩
    unfold reconcileErrHandler.handle
    rw [hm]
  refine ⟨hok, herr, ?_, ?_⟩
  · intro msg hm
    unfold reconcileErrHandler.handle
    rw [hm]
  · intro hjson
    cases hm : MergeStatusConditions ρ h.clusterPlan (makeErrCond err) with
    | ok conds =>
      obtain ⟨h1, e1, e2, -⟩ := hok conds hm
      exact ⟨h1, e1, e2⟩
    | error e =>
      cases e with
      | error msg =>
        obtain ⟨h1, e1, e2, -⟩ := herr msg hm
        exact ⟨h1, e1, e2⟩
      | panic msg =>
        exact absurd hm
          (merge_no_panic_of_json ρ h.clusterPlan (makeErrCond err) ["status", "conditions"]
            hjson msg)

/-- C18, amended, at two watched resources as decoded from JSON: one without
`status`, where the error condition becomes the only condition, and one
whose `status.conditions` holds a condition, where the merge returns the type
error and `Status` is nil. -/
theorem handle_sets_response_examples :
    reconcileErrHandler.handle RangeOrder.insertion
        (fun err => [("type", "ReconcileError"), ("reason", err)]) (.str "Error")
        ⟨⟨[("metadata", .map [("name", .str "plan-1")])]⟩, ⟨[], none, false⟩⟩
        "Missing CStorClusterConfig attachment"
      = .ok ⟨⟨[("metadata", .map [("name", .str "plan-1")])]⟩,
          ⟨[], some [("phase", .str "Error"),
              ("conditions", .slice [.strMap [("type", "ReconcileError"),
                ("reason", "Missing CStorClusterConfig attachment")]])], true⟩⟩
    ∧ reconcileErrHandler.handle RangeOrder.insertion
        (fun err => [("type", "ReconcileError"), ("reason", err)]) (.str "Error")
        ⟨conditionsObj [recordAsJSON [("type", "Online")]],
          ⟨[], some [("phase", .str "Online")], false⟩⟩
        "Missing CStorClusterConfig attachment"
      = .ok ⟨conditionsObj [recordAsJSON [("type", "Online")]], ⟨[], none, true⟩⟩
    ∧ ∃ h1, reconcileErrHandler.handle RangeOrder.reversed
          (fun err => [("type", "ReconcileError"), ("reason", err)]) (.str "Error")
          ⟨conditionsObj [recordAsJSON [("type", "Online")]], ⟨[], none, false⟩⟩
          "Missing CStorClusterConfig attachment" = .ok h1
        ∧ h1.hookResponse.SkipReconcile = true :=
  ⟨rfl, rfl,
    (handle_sets_response RangeOrder.reversed
      (fun err => [("type", "ReconcileError"), ("reason", err)]) (.str "Error")
      ⟨conditionsObj [recordAsJSON [("type", "Online")]], ⟨[], none, false⟩⟩
      "Missing CStorClusterConfig attachment").2.2.2 ⟨_, rfl⟩⟩

/-- C19 fails in the code: `MergeAndSetNestedSlice` never returns a list.  When
`MergeNestedSlice` returns a list, the list holds the new record as a
`map[string]string`, and `SetNestedSlice` panics in the deep copy of the list
before it writes; when `MergeNestedSlice` fails, `MergeAndSetNestedSlice`
fails with the same failure. -/
theorem MergeAndSetNestedSlice_never_returns (ρ : RangeOrder) (obj : Unstructured)
    (new : GoMap String) (fields : List String) :
    (∀ l, MergeNestedSlice ρ obj new fields = .ok l →
        ∃ msg, MergeAndSetNestedSlice ρ obj new fields = .error (.panic msg))
    ∧ (∀ e, MergeNestedSlice ρ obj new fields = .error e →
        MergeAndSetNestedSlice ρ obj new fields = .error e)
    ∧ (∀ r, MergeAndSetNestedSlice ρ obj new fields ≠ .ok r) := by
  have hok : ∀ l, MergeNestedSlice ρ obj new fields = .ok l →
      ∃ msg, MergeAndSetNestedSlice ρ obj new fields = .error (.panic msg) := by
    intro l hl
    have hm := ((merge_ok_iff ρ obj new fields l).mp hl).2
    obtain ⟨msg, hmsg⟩ := SetNestedSlice_strMap obj.Object l new fields
      (by rw [hm]; exact List.mem_singleton.mpr rfl)
    refine ⟨msg, ?_⟩
    unfold MergeAndSetNestedSlice
    rw [hl]
    simp only
    rw [hmsg]
  have herr : ∀ e, MergeNestedSlice ρ obj new fields = .error e →
      MergeAndSetNestedSlice ρ obj new fields = .error e := by
    intro e he
    unfold MergeAndSetNestedSlice
    rw [he]
  refine ⟨hok, herr, ?_⟩
  intro r hr
  cases hm : MergeNestedSlice ρ obj new fields with
  | error e =>
    rw [herr e hm] at hr
    cases hr
  | ok l =>
    obtain ⟨msg, hmsg⟩ := hok l hm
    rw [hmsg] at hr
    cases hr

/-- C19, at the record `{uid:a}` and `status.conditions`: over an object without
`status` the merge returns `[{uid:a}]` and the merge with write-back panics;
over a resource whose conditions, as decoded from JSON, hold an entry both
return the type error. -/
theorem MergeAndSetNestedSlice_never_returns_examples :
    MergeNestedSlice RangeOrder.insertion ⟨[]⟩ [("uid", "a")] ["status", "conditions"]
      = .ok [.strMap [("uid", "a")]]
    ∧ MergeAndSetNestedSlice RangeOrder.insertion ⟨[]⟩ [("uid", "a")] ["status", "conditions"]
      = .error (.panic "cannot deep copy map[string]string")
    ∧ MergeAndSetStatusConditions RangeOrder.insertion ⟨[]⟩ [("uid", "a")]
      = .error (.panic "cannot deep copy map[string]string")
    ∧ MergeAndSetNestedSlice RangeOrder.insertion
        (conditionsObj [recordAsJSON [("uid", "b")]]) [("uid", "a")] ["status", "conditions"]
      = .error (.error
          "Invalid nested slice: Want map[string]string: Got map[string]interface {}")
    ∧ ∀ r, MergeAndSetNestedSlice RangeOrder.insertion ⟨[]⟩ [("uid", "a")]
        ["status", "conditions"] ≠ .ok r :=
  ⟨rfl, rfl, rfl, rfl,
    (MergeAndSetNestedSlice_never_returns RangeOrder.insertion ⟨[]⟩ [("uid", "a")]
      ["status", "conditions"]).2.2⟩

/-- C20: whenever `MergeNestedSlice` returns a list, no two entries of the list
hold the key `k` with the same value, whatever the key, the new record and
the list read from the field path; so uniqueness of `k` in the list read is
preserved.  The entries are read as `map[string]string` or as JSON objects.
A list is returned only over a field path without entries, and is then the
new record alone. -/
theorem MergeNestedSlice_preserves_unique_key (ρ : RangeOrder) (obj : Unstructured)
    (new : GoMap String) (fields : List String) (k : String) (existing merged : List Value)
    (hread : GetNestedSlice obj fields = .ok existing) (huniq : UniqueKey k existing)
    (hmerge : MergeNestedSlice ρ obj new fields = .ok merged) :
    UniqueKey k merged ∧ existing = [] ∧ merged = [.strMap new] := by
  obtain ⟨hno, hm⟩ := (merge_ok_iff ρ obj new fields merged).mp hmerge
  have hnil := (GetNestedSlice_nil_iff obj fields).mpr hno
  rw [hread] at hnil
  have hex : existing = [] := Except.ok.inj hnil
  subst hex
  refine ⟨?_, rfl, hm⟩
  rw [hm]
  exact List.pairwise_singleton _ _

/-- C20, at the key `uid`, the record `{uid:a}` and a resource with an empty
`status.conditions`. -/
theorem MergeNestedSlice_preserves_unique_key_witness :
    GetNestedSlice (conditionsObj []) ["status", "conditions"] = .ok []
    ∧ UniqueKey "uid" []
    ∧ MergeNestedSlice RangeOrder.insertion (conditionsObj []) [("uid", "a")]
        ["status", "conditions"] = .ok [.strMap [("uid", "a")]]
    ∧ UniqueKey "uid" [.strMap [("uid", "a")]] :=
  ⟨rfl, List.Pairwise.nil, rfl,
    (MergeNestedSlice_preserves_unique_key RangeOrder.insertion (conditionsObj [])
      [("uid", "a")] ["status", "conditions"] "uid" [] [.strMap [("uid", "a")]] rfl
      List.Pairwise.nil rfl).1⟩
end CStorPoolAuto
